import Mathlib

/-!
Verification of the unknown-field wire validator (`x/tx/decode/unknown.go`)
and the amino-JSON sign-bytes builder (`x/tx/signing/aminojson/aminojson.go`).
Byte buffers are `List Nat`; machine integers are `Nat` with explicit
modular reduction where the Go code truncates.
-/

set_option maxHeartbeats 1600000

namespace CosmosTx

/-! ## Wire scanner: model of `google.golang.org/protobuf/encoding/protowire` -/

/-- Model of the loop inside `protowire.ConsumeVarint`: byte index `i`
(0-based), accumulated value `v`.  Returns the decoded value and the number
of bytes consumed, or `none` on truncation / overflow. -/
def consumeVarintAux : List Nat → Nat → Nat → Option (Nat × Nat)
  | [], _, _ => none
  | y :: rest, i, v =>
    if i = 9 then
      if y < 2 then some (v + y <<< 63, 10) else none
    else if y < 0x80 then
      some (v + y <<< (7 * i), i + 1)
    else
      consumeVarintAux rest (i + 1) (v + (y - 0x80) <<< (7 * i))

/-- Model of `protowire.ConsumeVarint`. -/
def consumeVarint (b : List Nat) : Option (Nat × Nat) :=
  consumeVarintAux b 0 0

/-- Model of `protowire.ConsumeTag`: decode a varint, split it into field
number (`v >> 3`, truncated to int32 as in Go) and wire type (`v & 7`), and
reject field numbers below `MinValidNumber = 1` (which includes int32
overflow into the negative range). -/
def consumeTag (b : List Nat) : Option (Nat × Nat × Nat) :=
  match consumeVarint b with
  | none => none
  | some (v, n) =>
    let raw := (v >>> 3) % 4294967296
    if raw = 0 || 2147483648 ≤ raw then none
    else some (raw, v &&& 7, n)

/-- Model of `protowire.ConsumeBytes`: a varint length followed by that many
payload bytes. -/
def consumeBytes (b : List Nat) : Option (List Nat × Nat) :=
  match consumeVarint b with
  | none => none
  | some (m, n) =>
    if (b.drop n).length < m then none
    else some ((b.drop n).take m, n + m)

/-- Result of `protowire.ConsumeFieldValue` in the fuelled embedding:
`ok n` is a non-negative byte count, `err` any negative error code, and
`fuelOut` marks fuel exhaustion (shown unreachable for adequate fuel). -/
inductive CfvResult where
  | ok (n : Nat)
  | err
  | fuelOut
deriving DecidableEq, Repr

/-- The non-recursive wire types of `protowire.ConsumeFieldValue`:
0 varint, 1 fixed64, 2 bytes, 5 fixed32; 4 (end-group) and reserved types
are errors.  Wire type 3 (start-group) is handled by `consumeGroup`. -/
def consumeNonGroup (wt : Nat) (b : List Nat) : CfvResult :=
  if wt = 0 then
    match consumeVarint b with
    | some (_, n) => .ok n
    | none => .err
  else if wt = 1 then
    if b.length < 8 then .err else .ok 8
  else if wt = 2 then
    match consumeBytes b with
    | some (_, n) => .ok n
    | none => .err
  else if wt = 5 then
    if b.length < 4 then .err else .ok 4
  else .err

mutual

/-- Model of `protowire.ConsumeFieldValue`.  Wire types: 0 varint,
1 fixed64, 2 bytes, 3 start-group, 4 end-group, 5 fixed32. -/
def consumeFieldValue : Nat → Nat → Nat → List Nat → CfvResult
  | 0, _, wt, b => if wt = 3 then .fuelOut else consumeNonGroup wt b
  | fuel + 1, num, wt, b =>
    if wt = 3 then consumeGroup fuel num b.length b else consumeNonGroup wt b

/-- Model of the start-group loop inside `protowire.ConsumeFieldValue`:
scan fields until the matching end-group tag; `n0` is the buffer length at
the start of the group, used to report the consumed count `n0 - len b`. -/
def consumeGroup : Nat → Nat → Nat → List Nat → CfvResult
  | 0, num, n0, b =>
    match consumeTag b with
    | none => .err
    | some (num2, typ2, n) =>
      if typ2 = 4 then
        if num2 = num then .ok (n0 - (b.drop n).length) else .err
      else .fuelOut
  | fuel + 1, num, n0, b =>
    match consumeTag b with
    | none => .err
    | some (num2, typ2, n) =>
      if typ2 = 4 then
        if num2 = num then .ok (n0 - (b.drop n).length) else .err
      else
        match consumeFieldValue fuel num2 typ2 (b.drop n) with
        | .ok n2 => consumeGroup fuel num n0 ((b.drop n).drop n2)
        | r => r

end

/-- `protowire.ConsumeFieldValue` at the fuel used throughout the
development (adequate: see the fuel lemmas). -/
def consumeFieldValueT (num wt : Nat) (b : List Nat) : CfvResult :=
  consumeFieldValue (2 * b.length + 2) num wt b

/-! ## Message descriptors: model of `protoreflect.MessageDescriptor` -/

/-- The protoreflect field kinds distinguished by `isWireTypeAssignable`. -/
inductive ProtoKind where
  | int32 | int64 | sint32 | sint64 | uint32 | uint64 | boolKind | enum
  | fixed64 | sfixed64 | double
  | stringKind | bytesKind | message | group
  | fixed32 | sfixed32 | float
deriving DecidableEq, Repr

mutual

/-- Model of `protoreflect.MessageDescriptor`: a full name plus the list of
field descriptors. -/
inductive MessageDescriptor where
  | mk (fullName : String) (fields : List FieldDescriptor)

/-- Model of `protoreflect.FieldDescriptor`: field number, full name, kind,
and (for message/group kinds) the nested message descriptor returned by
`fieldDesc.Message()` (`none` models a nil return). -/
inductive FieldDescriptor where
  | mk (number : Nat) (fullName : String) (kind : ProtoKind)
       (message : Option MessageDescriptor)

end

def MessageDescriptor.fullName : MessageDescriptor → String
  | .mk n _ => n

def MessageDescriptor.fields : MessageDescriptor → List FieldDescriptor
  | .mk _ fs => fs

def FieldDescriptor.number : FieldDescriptor → Nat
  | .mk n _ _ _ => n

def FieldDescriptor.fullName : FieldDescriptor → String
  | .mk _ n _ _ => n

def FieldDescriptor.kind : FieldDescriptor → ProtoKind
  | .mk _ _ k _ => k

def FieldDescriptor.message : FieldDescriptor → Option MessageDescriptor
  | .mk _ _ _ m => m

/-- Model of `desc.Fields().ByNumber(tagNum)`. -/
def MessageDescriptor.fieldByNumber (d : MessageDescriptor) (n : Nat) :
    Option FieldDescriptor :=
  d.fields.find? (fun f => f.number == n)

/-- `isWireTypeAssignable` from `x/tx/decode/unknown.go`. -/
def isWireTypeAssignable (wt : Nat) (kind : ProtoKind) : Bool :=
  match kind with
  | .int32 | .int64 | .sint32 | .sint64 | .uint32 | .uint64
  | .boolKind | .enum => wt == 0
  | .fixed64 | .sfixed64 | .double => wt == 1
  | .stringKind | .bytesKind | .message | .group => wt == 2
  | .fixed32 | .sfixed32 | .float => wt == 5

/-- The descriptor of `google.protobuf.Any` (the `anyDesc` global of
`x/tx/decode/unknown.go`): field 1 `type_url` (string), field 2 `value`
(bytes). -/
def anyDescM : MessageDescriptor :=
  .mk "google.protobuf.Any"
    [.mk 1 "google.protobuf.Any.type_url" .stringKind none,
     .mk 2 "google.protobuf.Any.value" .bytesKind none]

/-- The `anyFullName` global of `x/tx/decode/unknown.go`. -/
def anyFullNameM : String := "google.protobuf.Any"

/-- Model of `protodesc.Resolver.FindDescriptorByName`: names are byte
strings (the result of type-URL trimming). -/
abbrev Resolver := List Nat → Option MessageDescriptor

/-- Modelled from the spec: `MessageNameFromTypeURL` is not in this source
slice; per the spec, "the fully qualified name is the URL's path component
after the last `/`" (the whole URL when it has no slash).  `47` is `'/'`. -/
def messageNameFromTypeURL (url : List Nat) : List Nat :=
  (url.reverse.takeWhile (fun b => b != 47)).reverse

/-! ## Model of `proto.Unmarshal` for `google.protobuf.Any` -/

/-- Modelled from the spec plus the protobuf wire rules: UTF-8 validity as
checked by Go's `utf8.Valid` for `string` fields (here for `type_url`). -/
def utf8Valid : List Nat → Bool
  | [] => true
  | b :: rest =>
    if b < 0x80 then utf8Valid rest
    else if b < 0xC2 then false
    else if b ≤ 0xDF then
      match rest with
      | c :: rest2 => 0x80 ≤ c && c ≤ 0xBF && utf8Valid rest2
      | [] => false
    else if b ≤ 0xEF then
      match rest with
      | c :: d :: rest2 =>
        (decide ((if b = 0xE0 then 0xA0 else 0x80) ≤ c ∧
                 c ≤ (if b = 0xED then 0x9F else 0xBF))) &&
        0x80 ≤ d && d ≤ 0xBF && utf8Valid rest2
      | _ => false
    else if b ≤ 0xF4 then
      match rest with
      | c :: d :: e :: rest2 =>
        (decide ((if b = 0xF0 then 0x90 else 0x80) ≤ c ∧
                 c ≤ (if b = 0xF4 then 0x8F else 0xBF))) &&
        0x80 ≤ d && d ≤ 0xBF && 0x80 ≤ e && e ≤ 0xBF && utf8Valid rest2
      | _ => false
    else false

/-- Result of unmarshalling a `google.protobuf.Any`. -/
inductive AnyRes where
  | ok (typeUrl : List Nat) (value : List Nat)
  | err
  | fuelOut
deriving DecidableEq, Repr

/-- Modelled from the protobuf wire rules for `proto.Unmarshal` specialised
to `google.protobuf.Any` (the library call at line 108 of `unknown.go`):
scan fields, last occurrence wins for `type_url` (field 1, validated as
UTF-8) and `value` (field 2); fields with other numbers or wire types are
retained as unknown fields, i.e. skipped via `ConsumeFieldValue`. -/
def anyUnmarshalAux : Nat → List Nat → List Nat → List Nat → AnyRes
  | _, [], url, value => .ok url value
  | 0, _ :: _, _, _ => .fuelOut
  | fuel + 1, b :: bs, url, value =>
    let bz := b :: bs
    match consumeTag bz with
    | none => .err
    | some (tagNum, wireType, m) =>
      let b1 := bz.drop m
      if tagNum == 1 && wireType == 2 then
        match consumeBytes b1 with
        | none => .err
        | some (payload, n) =>
          if utf8Valid payload then anyUnmarshalAux fuel (b1.drop n) payload value
          else .err
      else if tagNum == 2 && wireType == 2 then
        match consumeBytes b1 with
        | none => .err
        | some (payload, n) => anyUnmarshalAux fuel (b1.drop n) url payload
      else
        match consumeFieldValueT tagNum wireType b1 with
        | .ok n => anyUnmarshalAux fuel (b1.drop n) url value
        | .err => .err
        | .fuelOut => .fuelOut

/-- `proto.Unmarshal(fieldBytes, &a)` for an `anypb.Any`, at the canonical
fuel. -/
def anyUnmarshal (bz : List Nat) : AnyRes :=
  anyUnmarshalAux (bz.length + 1) bz [] []

/-! ## The unknown-field validator (`RejectUnknownFields`) -/

/-- The `bit11NonCritical` constant (`1 << 10`). -/
def bit11NonCritical : Nat := 1024

/-- Errors returned by the validator, one constructor per `return` site of
`RejectUnknownFields` plus the fuel marker. -/
inductive RErr where
  | outOfFuel
  | invalidLength
  | unknownField (typeName : String) (tagNum : Nat) (wireType : Nat)
  | consumeFail (tagNum : Nat) (wireType : Nat)
  | badLengthVarint
  | anyUnmarshalFail
  | resolveFail (name : List Nat)
  | invalidWireType (wireType : Nat) (fieldName : String)
deriving DecidableEq, Repr

/-- Fuelled model of `RejectUnknownFields` (`x/tx/decode/unknown.go`,
lines 30-130).  The Go loop `for len(bz) > 0` is the tail call on the
remaining bytes; the `hasUnknownNonCriticals` accumulator threaded through
the Go code is recovered by or-ing the flags of the tail and nested calls,
which yields the same pair on every return path. -/
def rejectAux (resolver : Resolver) (allow : Bool) :
    Nat → List Nat → MessageDescriptor → Bool × Option RErr
  | _, [], _ => (false, none)
  | 0, _ :: _, _ => (false, some .outOfFuel)
  | fuel + 1, b :: bs, desc =>
    match consumeTag (b :: bs) with
    | none => (false, some .invalidLength)
    | some (tagNum, wireType, m) =>
      match desc.fieldByNumber tagNum with
      | none =>
        if tagNum &&& bit11NonCritical == 0 || !allow then
          (!(tagNum &&& bit11NonCritical == 0),
           some (.unknownField desc.fullName tagNum wireType))
        else
          match consumeFieldValueT tagNum wireType ((b :: bs).drop m) with
          | .fuelOut => (!(tagNum &&& bit11NonCritical == 0), some .outOfFuel)
          | .err =>
            (!(tagNum &&& bit11NonCritical == 0), some (.consumeFail tagNum wireType))
          | .ok n =>
            (!(tagNum &&& bit11NonCritical == 0) ||
               (rejectAux resolver allow fuel (((b :: bs).drop m).drop n) desc).1,
             (rejectAux resolver allow fuel (((b :: bs).drop m).drop n) desc).2)
      | some fd =>
        match consumeFieldValueT tagNum wireType ((b :: bs).drop m) with
        | .fuelOut => (false, some .outOfFuel)
        | .err => (false, some (.consumeFail tagNum wireType))
        | .ok n =>
          if !(isWireTypeAssignable wireType fd.kind) then
            (false, some (.invalidWireType wireType fd.fullName))
          else
            match fd.message with
            | none => rejectAux resolver allow fuel (((b :: bs).drop m).drop n) desc
            | some fm =>
              match consumeVarint (((b :: bs).drop m).take n) with
              | none => (false, some .badLengthVarint)
              | some (_, o) =>
                if fm.fullName == anyFullNameM then
                  match rejectAux resolver allow fuel
                      ((((b :: bs).drop m).take n).drop o) anyDescM with
                  | (f1, some e1) => (f1, some e1)
                  | (f1, none) =>
                    match anyUnmarshal ((((b :: bs).drop m).take n).drop o) with
                    | .fuelOut => (f1, some .outOfFuel)
                    | .err => (f1, some .anyUnmarshalFail)
                    | .ok url value =>
                      match resolver (messageNameFromTypeURL url) with
                      | none => (f1, some (.resolveFail (messageNameFromTypeURL url)))
                      | some msgDesc =>
                        match rejectAux resolver allow fuel value msgDesc with
                        | (f2, some e2) => (f1 || f2, some e2)
                        | (f2, none) =>
                          (f1 || f2 ||
                             (rejectAux resolver allow fuel
                               (((b :: bs).drop m).drop n) desc).1,
                           (rejectAux resolver allow fuel
                               (((b :: bs).drop m).drop n) desc).2)
                else
                  match rejectAux resolver allow fuel
                      ((((b :: bs).drop m).take n).drop o) fm with
                  | (f2, some e2) => (f2, some e2)
                  | (f2, none) =>
                    (f2 ||
                       (rejectAux resolver allow fuel
                         (((b :: bs).drop m).drop n) desc).1,
                     (rejectAux resolver allow fuel
                         (((b :: bs).drop m).drop n) desc).2)

/-- `RejectUnknownFields` at the canonical (adequate) fuel. -/
def RejectUnknownFields (bz : List Nat) (desc : MessageDescriptor)
    (allow : Bool) (resolver : Resolver) : Bool × Option RErr :=
  rejectAux resolver allow (bz.length + 1) bz desc

/-- `RejectUnknownFieldsStrict` (`unknown.go`, lines 19-22). -/
def RejectUnknownFieldsStrict (bz : List Nat) (desc : MessageDescriptor)
    (resolver : Resolver) : Option RErr :=
  (RejectUnknownFields bz desc false resolver).2

/-! ## Scanner lemmas: bounds and append-stability -/

theorem consumeVarintAux_bound : ∀ (b : List Nat) (i v val n : Nat),
    consumeVarintAux b i v = some (val, n) → i < n ∧ n - i ≤ b.length := by
  intro b
  induction b with
  | nil => intro i v val n h; simp [consumeVarintAux] at h
  | cons y rest ih =>
    intro i v val n h
    rw [consumeVarintAux] at h
    split at h
    · split at h
      · simp only [Option.some.injEq, Prod.mk.injEq] at h
        simp only [List.length_cons]
        omega
      · exact absurd h (by simp)
    · split at h
      · simp only [Option.some.injEq, Prod.mk.injEq] at h
        simp only [List.length_cons]
        omega
      · have := ih _ _ _ _ h
        simp only [List.length_cons]
        omega

theorem consumeVarintAux_append : ∀ (b : List Nat) (i v val n : Nat) (ext : List Nat),
    consumeVarintAux b i v = some (val, n) →
    consumeVarintAux (b ++ ext) i v = some (val, n) := by
  intro b
  induction b with
  | nil => intro i v val n ext h; simp [consumeVarintAux] at h
  | cons y rest ih =>
    intro i v val n ext h
    rw [consumeVarintAux] at h
    rw [List.cons_append, consumeVarintAux]
    by_cases h9 : i = 9
    · rw [if_pos h9] at h ⊢
      by_cases h2 : y < 2
      · rw [if_pos h2] at h ⊢; exact h
      · rw [if_neg h2] at h; exact absurd h (by simp)
    · rw [if_neg h9] at h ⊢
      by_cases h80 : y < 0x80
      · rw [if_pos h80] at h ⊢; exact h
      · rw [if_neg h80] at h ⊢; exact ih _ _ _ _ _ h

theorem consumeVarint_bound {b : List Nat} {val n : Nat}
    (h : consumeVarint b = some (val, n)) : 1 ≤ n ∧ n ≤ b.length := by
  have := consumeVarintAux_bound b 0 0 val n h
  omega

theorem consumeVarint_append {b : List Nat} {val n : Nat} (ext : List Nat)
    (h : consumeVarint b = some (val, n)) :
    consumeVarint (b ++ ext) = some (val, n) :=
  consumeVarintAux_append b 0 0 val n ext h

theorem consumeTag_bound {b : List Nat} {num wt m : Nat}
    (h : consumeTag b = some (num, wt, m)) : 1 ≤ m ∧ m ≤ b.length := by
  unfold consumeTag at h
  cases hv : consumeVarint b with
  | none => rw [hv] at h; simp at h
  | some p =>
    rw [hv] at h
    simp only at h
    split at h
    · simp at h
    · simp only [Option.some.injEq, Prod.mk.injEq] at h
      obtain ⟨-, -, hm⟩ := h
      subst hm
      exact consumeVarint_bound hv

theorem consumeTag_append {b : List Nat} {num wt m : Nat} (ext : List Nat)
    (h : consumeTag b = some (num, wt, m)) :
    consumeTag (b ++ ext) = some (num, wt, m) := by
  unfold consumeTag at h ⊢
  cases hv : consumeVarint b with
  | none => rw [hv] at h; simp at h
  | some p =>
    rw [hv] at h
    rw [consumeVarint_append ext hv]
    exact h

theorem consumeBytes_bound {b : List Nat} {p : List Nat} {n : Nat}
    (h : consumeBytes b = some (p, n)) : 1 ≤ n ∧ n ≤ b.length := by
  unfold consumeBytes at h
  cases hv : consumeVarint b with
  | none => rw [hv] at h; simp at h
  | some q =>
    rw [hv] at h
    simp only at h
    split at h
    · simp at h
    · simp only [Option.some.injEq, Prod.mk.injEq] at h
      obtain ⟨-, hn⟩ := h
      have hb := consumeVarint_bound hv
      have hlen : (b.drop q.2).length = b.length - q.2 := List.length_drop _ _
      subst hn
      omega

theorem consumeBytes_append {b : List Nat} {p : List Nat} {n : Nat} (ext : List Nat)
    (h : consumeBytes b = some (p, n)) :
    consumeBytes (b ++ ext) = some (p, n) := by
  unfold consumeBytes at h ⊢
  cases hv : consumeVarint b with
  | none => rw [hv] at h; simp at h
  | some q =>
    rw [hv] at h
    rw [consumeVarint_append ext hv]
    simp only at h ⊢
    have hb := consumeVarint_bound hv
    have hdrop : (b ++ ext).drop q.2 = b.drop q.2 ++ ext :=
      List.drop_append_of_le_length hb.2
    rw [hdrop]
    split at h
    · simp at h
    · have hle : ¬ (b.drop q.2 ++ ext).length < q.1 := by
        simp only [List.length_append]
        omega
      rw [if_neg hle]
      have htake : (b.drop q.2 ++ ext).take q.1 = (b.drop q.2).take q.1 := by
        apply List.take_append_of_le_length
        simp only [List.length_drop] at *
        omega
      rw [htake]
      exact h

/-! ## Field-value consumption lemmas -/

theorem consumeNonGroup_ne_fuelOut {wt : Nat} {b : List Nat} :
    consumeNonGroup wt b ≠ .fuelOut := by
  unfold consumeNonGroup
  by_cases h0 : wt = 0
  · rw [if_pos h0]
    cases consumeVarint b <;> simp
  · rw [if_neg h0]
    by_cases h1 : wt = 1
    · rw [if_pos h1]; split <;> simp
    · rw [if_neg h1]
      by_cases h2 : wt = 2
      · rw [if_pos h2]
        cases consumeBytes b <;> simp
      · rw [if_neg h2]
        by_cases h5 : wt = 5
        · rw [if_pos h5]; split <;> simp
        · rw [if_neg h5]; simp

theorem consumeNonGroup_bound {wt : Nat} {b : List Nat} {n : Nat}
    (h : consumeNonGroup wt b = .ok n) : 1 ≤ n ∧ n ≤ b.length := by
  unfold consumeNonGroup at h
  by_cases h0 : wt = 0
  · rw [if_pos h0] at h
    cases hv : consumeVarint b with
    | none => rw [hv] at h; exact absurd h (by simp)
    | some q =>
      obtain ⟨v, k⟩ := q
      rw [hv] at h
      simp only [CfvResult.ok.injEq] at h
      have := consumeVarint_bound hv
      omega
  · rw [if_neg h0] at h
    by_cases h1 : wt = 1
    · rw [if_pos h1] at h
      split at h
      · exact absurd h (by simp)
      · simp only [CfvResult.ok.injEq] at h
        omega
    · rw [if_neg h1] at h
      by_cases h2 : wt = 2
      · rw [if_pos h2] at h
        cases hb : consumeBytes b with
        | none => rw [hb] at h; exact absurd h (by simp)
        | some q =>
          obtain ⟨p, k⟩ := q
          rw [hb] at h
          simp only [CfvResult.ok.injEq] at h
          have := consumeBytes_bound hb
          omega
      · rw [if_neg h2] at h
        by_cases h5 : wt = 5
        · rw [if_pos h5] at h
          split at h
          · exact absurd h (by simp)
          · simp only [CfvResult.ok.injEq] at h
            omega
        · rw [if_neg h5] at h
          exact absurd h (by simp)

theorem consumeNonGroup_append {wt : Nat} {b : List Nat} {n : Nat} (ext : List Nat)
    (h : consumeNonGroup wt b = .ok n) :
    consumeNonGroup wt (b ++ ext) = .ok n := by
  unfold consumeNonGroup at h ⊢
  by_cases h0 : wt = 0
  · rw [if_pos h0] at h ⊢
    cases hv : consumeVarint b with
    | none => rw [hv] at h; exact absurd h (by simp)
    | some q =>
      obtain ⟨v, k⟩ := q
      rw [hv] at h
      rw [consumeVarint_append ext hv]
      exact h
  · rw [if_neg h0] at h ⊢
    by_cases h1 : wt = 1
    · rw [if_pos h1] at h ⊢
      split at h
      · exact absurd h (by simp)
      · rw [if_neg (by simp only [List.length_append]; omega)]
        exact h
    · rw [if_neg h1] at h ⊢
      by_cases h2 : wt = 2
      · rw [if_pos h2] at h ⊢
        cases hb : consumeBytes b with
        | none => rw [hb] at h; exact absurd h (by simp)
        | some q =>
          obtain ⟨p, k⟩ := q
          rw [hb] at h
          rw [consumeBytes_append ext hb]
          exact h
      · rw [if_neg h2] at h ⊢
        by_cases h5 : wt = 5
        · rw [if_pos h5] at h ⊢
          split at h
          · exact absurd h (by simp)
          · rw [if_neg (by simp only [List.length_append]; omega)]
            exact h
        · rw [if_neg h5] at h
          exact absurd h (by simp)

theorem consumeGroup_bound : ∀ (fuel num n0 : Nat) (b : List Nat) (r : Nat),
    b.length ≤ n0 → consumeGroup fuel num n0 b = .ok r →
    n0 - b.length < r ∧ r ≤ n0 := by
  intro fuel
  induction fuel with
  | zero =>
    intro num n0 b r hlen h
    rw [consumeGroup] at h
    cases ht : consumeTag b with
    | none => rw [ht] at h; exact absurd h (by simp)
    | some t =>
      obtain ⟨num2, typ2, n⟩ := t
      rw [ht] at h
      simp only at h
      by_cases h4 : typ2 = 4
      · rw [if_pos h4] at h
        by_cases hnum : num2 = num
        · rw [if_pos hnum] at h
          simp only [CfvResult.ok.injEq] at h
          have hb := consumeTag_bound ht
          have hd : (b.drop n).length = b.length - n := List.length_drop _ _
          omega
        · rw [if_neg hnum] at h; exact absurd h (by simp)
      · rw [if_neg h4] at h; exact absurd h (by simp)
  | succ fuel ih =>
    intro num n0 b r hlen h
    rw [consumeGroup] at h
    cases ht : consumeTag b with
    | none => rw [ht] at h; exact absurd h (by simp)
    | some t =>
      obtain ⟨num2, typ2, n⟩ := t
      rw [ht] at h
      simp only at h
      have hb := consumeTag_bound ht
      by_cases h4 : typ2 = 4
      · rw [if_pos h4] at h
        by_cases hnum : num2 = num
        · rw [if_pos hnum] at h
          simp only [CfvResult.ok.injEq] at h
          have hd : (b.drop n).length = b.length - n := List.length_drop _ _
          omega
        · rw [if_neg hnum] at h; exact absurd h (by simp)
      · rw [if_neg h4] at h
        cases hc : consumeFieldValue fuel num2 typ2 (b.drop n) with
        | ok n2 =>
          rw [hc] at h
          have hlen2 : (((b.drop n)).drop n2).length ≤ n0 := by
            simp only [List.length_drop]; omega
          have := ih num n0 _ r hlen2 h
          simp only [List.length_drop] at this
          omega
        | err => rw [hc] at h; exact absurd h (by simp)
        | fuelOut => rw [hc] at h; exact absurd h (by simp)

theorem consumeFieldValue_bound : ∀ (fuel num wt : Nat) (b : List Nat) (n : Nat),
    consumeFieldValue fuel num wt b = .ok n → 1 ≤ n ∧ n ≤ b.length := by
  intro fuel num wt b n h
  cases fuel with
  | zero =>
    rw [consumeFieldValue] at h
    by_cases h3 : wt = 3
    · rw [if_pos h3] at h; exact absurd h (by simp)
    · rw [if_neg h3] at h; exact consumeNonGroup_bound h
  | succ fuel =>
    rw [consumeFieldValue] at h
    by_cases h3 : wt = 3
    · rw [if_pos h3] at h
      have := consumeGroup_bound fuel num b.length b n le_rfl h
      omega
    · rw [if_neg h3] at h; exact consumeNonGroup_bound h

theorem consumeFieldValue_consumeGroup_append : ∀ (fuel : Nat),
    (∀ (num wt : Nat) (b : List Nat) (n : Nat) (ext : List Nat),
       consumeFieldValue fuel num wt b = .ok n →
       consumeFieldValue fuel num wt (b ++ ext) = .ok n) ∧
    (∀ (num n0 : Nat) (b : List Nat) (r : Nat) (ext : List Nat),
       b.length ≤ n0 → consumeGroup fuel num n0 b = .ok r →
       consumeGroup fuel num (n0 + ext.length) (b ++ ext) = .ok r) := by
  intro fuel
  induction fuel with
  | zero =>
    constructor
    · intro num wt b n ext h
      rw [consumeFieldValue] at h ⊢
      by_cases h3 : wt = 3
      · rw [if_pos h3] at h; exact absurd h (by simp)
      · rw [if_neg h3] at h ⊢; exact consumeNonGroup_append ext h
    · intro num n0 b r ext hlen h
      rw [consumeGroup] at h ⊢
      cases ht : consumeTag b with
      | none => rw [ht] at h; exact absurd h (by simp)
      | some t =>
        obtain ⟨num2, typ2, n⟩ := t
        rw [ht] at h
        rw [consumeTag_append ext ht]
        simp only at h ⊢
        have hb := consumeTag_bound ht
        by_cases h4 : typ2 = 4
        · rw [if_pos h4] at h ⊢
          by_cases hnum : num2 = num
          · rw [if_pos hnum] at h ⊢
            simp only [CfvResult.ok.injEq] at h ⊢
            rw [List.drop_append_of_le_length hb.2]
            simp only [List.length_append, List.length_drop] at h ⊢
            omega
          · rw [if_neg hnum] at h; exact absurd h (by simp)
        · rw [if_neg h4] at h; exact absurd h (by simp)
  | succ fuel ih =>
    constructor
    · intro num wt b n ext h
      rw [consumeFieldValue] at h ⊢
      by_cases h3 : wt = 3
      · rw [if_pos h3] at h ⊢
        have := ih.2 num b.length b n ext le_rfl h
        simpa [List.length_append] using this
      · rw [if_neg h3] at h ⊢; exact consumeNonGroup_append ext h
    · intro num n0 b r ext hlen h
      rw [consumeGroup] at h ⊢
      cases ht : consumeTag b with
      | none => rw [ht] at h; exact absurd h (by simp)
      | some t =>
        obtain ⟨num2, typ2, n⟩ := t
        rw [ht] at h
        rw [consumeTag_append ext ht]
        simp only at h ⊢
        have hb := consumeTag_bound ht
        by_cases h4 : typ2 = 4
        · rw [if_pos h4] at h ⊢
          by_cases hnum : num2 = num
          · rw [if_pos hnum] at h ⊢
            simp only [CfvResult.ok.injEq] at h ⊢
            rw [List.drop_append_of_le_length hb.2]
            simp only [List.length_append, List.length_drop] at h ⊢
            omega
          · rw [if_neg hnum] at h; exact absurd h (by simp)
        · rw [if_neg h4] at h ⊢
          cases hc : consumeFieldValue fuel num2 typ2 (b.drop n) with
          | ok n2 =>
            rw [hc] at h
            have hc2 := ih.1 num2 typ2 (b.drop n) n2 ext hc
            have hcb := consumeFieldValue_bound fuel num2 typ2 (b.drop n) n2 hc
            rw [List.drop_append_of_le_length hb.2, hc2]
            show consumeGroup fuel num (n0 + ext.length)
              ((b.drop n ++ ext).drop n2) = .ok r
            rw [List.drop_append_of_le_length hcb.2]
            apply ih.2
            · simp only [List.length_drop]; omega
            · exact h
          | err => rw [hc] at h; exact absurd h (by simp)
          | fuelOut => rw [hc] at h; exact absurd h (by simp)

theorem consumeFieldValue_consumeGroup_mono : ∀ (fuel : Nat),
    (∀ (fuel' num wt : Nat) (b : List Nat), fuel ≤ fuel' →
       consumeFieldValue fuel num wt b ≠ .fuelOut →
       consumeFieldValue fuel' num wt b = consumeFieldValue fuel num wt b) ∧
    (∀ (fuel' num n0 : Nat) (b : List Nat), fuel ≤ fuel' →
       consumeGroup fuel num n0 b ≠ .fuelOut →
       consumeGroup fuel' num n0 b = consumeGroup fuel num n0 b) := by
  intro fuel
  induction fuel with
  | zero =>
    constructor
    · intro fuel' num wt b _ hne
      by_cases h3 : wt = 3
      · rw [consumeFieldValue, if_pos h3] at hne; exact absurd rfl hne
      · cases fuel' with
        | zero => rfl
        | succ f' =>
          rw [consumeFieldValue, if_neg h3, consumeFieldValue, if_neg h3]
    · intro fuel' num n0 b _ hne
      cases fuel' with
      | zero => rfl
      | succ f' =>
        rw [consumeGroup] at hne
        rw [consumeGroup, consumeGroup]
        cases ht : consumeTag b with
        | none => simp [ht]
        | some t =>
          obtain ⟨num2, typ2, n⟩ := t
          rw [ht] at hne
          simp only [ht] at hne ⊢
          by_cases h4 : typ2 = 4
          · simp only [if_pos h4]
          · rw [if_neg h4] at hne; exact absurd rfl hne
  | succ fuel ih =>
    constructor
    · intro fuel' num wt b hle hne
      cases fuel' with
      | zero => omega
      | succ f' =>
        by_cases h3 : wt = 3
        · rw [consumeFieldValue, if_pos h3] at hne
          rw [consumeFieldValue, if_pos h3, consumeFieldValue, if_pos h3]
          exact ih.2 f' num b.length b (by omega) hne
        · rw [consumeFieldValue, if_neg h3, consumeFieldValue, if_neg h3]
    · intro fuel' num n0 b hle hne
      cases fuel' with
      | zero => omega
      | succ f' =>
        rw [consumeGroup] at hne
        rw [consumeGroup, consumeGroup]
        cases ht : consumeTag b with
        | none => simp [ht]
        | some t =>
          obtain ⟨num2, typ2, n⟩ := t
          rw [ht] at hne
          simp only [ht] at hne ⊢
          by_cases h4 : typ2 = 4
          · simp only [if_pos h4]
          · rw [if_neg h4] at hne
            simp only [if_neg h4]
            cases hc : consumeFieldValue fuel num2 typ2 (b.drop n) with
            | fuelOut => rw [hc] at hne; exact absurd rfl hne
            | err =>
              rw [hc] at hne
              rw [ih.1 f' num2 typ2 (b.drop n) (by omega) (by rw [hc]; simp), hc]
            | ok n2 =>
              rw [hc] at hne
              rw [ih.1 f' num2 typ2 (b.drop n) (by omega) (by rw [hc]; simp), hc]
              exact ih.2 f' num n0 ((b.drop n).drop n2) (by omega) hne

theorem consumeFieldValue_consumeGroup_adequate : ∀ (fuel : Nat),
    (∀ (num wt : Nat) (b : List Nat), 2 * b.length + 2 ≤ fuel →
       consumeFieldValue fuel num wt b ≠ .fuelOut) ∧
    (∀ (num n0 : Nat) (b : List Nat), 2 * b.length + 1 ≤ fuel →
       consumeGroup fuel num n0 b ≠ .fuelOut) := by
  intro fuel
  induction fuel with
  | zero =>
    constructor
    · intro num wt b h; omega
    · intro num n0 b h; omega
  | succ fuel ih =>
    constructor
    · intro num wt b hf
      by_cases h3 : wt = 3
      · rw [consumeFieldValue, if_pos h3]
        exact ih.2 num b.length b (by omega)
      · rw [consumeFieldValue, if_neg h3]
        exact consumeNonGroup_ne_fuelOut
    · intro num n0 b hf
      rw [consumeGroup]
      cases ht : consumeTag b with
      | none => simp
      | some t =>
        obtain ⟨num2, typ2, n⟩ := t
        simp only
        have hb := consumeTag_bound ht
        by_cases h4 : typ2 = 4
        · rw [if_pos h4]
          by_cases hnum : num2 = num
          · rw [if_pos hnum]; simp
          · rw [if_neg hnum]; simp
        · rw [if_neg h4]
          cases hc : consumeFieldValue fuel num2 typ2 (b.drop n) with
          | fuelOut =>
            exact absurd hc (ih.1 num2 typ2 (b.drop n)
              (by simp only [List.length_drop]; omega))
          | err => simp
          | ok n2 =>
            have hcb := consumeFieldValue_bound fuel num2 typ2 (b.drop n) n2 hc
            exact ih.2 num n0 ((b.drop n).drop n2)
              (by simp only [List.length_drop] at hcb ⊢; omega)

theorem consumeFieldValueT_ne_fuelOut {num wt : Nat} {b : List Nat} :
    consumeFieldValueT num wt b ≠ .fuelOut :=
  (consumeFieldValue_consumeGroup_adequate (2 * b.length + 2)).1 num wt b le_rfl

theorem consumeFieldValueT_bound {num wt : Nat} {b : List Nat} {n : Nat}
    (h : consumeFieldValueT num wt b = .ok n) : 1 ≤ n ∧ n ≤ b.length :=
  consumeFieldValue_bound _ _ _ _ _ h

theorem consumeFieldValueT_append {num wt : Nat} {b : List Nat} {n : Nat}
    (ext : List Nat) (h : consumeFieldValueT num wt b = .ok n) :
    consumeFieldValueT num wt (b ++ ext) = .ok n := by
  have h1 : consumeFieldValue (2 * b.length + 2) num wt (b ++ ext) = .ok n :=
    (consumeFieldValue_consumeGroup_append _).1 _ _ _ _ ext h
  have h2 := (consumeFieldValue_consumeGroup_mono (2 * b.length + 2)).1
      (2 * (b ++ ext).length + 2) num wt (b ++ ext)
      (by simp only [List.length_append]; omega) (by rw [h1]; simp)
  unfold consumeFieldValueT
  rw [h2, h1]

/-! ## Any-unmarshal lemmas -/

theorem consumeBytes_payload_bound {b : List Nat} {p : List Nat} {n : Nat}
    (h : consumeBytes b = some (p, n)) : p.length < n := by
  unfold consumeBytes at h
  cases hv : consumeVarint b with
  | none => rw [hv] at h; exact absurd h (by simp)
  | some q =>
    obtain ⟨ml, k⟩ := q
    rw [hv] at h
    simp only at h
    split at h
    · exact absurd h (by simp)
    · simp only [Option.some.injEq, Prod.mk.injEq] at h
      obtain ⟨hp, hn⟩ := h
      have hb := consumeVarint_bound hv
      have hlen : ((b.drop k).take ml).length ≤ ml := by
        simp [List.length_take]
      subst hp hn
      omega

theorem anyUnmarshalAux_value_bound : ∀ (fuel : Nat) (b url value u v : List Nat),
    anyUnmarshalAux fuel b url value = .ok u v →
    v = value ∨ v.length < b.length := by
  intro fuel
  induction fuel with
  | zero =>
    intro b url value u v h
    cases b with
    | nil =>
      rw [anyUnmarshalAux] at h
      simp only [AnyRes.ok.injEq] at h
      exact Or.inl h.2.symm
    | cons x xs => rw [anyUnmarshalAux] at h; exact absurd h (by simp)
  | succ fuel ih =>
    intro b url value u v h
    cases b with
    | nil =>
      rw [anyUnmarshalAux] at h
      simp only [AnyRes.ok.injEq] at h
      exact Or.inl h.2.symm
    | cons x xs =>
      rw [anyUnmarshalAux] at h
      cases ht : consumeTag (x :: xs) with
      | none => rw [ht] at h; exact absurd h (by simp)
      | some t =>
        obtain ⟨tagNum, wireType, m⟩ := t
        rw [ht] at h
        simp only at h
        have hm := consumeTag_bound ht
        by_cases h1 : (tagNum == 1 && wireType == 2) = true
        · rw [if_pos h1] at h
          cases hb : consumeBytes ((x :: xs).drop m) with
          | none => rw [hb] at h; exact absurd h (by simp)
          | some q =>
            obtain ⟨payload, n⟩ := q
            rw [hb] at h
            simp only at h
            split at h
            · rcases ih _ _ _ _ _ h with hv | hv
              · exact Or.inl hv
              · right
                simp only [List.length_drop] at hv ⊢
                omega
            · exact absurd h (by simp)
        · rw [if_neg h1] at h
          by_cases h2 : (tagNum == 2 && wireType == 2) = true
          · rw [if_pos h2] at h
            cases hb : consumeBytes ((x :: xs).drop m) with
            | none => rw [hb] at h; exact absurd h (by simp)
            | some q =>
              obtain ⟨payload, n⟩ := q
              rw [hb] at h
              simp only at h
              rcases ih _ _ _ _ _ h with hv | hv
              · right
                subst hv
                have hpb := consumeBytes_payload_bound hb
                have hnb := consumeBytes_bound hb
                simp only [List.length_drop] at *
                omega
              · right
                simp only [List.length_drop] at hv ⊢
                omega
          · rw [if_neg h2] at h
            cases hc : consumeFieldValueT tagNum wireType ((x :: xs).drop m) with
            | ok n =>
              rw [hc] at h
              rcases ih _ _ _ _ _ h with hv | hv
              · exact Or.inl hv
              · right
                simp only [List.length_drop] at hv ⊢
                omega
            | err => rw [hc] at h; exact absurd h (by simp)
            | fuelOut => rw [hc] at h; exact absurd h (by simp)

theorem anyUnmarshalAux_adequate : ∀ (fuel : Nat) (b url value : List Nat),
    b.length + 1 ≤ fuel → anyUnmarshalAux fuel b url value ≠ .fuelOut := by
  intro fuel
  induction fuel with
  | zero =>
    intro b url value hle
    cases b with
    | nil => rw [anyUnmarshalAux]; simp
    | cons x xs => simp at hle
  | succ fuel ih =>
    intro b url value hle
    cases b with
    | nil => rw [anyUnmarshalAux]; simp
    | cons x xs =>
      rw [anyUnmarshalAux]
      cases ht : consumeTag (x :: xs) with
      | none => simp
      | some t =>
        obtain ⟨tagNum, wireType, m⟩ := t
        simp only
        have hm := consumeTag_bound ht
        simp only [List.length_cons] at hle hm
        by_cases h1 : (tagNum == 1 && wireType == 2) = true
        · rw [if_pos h1]
          cases hb : consumeBytes ((x :: xs).drop m) with
          | none => simp
          | some q =>
            obtain ⟨payload, n⟩ := q
            simp only
            split
            · apply ih
              simp only [List.length_drop, List.length_cons]
              omega
            · simp
        · rw [if_neg h1]
          by_cases h2 : (tagNum == 2 && wireType == 2) = true
          · rw [if_pos h2]
            cases hb : consumeBytes ((x :: xs).drop m) with
            | none => simp
            | some q =>
              obtain ⟨payload, n⟩ := q
              simp only
              apply ih
              simp only [List.length_drop, List.length_cons]
              omega
          · rw [if_neg h2]
            cases hc : consumeFieldValueT tagNum wireType ((x :: xs).drop m) with
            | ok n =>
              apply ih
              simp only [List.length_drop, List.length_cons]
              omega
            | err => simp
            | fuelOut => exact absurd hc consumeFieldValueT_ne_fuelOut

theorem anyUnmarshal_ne_fuelOut {bz : List Nat} : anyUnmarshal bz ≠ .fuelOut :=
  anyUnmarshalAux_adequate _ bz [] [] le_rfl

theorem anyUnmarshal_value_bound {bz u v : List Nat}
    (h : anyUnmarshal bz = .ok u v) : v = [] ∨ v.length < bz.length :=
  anyUnmarshalAux_value_bound _ bz [] [] u v h

/-! ## Validator fuel lemmas -/

theorem rejectAux_irrel (res : Resolver) (allow : Bool) :
    ∀ (fuel fuel' : Nat) (bz : List Nat) (desc : MessageDescriptor),
      bz.length + 1 ≤ fuel → bz.length + 1 ≤ fuel' →
      rejectAux res allow fuel bz desc = rejectAux res allow fuel' bz desc := by
  intro fuel
  induction fuel using Nat.strong_induction_on with
  | _ fuel ih =>
    intro fuel' bz desc h1 h2
    cases bz with
    | nil => cases fuel <;> cases fuel' <;> rfl
    | cons b bs =>
      obtain ⟨f, rfl⟩ : ∃ f, fuel = f + 1 :=
        ⟨fuel - 1, by simp only [List.length_cons] at h1; omega⟩
      obtain ⟨f', rfl⟩ : ∃ g, fuel' = g + 1 :=
        ⟨fuel' - 1, by simp only [List.length_cons] at h2; omega⟩
      simp only [List.length_cons] at h1 h2
      cases ht : consumeTag (b :: bs) with
      | none => simp only [rejectAux, ht]
      | some t =>
        obtain ⟨tagNum, wireType, m⟩ := t
        have hm := consumeTag_bound ht
        simp only [List.length_cons] at hm
        cases hfd : desc.fieldByNumber tagNum with
        | none =>
          cases hcrit : (tagNum &&& bit11NonCritical == 0 || !allow) with
          | true => simp only [rejectAux, ht, hfd, hcrit, if_true]
          | false =>
            cases hcv : consumeFieldValueT tagNum wireType ((b :: bs).drop m) with
            | fuelOut => simp only [rejectAux, ht, hfd, hcrit, hcv, Bool.false_eq_true, if_false]
            | err => simp only [rejectAux, ht, hfd, hcrit, hcv, Bool.false_eq_true, if_false]
            | ok n =>
              have heq := ih f (by omega) f' (((b :: bs).drop m).drop n) desc
                (by simp only [List.length_drop, List.length_cons]; omega)
                (by simp only [List.length_drop, List.length_cons]; omega)
              simp only [rejectAux, ht, hfd, hcrit, hcv, Bool.false_eq_true, if_false, heq]
        | some fd =>
          cases hcv : consumeFieldValueT tagNum wireType ((b :: bs).drop m) with
          | fuelOut => simp only [rejectAux, ht, hfd, hcv]
          | err => simp only [rejectAux, ht, hfd, hcv]
          | ok n =>
            have hn := consumeFieldValueT_bound hcv
            simp only [List.length_drop, List.length_cons] at hn
            cases hassign : (!(isWireTypeAssignable wireType fd.kind)) with
            | true => simp only [rejectAux, ht, hfd, hcv, hassign, if_true]
            | false =>
              cases hmsg : fd.message with
              | none =>
                have heq := ih f (by omega) f' (((b :: bs).drop m).drop n) desc
                  (by simp only [List.length_drop, List.length_cons]; omega)
                  (by simp only [List.length_drop, List.length_cons]; omega)
                simp only [rejectAux, ht, hfd, hcv, hassign, Bool.false_eq_true,
                  if_false, hmsg, heq]
              | some fm =>
                cases hvv : consumeVarint (((b :: bs).drop m).take n) with
                | none =>
                  simp only [rejectAux, ht, hfd, hcv, hassign, Bool.false_eq_true,
                    if_false, hmsg, hvv]
                | some vo =>
                  obtain ⟨v, o⟩ := vo
                  have ho := consumeVarint_bound hvv
                  simp only [List.length_take, List.length_drop, List.length_cons] at ho
                  have heq3 := ih f (by omega) f' (((b :: bs).drop m).drop n) desc
                    (by simp only [List.length_drop, List.length_cons]; omega)
                    (by simp only [List.length_drop, List.length_cons]; omega)
                  cases hany : (fm.fullName == anyFullNameM) with
                  | false =>
                    have heq2 := ih f (by omega) f'
                      ((((b :: bs).drop m).take n).drop o) fm
                      (by simp only [List.length_drop, List.length_take,
                            List.length_cons]; omega)
                      (by simp only [List.length_drop, List.length_take,
                            List.length_cons]; omega)
                    cases hr2 : rejectAux res allow f'
                        ((((b :: bs).drop m).take n).drop o) fm with
                    | mk f2 e2 =>
                      cases e2 with
                      | some e =>
                        simp only [rejectAux, ht, hfd, hcv, hassign, Bool.false_eq_true,
                          if_false, hmsg, hvv, hany, heq2, hr2]
                      | none =>
                        simp only [rejectAux, ht, hfd, hcv, hassign, Bool.false_eq_true,
                          if_false, hmsg, hvv, hany, heq2, hr2, heq3]
                  | true =>
                    have heq1 := ih f (by omega) f'
                      ((((b :: bs).drop m).take n).drop o) anyDescM
                      (by simp only [List.length_drop, List.length_take,
                            List.length_cons]; omega)
                      (by simp only [List.length_drop, List.length_take,
                            List.length_cons]; omega)
                    cases hr1 : rejectAux res allow f'
                        ((((b :: bs).drop m).take n).drop o) anyDescM with
                    | mk f1 e1 =>
                      cases e1 with
                      | some e =>
                        simp only [rejectAux, ht, hfd, hcv, hassign, Bool.false_eq_true,
                          if_false, hmsg, hvv, hany, if_true, heq1, hr1]
                      | none =>
                        cases ha : anyUnmarshal ((((b :: bs).drop m).take n).drop o) with
                        | fuelOut =>
                          simp only [rejectAux, ht, hfd, hcv, hassign, Bool.false_eq_true,
                            if_false, hmsg, hvv, hany, if_true, heq1, hr1, ha]
                        | err =>
                          simp only [rejectAux, ht, hfd, hcv, hassign, Bool.false_eq_true,
                            if_false, hmsg, hvv, hany, if_true, heq1, hr1, ha]
                        | ok url value =>
                          have hvb := anyUnmarshal_value_bound ha
                          simp only [List.length_drop, List.length_take,
                            List.length_cons] at hvb
                          have hval1 : value.length + 1 ≤ f := by
                            rcases hvb with hv | hv
                            · subst hv; simp only [List.length_nil]; omega
                            · omega
                          have hval2 : value.length + 1 ≤ f' := by
                            rcases hvb with hv | hv
                            · subst hv; simp only [List.length_nil]; omega
                            · omega
                          cases hres : res (messageNameFromTypeURL url) with
                          | none =>
                            simp only [rejectAux, ht, hfd, hcv, hassign,
                              Bool.false_eq_true, if_false, hmsg, hvv, hany, if_true,
                              heq1, hr1, ha, hres]
                          | some msgDesc =>
                            have heq2 := ih f (by omega) f' value msgDesc hval1 hval2
                            cases hr2 : rejectAux res allow f' value msgDesc with
                            | mk f2 e2 =>
                              cases e2 with
                              | some e =>
                                simp only [rejectAux, ht, hfd, hcv, hassign,
                                  Bool.false_eq_true, if_false, hmsg, hvv, hany,
                                  if_true, heq1, hr1, ha, hres, heq2, hr2]
                              | none =>
                                simp only [rejectAux, ht, hfd, hcv, hassign,
                                  Bool.false_eq_true, if_false, hmsg, hvv, hany,
                                  if_true, heq1, hr1, ha, hres, heq2, hr2, heq3]

theorem rejectAux_adequate (res : Resolver) (allow : Bool) :
    ∀ (fuel : Nat) (bz : List Nat) (desc : MessageDescriptor),
      bz.length + 1 ≤ fuel →
      (rejectAux res allow fuel bz desc).2 ≠ some .outOfFuel := by
  intro fuel
  induction fuel with
  | zero => intro bz desc h; omega
  | succ f ihf =>
    intro bz desc h
    cases bz with
    | nil => simp [rejectAux]
    | cons b bs =>
      simp only [List.length_cons] at h
      cases ht : consumeTag (b :: bs) with
      | none => simp [rejectAux, ht]
      | some t =>
        obtain ⟨tagNum, wireType, m⟩ := t
        have hm := consumeTag_bound ht
        simp only [List.length_cons] at hm
        cases hfd : desc.fieldByNumber tagNum with
        | none =>
          cases hcrit : (tagNum &&& bit11NonCritical == 0 || !allow) with
          | true => simp [rejectAux, ht, hfd, hcrit]
          | false =>
            cases hcv : consumeFieldValueT tagNum wireType ((b :: bs).drop m) with
            | fuelOut => exact absurd hcv consumeFieldValueT_ne_fuelOut
            | err => simp [rejectAux, ht, hfd, hcrit, hcv]
            | ok n =>
              simp only [rejectAux, ht, hfd, hcrit, hcv, Bool.false_eq_true, if_false]
              exact ihf (((b :: bs).drop m).drop n) desc
                (by simp only [List.length_drop, List.length_cons]; omega)
        | some fd =>
          cases hcv : consumeFieldValueT tagNum wireType ((b :: bs).drop m) with
          | fuelOut => exact absurd hcv consumeFieldValueT_ne_fuelOut
          | err => simp [rejectAux, ht, hfd, hcv]
          | ok n =>
            have hn := consumeFieldValueT_bound hcv
            simp only [List.length_drop, List.length_cons] at hn
            cases hassign : (!(isWireTypeAssignable wireType fd.kind)) with
            | true => simp [rejectAux, ht, hfd, hcv, hassign]
            | false =>
              cases hmsg : fd.message with
              | none =>
                simp only [rejectAux, ht, hfd, hcv, hassign, Bool.false_eq_true,
                  if_false, hmsg]
                exact ihf (((b :: bs).drop m).drop n) desc
                  (by simp only [List.length_drop, List.length_cons]; omega)
              | some fm =>
                cases hvv : consumeVarint (((b :: bs).drop m).take n) with
                | none =>
                  simp [rejectAux, ht, hfd, hcv, hassign, hmsg, hvv]
                | some vo =>
                  obtain ⟨v, o⟩ := vo
                  have ho := consumeVarint_bound hvv
                  simp only [List.length_take, List.length_drop, List.length_cons] at ho
                  have hrest3 : (((b :: bs).drop m).drop n).length + 1 ≤ f := by
                    simp only [List.length_drop, List.length_cons]; omega
                  have hinner : ((((b :: bs).drop m).take n).drop o).length + 1 ≤ f := by
                    simp only [List.length_drop, List.length_take, List.length_cons]
                    omega
                  cases hany : (fm.fullName == anyFullNameM) with
                  | false =>
                    cases hr2 : rejectAux res allow f
                        ((((b :: bs).drop m).take n).drop o) fm with
                    | mk f2 e2 =>
                      cases e2 with
                      | some e =>
                        have h2 := ihf ((((b :: bs).drop m).take n).drop o) fm hinner
                        rw [hr2] at h2
                        simp only [rejectAux, ht, hfd, hcv, hassign, Bool.false_eq_true,
                          if_false, hmsg, hvv, hany, hr2]
                        exact h2
                      | none =>
                        simp only [rejectAux, ht, hfd, hcv, hassign, Bool.false_eq_true,
                          if_false, hmsg, hvv, hany, hr2]
                        exact ihf (((b :: bs).drop m).drop n) desc hrest3
                  | true =>
                    cases hr1 : rejectAux res allow f
                        ((((b :: bs).drop m).take n).drop o) anyDescM with
                    | mk f1 e1 =>
                      cases e1 with
                      | some e =>
                        have h2 := ihf ((((b :: bs).drop m).take n).drop o)
                          anyDescM hinner
                        rw [hr1] at h2
                        simp only [rejectAux, ht, hfd, hcv, hassign, Bool.false_eq_true,
                          if_false, hmsg, hvv, hany, if_true, hr1]
                        exact h2
                      | none =>
                        cases ha : anyUnmarshal ((((b :: bs).drop m).take n).drop o) with
                        | fuelOut => exact absurd ha anyUnmarshal_ne_fuelOut
                        | err =>
                          simp [rejectAux, ht, hfd, hcv, hassign, hmsg, hvv, hany,
                            hr1, ha]
                        | ok url value =>
                          have hvb := anyUnmarshal_value_bound ha
                          simp only [List.length_drop, List.length_take,
                            List.length_cons] at hvb
                          have hval : value.length + 1 ≤ f := by
                            rcases hvb with hv | hv
                            · subst hv; simp only [List.length_nil]; omega
                            · omega
                          cases hres : res (messageNameFromTypeURL url) with
                          | none =>
                            simp [rejectAux, ht, hfd, hcv, hassign, hmsg, hvv, hany,
                              hr1, ha, hres]
                          | some msgDesc =>
                            cases hr2 : rejectAux res allow f value msgDesc with
                            | mk f2 e2 =>
                              cases e2 with
                              | some e =>
                                have h2 := ihf value msgDesc hval
                                rw [hr2] at h2
                                simp only [rejectAux, ht, hfd, hcv, hassign,
                                  Bool.false_eq_true, if_false, hmsg, hvv, hany,
                                  if_true, hr1, ha, hres, hr2]
                                exact h2
                              | none =>
                                simp only [rejectAux, ht, hfd, hcv, hassign,
                                  Bool.false_eq_true, if_false, hmsg, hvv, hany,
                                  if_true, hr1, ha, hres, hr2]
                                exact ihf (((b :: bs).drop m).drop n) desc hrest3

/-- The canonical fuel of `RejectUnknownFields` is adequate and any larger
fuel computes the same result. -/
theorem rejectAux_eq_canon (res : Resolver) (allow : Bool) (fuel : Nat)
    (bz : List Nat) (desc : MessageDescriptor) (h : bz.length + 1 ≤ fuel) :
    rejectAux res allow fuel bz desc = RejectUnknownFields bz desc allow res :=
  rejectAux_irrel res allow fuel (bz.length + 1) bz desc h le_rfl

/-! ## Claim theorems: per-field behaviour -/

/-- A small concrete descriptor used by the witnesses: one string field. -/
def testDesc : MessageDescriptor :=
  .mk "test.M" [.mk 1 "test.M.a" .stringKind none]

/-- A resolver that knows no types, used by witnesses that never resolve. -/
def testRes : Resolver := fun _ => none

/-- C1: an unknown field (number absent from the descriptor) whose number has
bit 1024 set is non-critical: with `allow = true` the validator records the
saw-non-critical flag, skips the field's value bytes and continues on the
remaining buffer; an unknown field whose number has bit 1024 clear is
critical and causes an immediate unknown-field failure under both modes. -/
theorem unknownField_criticality_step
    (bz : List Nat) (desc : MessageDescriptor) (res : Resolver)
    (tagNum wireType m : Nat)
    (ht : consumeTag bz = some (tagNum, wireType, m))
    (hfd : desc.fieldByNumber tagNum = none) :
    (tagNum &&& bit11NonCritical ≠ 0 →
      ∀ n, consumeFieldValueT tagNum wireType (bz.drop m) = .ok n →
        RejectUnknownFields bz desc true res =
          (true, (RejectUnknownFields ((bz.drop m).drop n) desc true res).2)) ∧
    (tagNum &&& bit11NonCritical = 0 →
      ∀ allow, RejectUnknownFields bz desc allow res =
        (false, some (.unknownField desc.fullName tagNum wireType))) := by
  cases bz with
  | nil => simp [consumeTag, consumeVarint, consumeVarintAux] at ht
  | cons b bs =>
    have hm := consumeTag_bound ht
    simp only [List.length_cons] at hm
    constructor
    · intro hnc n hcv
      have hc0 : (tagNum &&& bit11NonCritical == 0) = false := by
        simp only [beq_eq_false_iff_ne, ne_eq]
        exact hnc
      unfold RejectUnknownFields
      simp only [rejectAux, ht, hfd, hc0, Bool.not_true, Bool.or_false,
        Bool.false_eq_true, if_false, hcv, Bool.not_false, Bool.true_or]
      rw [rejectAux_eq_canon res true _ _ desc
        (by simp only [List.length_drop, List.length_cons]; omega)]
      rfl
    · intro hcr allow
      have hc0 : (tagNum &&& bit11NonCritical == 0) = true := by
        simp only [beq_iff_eq]
        exact hcr
      unfold RejectUnknownFields
      simp only [rejectAux, ht, hfd, hc0, Bool.true_or, if_true, Bool.not_true]

theorem unknownField_criticality_step_witness :
    consumeTag [136, 64, 0] = some (1025, 0, 2) ∧
    testDesc.fieldByNumber 1025 = none ∧
    1025 &&& bit11NonCritical ≠ 0 ∧
    consumeFieldValueT 1025 0 ([136, 64, 0].drop 2) = .ok 1 ∧
    RejectUnknownFields [136, 64, 0] testDesc true testRes =
      (true, (RejectUnknownFields [] testDesc true testRes).2) := by
  refine ⟨rfl, rfl, by decide, rfl, ?_⟩
  exact (unknownField_criticality_step [136, 64, 0] testDesc testRes 1025 0 2
    rfl rfl).1 (by decide) 1 rfl

/-- C10: when an unknown non-critical field is hit with `allow = false`, the
returned pair still has the saw-non-critical flag set to `true` alongside
the unknown-field error: the flag is recorded before the failure return. -/
theorem strict_mode_flag_set_on_reject
    (bz : List Nat) (desc : MessageDescriptor) (res : Resolver)
    (tagNum wireType m : Nat)
    (ht : consumeTag bz = some (tagNum, wireType, m))
    (hfd : desc.fieldByNumber tagNum = none)
    (hnc : tagNum &&& bit11NonCritical ≠ 0) :
    RejectUnknownFields bz desc false res =
      (true, some (.unknownField desc.fullName tagNum wireType)) := by
  cases bz with
  | nil => simp [consumeTag, consumeVarint, consumeVarintAux] at ht
  | cons b bs =>
    have hc0 : (tagNum &&& bit11NonCritical == 0) = false := by
      simp only [beq_eq_false_iff_ne, ne_eq]
      exact hnc
    unfold RejectUnknownFields
    simp only [rejectAux, ht, hfd, hc0, Bool.not_false, Bool.or_true, if_true]

theorem strict_mode_flag_set_on_reject_witness :
    RejectUnknownFields [136, 64, 0] testDesc false testRes =
      (true, some (.unknownField "test.M" 1025 0)) :=
  strict_mode_flag_set_on_reject [136, 64, 0] testDesc testRes 1025 0 2
    rfl rfl (by decide)

/-- C9: the validator terminates within fuel bounded by the buffer length:
at fuel `length + 1` the scan never exhausts fuel (each loop iteration
consumes at least one byte and each recursive call runs on a strictly
shorter slice), and any larger fuel computes the same result. -/
theorem rejectUnknownFields_terminates (bz : List Nat)
    (desc : MessageDescriptor) (allow : Bool) (res : Resolver) :
    (RejectUnknownFields bz desc allow res).2 ≠ some RErr.outOfFuel ∧
    ∀ fuel, bz.length + 1 ≤ fuel →
      rejectAux res allow fuel bz desc = RejectUnknownFields bz desc allow res :=
  ⟨rejectAux_adequate res allow (bz.length + 1) bz desc le_rfl,
   fun fuel h => rejectAux_eq_canon res allow fuel bz desc h⟩

theorem rejectUnknownFields_terminates_witness :
    (RejectUnknownFields [8, 1, 65] testDesc false testRes).2 ≠
      some RErr.outOfFuel ∧
    ∀ fuel, [8, 1, 65].length + 1 ≤ fuel →
      rejectAux testRes false fuel [8, 1, 65] testDesc =
        RejectUnknownFields [8, 1, 65] testDesc false testRes :=
  rejectUnknownFields_terminates [8, 1, 65] testDesc false testRes

/-! ## Concatenation: a cleanly scanned prefix composes with any suffix -/

theorem rejectUnknownFields_concat_aux (res : Resolver) (allow : Bool)
    (desc : MessageDescriptor) :
    ∀ (N : Nat) (pre rest : List Nat) (f1 : Bool), pre.length ≤ N →
      RejectUnknownFields pre desc allow res = (f1, none) →
      RejectUnknownFields (pre ++ rest) desc allow res =
        (f1 || (RejectUnknownFields rest desc allow res).1,
         (RejectUnknownFields rest desc allow res).2) := by
  intro N
  induction N with
  | zero =>
    intro pre rest f1 hN h
    have hpre : pre = [] := List.length_eq_zero.mp (by omega)
    subst hpre
    have h0 : RejectUnknownFields [] desc allow res =
        ((false : Bool), (none : Option RErr)) := rfl
    rw [h0] at h
    injection h with hf he
    subst hf
    simp only [List.nil_append, Bool.false_or]
  | succ N ihN =>
    intro pre rest f1 hN h
    cases pre with
    | nil =>
      have h0 : RejectUnknownFields [] desc allow res =
          ((false : Bool), (none : Option RErr)) := rfl
      rw [h0] at h
      injection h with hf he
      subst hf
      simp only [List.nil_append, Bool.false_or]
    | cons b bs =>
      simp only [List.length_cons] at hN
      rw [List.cons_append]
      cases ht : consumeTag (b :: bs) with
      | none =>
        unfold RejectUnknownFields at h
        simp only [rejectAux, ht] at h
        exact absurd h (by simp)
      | some t =>
        obtain ⟨tagNum, wireType, m⟩ := t
        have hm := consumeTag_bound ht
        simp only [List.length_cons] at hm
        have ht' : consumeTag (b :: (bs ++ rest)) = some (tagNum, wireType, m) := by
          have := consumeTag_append rest ht
          rwa [List.cons_append] at this
        have hdr : (b :: (bs ++ rest)).drop m = (b :: bs).drop m ++ rest := by
          rw [← List.cons_append]
          exact List.drop_append_of_le_length hm.2
        cases hfd : desc.fieldByNumber tagNum with
        | none =>
          cases hcrit : (tagNum &&& bit11NonCritical == 0 || !allow) with
          | true =>
            unfold RejectUnknownFields at h
            simp only [rejectAux, ht, hfd, hcrit, if_true] at h
            exact absurd h (by simp)
          | false =>
            cases hcv : consumeFieldValueT tagNum wireType ((b :: bs).drop m) with
            | fuelOut =>
              unfold RejectUnknownFields at h
              simp only [rejectAux, ht, hfd, hcrit, Bool.false_eq_true, if_false,
                hcv] at h
              exact absurd h (by simp)
            | err =>
              unfold RejectUnknownFields at h
              simp only [rejectAux, ht, hfd, hcrit, Bool.false_eq_true, if_false,
                hcv] at h
              exact absurd h (by simp)
            | ok n =>
              have hnb := consumeFieldValueT_bound hcv
              simp only [List.length_drop, List.length_cons] at hnb
              have hcv' : consumeFieldValueT tagNum wireType
                  ((b :: (bs ++ rest)).drop m) = .ok n := by
                rw [hdr]; exact consumeFieldValueT_append rest hcv
              have hdt : ((b :: (bs ++ rest)).drop m).drop n =
                  (((b :: bs).drop m).drop n) ++ rest := by
                rw [hdr]
                exact List.drop_append_of_le_length (consumeFieldValueT_bound hcv).2
              unfold RejectUnknownFields at h
              simp only [rejectAux, ht, hfd, hcrit, Bool.false_eq_true, if_false,
                hcv] at h
              rw [rejectAux_eq_canon res allow _ _ desc
                (by simp only [List.length_drop, List.length_cons]; omega)] at h
              cases hr : RejectUnknownFields (((b :: bs).drop m).drop n)
                  desc allow res with
              | mk rf re =>
                rw [hr] at h
                have h' : ((!(tagNum &&& bit11NonCritical == 0)) || rf, re) =
                    (f1, none) := h
                injection h' with h1 h2
                subst h2
                unfold RejectUnknownFields
                simp only [rejectAux, ht', hfd, hcrit, Bool.false_eq_true, if_false,
                  hcv', hdt]
                rw [rejectAux_eq_canon res allow _ _ desc
                  (by simp only [List.length_append, List.length_drop,
                        List.length_cons]; omega)]
                rw [ihN (((b :: bs).drop m).drop n) rest rf
                  (by simp only [List.length_drop, List.length_cons]; omega) hr]
                rw [← h1, Bool.or_assoc]
                rfl
        | some fd =>
          cases hcv : consumeFieldValueT tagNum wireType ((b :: bs).drop m) with
          | fuelOut =>
            unfold RejectUnknownFields at h
            simp only [rejectAux, ht, hfd, hcv] at h
            exact absurd h (by simp)
          | err =>
            unfold RejectUnknownFields at h
            simp only [rejectAux, ht, hfd, hcv] at h
            exact absurd h (by simp)
          | ok n =>
            have hnb := consumeFieldValueT_bound hcv
            simp only [List.length_drop, List.length_cons] at hnb
            have hcv' : consumeFieldValueT tagNum wireType
                ((b :: (bs ++ rest)).drop m) = .ok n := by
              rw [hdr]; exact consumeFieldValueT_append rest hcv
            have hdt : ((b :: (bs ++ rest)).drop m).drop n =
                (((b :: bs).drop m).drop n) ++ rest := by
              rw [hdr]
              exact List.drop_append_of_le_length (consumeFieldValueT_bound hcv).2
            have htk : ((b :: (bs ++ rest)).drop m).take n =
                ((b :: bs).drop m).take n := by
              rw [hdr]
              exact List.take_append_of_le_length (consumeFieldValueT_bound hcv).2
            cases hassign : (!(isWireTypeAssignable wireType fd.kind)) with
            | true =>
              unfold RejectUnknownFields at h
              simp only [rejectAux, ht, hfd, hcv, hassign, if_true] at h
              exact absurd h (by simp)
            | false =>
              cases hmsg : fd.message with
              | none =>
                unfold RejectUnknownFields at h
                simp only [rejectAux, ht, hfd, hcv, hassign, Bool.false_eq_true,
                  if_false, hmsg] at h
                rw [rejectAux_eq_canon res allow _ _ desc
                  (by simp only [List.length_drop, List.length_cons]; omega)] at h
                unfold RejectUnknownFields
                simp only [rejectAux, ht', hfd, hcv', hassign, Bool.false_eq_true,
                  if_false, hmsg, hdt]
                rw [rejectAux_eq_canon res allow _ _ desc
                  (by simp only [List.length_append, List.length_drop,
                        List.length_cons]; omega)]
                exact ihN (((b :: bs).drop m).drop n) rest f1
                  (by simp only [List.length_drop, List.length_cons]; omega) h
              | some fm =>
                cases hvv : consumeVarint (((b :: bs).drop m).take n) with
                | none =>
                  unfold RejectUnknownFields at h
                  simp only [rejectAux, ht, hfd, hcv, hassign, Bool.false_eq_true,
                    if_false, hmsg, hvv] at h
                  exact absurd h (by simp)
                | some vo =>
                  obtain ⟨v, o⟩ := vo
                  have ho := consumeVarint_bound hvv
                  simp only [List.length_take, List.length_drop,
                    List.length_cons] at ho
                  have hvv' : consumeVarint (((b :: (bs ++ rest)).drop m).take n) =
                      some (v, o) := by rw [htk]; exact hvv
                  have hin : (((b :: (bs ++ rest)).drop m).take n).drop o =
                      (((b :: bs).drop m).take n).drop o := by rw [htk]
                  cases hany : (fm.fullName == anyFullNameM) with
                  | false =>
                    unfold RejectUnknownFields at h
                    simp only [rejectAux, ht, hfd, hcv, hassign, Bool.false_eq_true,
                      if_false, hmsg, hvv, hany] at h
                    rw [rejectAux_eq_canon res allow _ _ fm
                      (by simp only [List.length_drop, List.length_take,
                            List.length_cons]; omega)] at h
                    cases hr2 : RejectUnknownFields
                        ((((b :: bs).drop m).take n).drop o) fm allow res with
                    | mk g2 e2 =>
                      rw [hr2] at h
                      cases e2 with
                      | some e => exact absurd h (by simp)
                      | none =>
                        rw [rejectAux_eq_canon res allow _ _ desc
                          (by simp only [List.length_drop, List.length_cons];
                              omega)] at h
                        cases hr3 : RejectUnknownFields (((b :: bs).drop m).drop n)
                            desc allow res with
                        | mk g3 e3 =>
                          rw [hr3] at h
                          have h' : ((g2 || g3 : Bool), e3) = (f1, none) := h
                          injection h' with h1 h2
                          subst h2
                          unfold RejectUnknownFields
                          simp only [rejectAux, ht', hfd, hcv', hassign,
                            Bool.false_eq_true, if_false, hmsg, hvv', hany, hin, hdt]
                          rw [rejectAux_eq_canon res allow _ _ fm
                            (by simp only [List.length_drop, List.length_take,
                                  List.length_append, List.length_cons]; omega)]
                          rw [hr2]
                          rw [rejectAux_eq_canon res allow _ _ desc
                            (by simp only [List.length_append, List.length_drop,
                                  List.length_cons]; omega)]
                          rw [ihN (((b :: bs).drop m).drop n) rest g3
                            (by simp only [List.length_drop, List.length_cons];
                                omega) hr3]
                          rw [← h1, Bool.or_assoc]
                          rfl
                  | true =>
                    have hcanon1 := rejectAux_eq_canon res allow (b :: bs).length
                      ((((b :: bs).drop m).take n).drop o) anyDescM
                      (by simp only [List.length_drop, List.length_take,
                            List.length_cons]; omega)
                    cases hr1 : RejectUnknownFields
                        ((((b :: bs).drop m).take n).drop o) anyDescM allow res with
                    | mk g1 e1 =>
                      cases e1 with
                      | some e =>
                        unfold RejectUnknownFields at h
                        simp only [rejectAux, ht, hfd, hcv, hassign,
                          Bool.false_eq_true, if_false, hmsg, hvv, hany, if_true,
                          hcanon1, hr1] at h
                        exact absurd h (by simp)
                      | none =>
                        cases ha : anyUnmarshal
                            ((((b :: bs).drop m).take n).drop o) with
                        | fuelOut =>
                          unfold RejectUnknownFields at h
                          simp only [rejectAux, ht, hfd, hcv, hassign,
                            Bool.false_eq_true, if_false, hmsg, hvv, hany, if_true,
                            hcanon1, hr1, ha] at h
                          exact absurd h (by simp)
                        | err =>
                          unfold RejectUnknownFields at h
                          simp only [rejectAux, ht, hfd, hcv, hassign,
                            Bool.false_eq_true, if_false, hmsg, hvv, hany, if_true,
                            hcanon1, hr1, ha] at h
                          exact absurd h (by simp)
                        | ok url value =>
                          have hvb := anyUnmarshal_value_bound ha
                          simp only [List.length_drop, List.length_take,
                            List.length_cons] at hvb
                          cases hres : res (messageNameFromTypeURL url) with
                          | none =>
                            unfold RejectUnknownFields at h
                            simp only [rejectAux, ht, hfd, hcv, hassign,
                              Bool.false_eq_true, if_false, hmsg, hvv, hany, if_true,
                              hcanon1, hr1, ha, hres] at h
                            exact absurd h (by simp)
                          | some msgDesc =>
                            have hcanon2 := rejectAux_eq_canon res allow
                              (b :: bs).length value msgDesc
                              (by rcases hvb with hv | hv
                                  · subst hv
                                    simp only [List.length_nil, List.length_cons]
                                    omega
                                  · simp only [List.length_cons]
                                    omega)
                            cases hr2 : RejectUnknownFields value
                                msgDesc allow res with
                            | mk g2 e2 =>
                              cases e2 with
                              | some e =>
                                unfold RejectUnknownFields at h
                                simp only [rejectAux, ht, hfd, hcv, hassign,
                                  Bool.false_eq_true, if_false, hmsg, hvv, hany,
                                  if_true, hcanon1, hr1, ha, hres, hcanon2,
                                  hr2] at h
                                exact absurd h (by simp)
                              | none =>
                                have hcanon3 := rejectAux_eq_canon res allow
                                  (b :: bs).length (((b :: bs).drop m).drop n) desc
                                  (by simp only [List.length_drop, List.length_cons]
                                      omega)
                                cases hr3 : RejectUnknownFields
                                    (((b :: bs).drop m).drop n) desc allow res with
                                | mk g3 e3 =>
                                  unfold RejectUnknownFields at h
                                  simp only [rejectAux, ht, hfd, hcv, hassign,
                                    Bool.false_eq_true, if_false, hmsg, hvv, hany,
                                    if_true, hcanon1, hr1, ha, hres, hcanon2, hr2,
                                    hcanon3, hr3] at h
                                  have h' : ((g1 || g2 || g3 : Bool), e3) =
                                      (f1, none) := by
                                    rw [← h]
                                  injection h' with h1 h2
                                  subst h2
                                  have hcanon1b := rejectAux_eq_canon res allow
                                    (b :: (bs ++ rest)).length
                                    ((((b :: bs).drop m).take n).drop o) anyDescM
                                    (by simp only [List.length_drop, List.length_take,
                                          List.length_append, List.length_cons]
                                        omega)
                                  have hcanon2b := rejectAux_eq_canon res allow
                                    (b :: (bs ++ rest)).length value msgDesc
                                    (by rcases hvb with hv | hv
                                        · subst hv; simp only [List.length_nil]
                                          simp only [List.length_append,
                                            List.length_cons]
                                          omega
                                        · simp only [List.length_append,
                                            List.length_cons]; omega)
                                  have hcanon3b := rejectAux_eq_canon res allow
                                    (b :: (bs ++ rest)).length
                                    ((((b :: bs).drop m).drop n) ++ rest) desc
                                    (by simp only [List.length_append,
                                          List.length_drop, List.length_cons]
                                        omega)
                                  have hih := ihN (((b :: bs).drop m).drop n) rest g3
                                    (by simp only [List.length_drop,
                                          List.length_cons]; omega) hr3
                                  unfold RejectUnknownFields
                                  simp only [rejectAux, ht', hfd, hcv', hassign,
                                    Bool.false_eq_true, if_false, hmsg, hvv', hany,
                                    if_true, hin, hdt, hcanon1b, hr1, ha, hres,
                                    hcanon2b, hr2, hcanon3b, hih]
                                  rw [← h1]
                                  simp only [Bool.or_assoc]
                                  rfl

/-- A cleanly scanned prefix composes with any suffix: the flags or, the
suffix decides the error. -/
theorem rejectUnknownFields_concat (res : Resolver) (allow : Bool)
    (desc : MessageDescriptor) (pre rest : List Nat) (f1 : Bool)
    (h : RejectUnknownFields pre desc allow res = (f1, none)) :
    RejectUnknownFields (pre ++ rest) desc allow res =
      (f1 || (RejectUnknownFields rest desc allow res).1,
       (RejectUnknownFields rest desc allow res).2) :=
  rejectUnknownFields_concat_aux res allow desc pre.length pre rest f1 le_rfl h
theorem strict_of_permissive_aux (res : Resolver) :
    ∀ (N : Nat) (bz : List Nat) (desc : MessageDescriptor) (f : Bool),
      bz.length ≤ N →
      RejectUnknownFields bz desc true res = (f, none) →
      (f = false → RejectUnknownFields bz desc false res = (false, none)) ∧
      (f = true → ∀ ext,
        (RejectUnknownFields (bz ++ ext) desc false res).1 = true ∧
        ∃ e, (RejectUnknownFields (bz ++ ext) desc false res).2 = some e) := by
  intro N
  induction N with
  | zero =>
    intro bz desc f hN h
    have hbz : bz = [] := List.length_eq_zero.mp (by omega)
    subst hbz
    have h0 : RejectUnknownFields [] desc true res =
        ((false : Bool), (none : Option RErr)) := rfl
    rw [h0] at h
    injection h with hf he
    subst hf
    exact ⟨fun _ => rfl, fun hcon => by simp at hcon⟩
  | succ N ihN =>
    intro bz desc f hN h
    cases bz with
    | nil =>
      have h0 : RejectUnknownFields [] desc true res =
          ((false : Bool), (none : Option RErr)) := rfl
      rw [h0] at h
      injection h with hf he
      subst hf
      exact ⟨fun _ => rfl, fun hcon => by simp at hcon⟩
    | cons b bs =>
      simp only [List.length_cons] at hN
      cases ht : consumeTag (b :: bs) with
      | none =>
        unfold RejectUnknownFields at h
        simp only [rejectAux, ht] at h
        exact absurd h (by simp)
      | some t =>
        obtain ⟨tagNum, wireType, m⟩ := t
        have hm := consumeTag_bound ht
        simp only [List.length_cons] at hm
        have hTE : ∀ ext : List Nat,
            consumeTag (b :: (bs ++ ext)) = some (tagNum, wireType, m) := by
          intro ext
          have := consumeTag_append ext ht
          rwa [List.cons_append] at this
        have hdrE : ∀ ext : List Nat,
            (b :: (bs ++ ext)).drop m = (b :: bs).drop m ++ ext := by
          intro ext
          rw [← List.cons_append]
          exact List.drop_append_of_le_length hm.2
        cases hfd : desc.fieldByNumber tagNum with
        | none =>
          cases hc0 : (tagNum &&& bit11NonCritical == 0) with
          | true =>
            unfold RejectUnknownFields at h
            simp only [rejectAux, ht, hfd, hc0, Bool.true_or, if_true] at h
            exact absurd h (by simp)
          | false =>
            cases hcv : consumeFieldValueT tagNum wireType ((b :: bs).drop m) with
            | fuelOut =>
              unfold RejectUnknownFields at h
              simp only [rejectAux, ht, hfd, hc0, Bool.not_true, Bool.or_false,
                Bool.false_eq_true, if_false, hcv] at h
              exact absurd h (by simp)
            | err =>
              unfold RejectUnknownFields at h
              simp only [rejectAux, ht, hfd, hc0, Bool.not_true, Bool.or_false,
                Bool.false_eq_true, if_false, hcv] at h
              exact absurd h (by simp)
            | ok n =>
              have hcanon := rejectAux_eq_canon res true (b :: bs).length
                (((b :: bs).drop m).drop n) desc
                (by simp only [List.length_drop, List.length_cons]; omega)
              cases hr : RejectUnknownFields (((b :: bs).drop m).drop n)
                  desc true res with
              | mk rf re =>
                unfold RejectUnknownFields at h
                simp only [rejectAux, ht, hfd, hc0, Bool.not_true, Bool.or_false,
                  Bool.false_eq_true, if_false, hcv, hcanon, hr, Bool.not_false,
                  Bool.true_or, Prod.mk.injEq] at h
                obtain ⟨h1, h2⟩ := h
                subst h1
                refine ⟨fun hf => by simp at hf, fun _ => ?_⟩
                intro ext
                have hstrict : RejectUnknownFields ((b :: bs) ++ ext) desc
                    false res =
                    (true, some (.unknownField desc.fullName tagNum wireType)) := by
                  rw [List.cons_append]
                  unfold RejectUnknownFields
                  simp only [rejectAux, hTE ext, hfd, hc0, Bool.not_false,
                    Bool.or_true, if_true]
                rw [hstrict]
                exact ⟨rfl, _, rfl⟩
        | some fd =>
          cases hcv : consumeFieldValueT tagNum wireType ((b :: bs).drop m) with
          | fuelOut =>
            unfold RejectUnknownFields at h
            simp only [rejectAux, ht, hfd, hcv] at h
            exact absurd h (by simp)
          | err =>
            unfold RejectUnknownFields at h
            simp only [rejectAux, ht, hfd, hcv] at h
            exact absurd h (by simp)
          | ok n =>
            have hnb := consumeFieldValueT_bound hcv
            simp only [List.length_drop, List.length_cons] at hnb
            have hcvE : ∀ ext : List Nat, consumeFieldValueT tagNum wireType
                ((b :: (bs ++ ext)).drop m) = .ok n := by
              intro ext
              rw [hdrE ext]
              exact consumeFieldValueT_append ext hcv
            have hdtE : ∀ ext : List Nat, ((b :: (bs ++ ext)).drop m).drop n =
                (((b :: bs).drop m).drop n) ++ ext := by
              intro ext
              rw [hdrE ext]
              exact List.drop_append_of_le_length (consumeFieldValueT_bound hcv).2
            have htkE : ∀ ext : List Nat, ((b :: (bs ++ ext)).drop m).take n =
                ((b :: bs).drop m).take n := by
              intro ext
              rw [hdrE ext]
              exact List.take_append_of_le_length (consumeFieldValueT_bound hcv).2
            cases hassign : (!(isWireTypeAssignable wireType fd.kind)) with
            | true =>
              unfold RejectUnknownFields at h
              simp only [rejectAux, ht, hfd, hcv, hassign, if_true] at h
              exact absurd h (by simp)
            | false =>
              cases hmsg : fd.message with
              | none =>
                have hcanonP := rejectAux_eq_canon res true (b :: bs).length
                  (((b :: bs).drop m).drop n) desc
                  (by simp only [List.length_drop, List.length_cons]; omega)
                unfold RejectUnknownFields at h
                simp only [rejectAux, ht, hfd, hcv, hassign, Bool.false_eq_true,
                  if_false, hmsg, hcanonP] at h
                have hIH := ihN (((b :: bs).drop m).drop n) desc f
                  (by simp only [List.length_drop, List.length_cons]; omega) h
                refine ⟨fun hf => ?_, fun hf => ?_⟩
                · have hx := hIH.1 hf
                  have hcanonS := rejectAux_eq_canon res false (b :: bs).length
                    (((b :: bs).drop m).drop n) desc
                    (by simp only [List.length_drop, List.length_cons]; omega)
                  unfold RejectUnknownFields
                  simp only [rejectAux, ht, hfd, hcv, hassign, Bool.false_eq_true,
                    if_false, hmsg, hcanonS, hx]
                · intro ext
                  have hx := hIH.2 hf ext
                  have hcanonSE := rejectAux_eq_canon res false
                    (b :: (bs ++ ext)).length
                    ((((b :: bs).drop m).drop n) ++ ext) desc
                    (by simp only [List.length_append, List.length_drop,
                          List.length_cons]; omega)
                  rw [List.cons_append]
                  unfold RejectUnknownFields
                  simp only [rejectAux, hTE ext, hfd, hcvE ext, hassign,
                    Bool.false_eq_true, if_false, hmsg, hdtE ext, hcanonSE]
                  exact hx
              | some fm =>
                cases hvv : consumeVarint (((b :: bs).drop m).take n) with
                | none =>
                  unfold RejectUnknownFields at h
                  simp only [rejectAux, ht, hfd, hcv, hassign, Bool.false_eq_true,
                    if_false, hmsg, hvv] at h
                  exact absurd h (by simp)
                | some vo =>
                  obtain ⟨v, o⟩ := vo
                  have ho := consumeVarint_bound hvv
                  simp only [List.length_take, List.length_drop,
                    List.length_cons] at ho
                  have hvvE : ∀ ext : List Nat,
                      consumeVarint (((b :: (bs ++ ext)).drop m).take n) =
                        some (v, o) := by
                    intro ext; rw [htkE ext]; exact hvv
                  have hinE : ∀ ext : List Nat,
                      (((b :: (bs ++ ext)).drop m).take n).drop o =
                        (((b :: bs).drop m).take n).drop o := by
                    intro ext; rw [htkE ext]
                  have hbnd2 : ((((b :: bs).drop m).take n).drop o).length + 1 ≤
                      (b :: bs).length := by
                    simp only [List.length_drop, List.length_take, List.length_cons]
                    omega
                  have hbnd3 : (((b :: bs).drop m).drop n).length + 1 ≤
                      (b :: bs).length := by
                    simp only [List.length_drop, List.length_cons]; omega
                  have hbnd2E : ∀ ext : List Nat,
                      ((((b :: bs).drop m).take n).drop o).length + 1 ≤
                        (b :: (bs ++ ext)).length := by
                    intro ext
                    simp only [List.length_drop, List.length_take, List.length_cons,
                      List.length_append]
                    omega
                  cases hany : (fm.fullName == anyFullNameM) with
                  | false =>
                    have hcanonP2 := rejectAux_eq_canon res true (b :: bs).length
                      ((((b :: bs).drop m).take n).drop o) fm hbnd2
                    have hcanonP3 := rejectAux_eq_canon res true (b :: bs).length
                      (((b :: bs).drop m).drop n) desc hbnd3
                    cases hr2 : RejectUnknownFields
                        ((((b :: bs).drop m).take n).drop o) fm true res with
                    | mk g2 e2 =>
                      cases e2 with
                      | some e =>
                        unfold RejectUnknownFields at h
                        simp only [rejectAux, ht, hfd, hcv, hassign,
                          Bool.false_eq_true, if_false, hmsg, hvv, hany, hcanonP2,
                          hr2] at h
                        exact absurd h (by simp)
                      | none =>
                        cases hr3 : RejectUnknownFields
                            (((b :: bs).drop m).drop n) desc true res with
                        | mk g3 e3 =>
                          unfold RejectUnknownFields at h
                          simp only [rejectAux, ht, hfd, hcv, hassign,
                            Bool.false_eq_true, if_false, hmsg, hvv, hany, hcanonP2,
                            hr2, hcanonP3, hr3, Prod.mk.injEq] at h
                          obtain ⟨h1, h2⟩ := h
                          subst h1 h2
                          have hIH2 := ihN ((((b :: bs).drop m).take n).drop o) fm g2
                            (by simp only [List.length_drop, List.length_take,
                                  List.length_cons]; omega) hr2
                          have hIH3 := ihN (((b :: bs).drop m).drop n) desc g3
                            (by simp only [List.length_drop, List.length_cons];
                                omega) hr3
                          cases g2 with
                          | true =>
                            refine ⟨fun hf => by simp at hf, fun _ => ?_⟩
                            intro ext
                            obtain ⟨hs1, e, hs2⟩ := hIH2.2 rfl []
                            rw [List.append_nil] at hs1 hs2
                            cases hr2s : RejectUnknownFields
                                ((((b :: bs).drop m).take n).drop o)
                                fm false res with
                            | mk s2f s2e =>
                              rw [hr2s] at hs1 hs2
                              simp only at hs1 hs2
                              subst hs1 hs2
                              have hcanonS2E := rejectAux_eq_canon res false
                                (b :: (bs ++ ext)).length
                                ((((b :: bs).drop m).take n).drop o) fm
                                (hbnd2E ext)
                              have hstrict : RejectUnknownFields ((b :: bs) ++ ext)
                                  desc false res = (true, some e) := by
                                rw [List.cons_append]
                                unfold RejectUnknownFields
                                simp only [rejectAux, hTE ext, hfd, hcvE ext,
                                  hassign, Bool.false_eq_true, if_false, hmsg,
                                  hvvE ext, hany, hinE ext, hcanonS2E, hr2s]
                              rw [hstrict]
                              exact ⟨rfl, e, rfl⟩
                          | false =>
                            have hx := hIH2.1 rfl
                            cases g3 with
                            | true =>
                              refine ⟨fun hf => by simp at hf, fun _ => ?_⟩
                              intro ext
                              obtain ⟨hs1, e, hs2⟩ := hIH3.2 rfl ext
                              cases hr3s : RejectUnknownFields
                                  ((((b :: bs).drop m).drop n) ++ ext) desc
                                  false res with
                              | mk s3f s3e =>
                                rw [hr3s] at hs1 hs2
                                simp only at hs1 hs2
                                subst hs1 hs2
                                have hcanonS2E := rejectAux_eq_canon res false
                                  (b :: (bs ++ ext)).length
                                  ((((b :: bs).drop m).take n).drop o) fm
                                  (hbnd2E ext)
                                have hcanonS3E := rejectAux_eq_canon res false
                                  (b :: (bs ++ ext)).length
                                  ((((b :: bs).drop m).drop n) ++ ext) desc
                                  (by simp only [List.length_append,
                                        List.length_drop, List.length_cons]; omega)
                                have hstrict : RejectUnknownFields ((b :: bs) ++ ext)
                                    desc false res = (true, some e) := by
                                  rw [List.cons_append]
                                  unfold RejectUnknownFields
                                  simp only [rejectAux, hTE ext, hfd, hcvE ext,
                                    hassign, Bool.false_eq_true, if_false, hmsg,
                                    hvvE ext, hany, hinE ext, hcanonS2E, hx,
                                    hdtE ext, hcanonS3E, hr3s, Bool.false_or]
                                rw [hstrict]
                                exact ⟨rfl, e, rfl⟩
                            | false =>
                              have hy := hIH3.1 rfl
                              refine ⟨fun _ => ?_, fun hf => by simp at hf⟩
                              have hcanonS2 := rejectAux_eq_canon res false
                                (b :: bs).length
                                ((((b :: bs).drop m).take n).drop o) fm hbnd2
                              have hcanonS3 := rejectAux_eq_canon res false
                                (b :: bs).length
                                (((b :: bs).drop m).drop n) desc hbnd3
                              unfold RejectUnknownFields
                              simp only [rejectAux, ht, hfd, hcv, hassign,
                                Bool.false_eq_true, if_false, hmsg, hvv, hany,
                                hcanonS2, hx, hcanonS3, hy, Bool.false_or]
                  | true =>
                    have hcanonP1 := rejectAux_eq_canon res true (b :: bs).length
                      ((((b :: bs).drop m).take n).drop o) anyDescM hbnd2
                    have hcanonP3 := rejectAux_eq_canon res true (b :: bs).length
                      (((b :: bs).drop m).drop n) desc hbnd3
                    cases hr1 : RejectUnknownFields
                        ((((b :: bs).drop m).take n).drop o) anyDescM true res with
                    | mk g1 e1 =>
                      cases e1 with
                      | some e =>
                        unfold RejectUnknownFields at h
                        simp only [rejectAux, ht, hfd, hcv, hassign,
                          Bool.false_eq_true, if_false, hmsg, hvv, hany, if_true,
                          hcanonP1, hr1] at h
                        exact absurd h (by simp)
                      | none =>
                        cases ha : anyUnmarshal
                            ((((b :: bs).drop m).take n).drop o) with
                        | fuelOut =>
                          unfold RejectUnknownFields at h
                          simp only [rejectAux, ht, hfd, hcv, hassign,
                            Bool.false_eq_true, if_false, hmsg, hvv, hany, if_true,
                            hcanonP1, hr1, ha] at h
                          exact absurd h (by simp)
                        | err =>
                          unfold RejectUnknownFields at h
                          simp only [rejectAux, ht, hfd, hcv, hassign,
                            Bool.false_eq_true, if_false, hmsg, hvv, hany, if_true,
                            hcanonP1, hr1, ha] at h
                          exact absurd h (by simp)
                        | ok url value =>
                          have hvb := anyUnmarshal_value_bound ha
                          simp only [List.length_drop, List.length_take,
                            List.length_cons] at hvb
                          have hbndv : value.length + 1 ≤ (b :: bs).length := by
                            rcases hvb with hv | hv
                            · subst hv
                              simp only [List.length_nil, List.length_cons]
                              omega
                            · simp only [List.length_cons]
                              omega
                          have hbndvE : ∀ ext : List Nat,
                              value.length + 1 ≤ (b :: (bs ++ ext)).length := by
                            intro ext
                            have := hbndv
                            simp only [List.length_cons, List.length_append] at *
                            omega
                          cases hres : res (messageNameFromTypeURL url) with
                          | none =>
                            unfold RejectUnknownFields at h
                            simp only [rejectAux, ht, hfd, hcv, hassign,
                              Bool.false_eq_true, if_false, hmsg, hvv, hany, if_true,
                              hcanonP1, hr1, ha, hres] at h
                            exact absurd h (by simp)
                          | some msgDesc =>
                            have hcanonP2 := rejectAux_eq_canon res true
                              (b :: bs).length value msgDesc hbndv
                            cases hr2 : RejectUnknownFields value
                                msgDesc true res with
                            | mk g2 e2 =>
                              cases e2 with
                              | some e =>
                                unfold RejectUnknownFields at h
                                simp only [rejectAux, ht, hfd, hcv, hassign,
                                  Bool.false_eq_true, if_false, hmsg, hvv, hany,
                                  if_true, hcanonP1, hr1, ha, hres, hcanonP2,
                                  hr2] at h
                                exact absurd h (by simp)
                              | none =>
                                cases hr3 : RejectUnknownFields
                                    (((b :: bs).drop m).drop n) desc true res with
                                | mk g3 e3 =>
                                  unfold RejectUnknownFields at h
                                  simp only [rejectAux, ht, hfd, hcv, hassign,
                                    Bool.false_eq_true, if_false, hmsg, hvv, hany,
                                    if_true, hcanonP1, hr1, ha, hres, hcanonP2, hr2,
                                    hcanonP3, hr3, Prod.mk.injEq] at h
                                  obtain ⟨h1, h2⟩ := h
                                  subst h1 h2
                                  have hIH1 := ihN
                                    ((((b :: bs).drop m).take n).drop o) anyDescM g1
                                    (by simp only [List.length_drop, List.length_take,
                                          List.length_cons]; omega) hr1
                                  have hIH2 := ihN value msgDesc g2
                                    (by have hb2 := hbndv
                                        simp only [List.length_cons] at hb2
                                        omega) hr2
                                  have hIH3 := ihN (((b :: bs).drop m).drop n) desc g3
                                    (by simp only [List.length_drop,
                                          List.length_cons]; omega) hr3
                                  cases g1 with
                                  | true =>
                                    refine ⟨fun hf => by simp at hf, fun _ => ?_⟩
                                    intro ext
                                    obtain ⟨hs1, e, hs2⟩ := hIH1.2 rfl []
                                    rw [List.append_nil] at hs1 hs2
                                    cases hr1s : RejectUnknownFields
                                        ((((b :: bs).drop m).take n).drop o)
                                        anyDescM false res with
                                    | mk s1f s1e =>
                                      rw [hr1s] at hs1 hs2
                                      simp only at hs1 hs2
                                      subst hs1 hs2
                                      have hcanonS1E := rejectAux_eq_canon res false
                                        (b :: (bs ++ ext)).length
                                        ((((b :: bs).drop m).take n).drop o)
                                        anyDescM (hbnd2E ext)
                                      have hstrict : RejectUnknownFields
                                          ((b :: bs) ++ ext) desc false res =
                                          (true, some e) := by
                                        rw [List.cons_append]
                                        unfold RejectUnknownFields
                                        simp only [rejectAux, hTE ext, hfd,
                                          hcvE ext, hassign, Bool.false_eq_true,
                                          if_false, hmsg, hvvE ext, hany, if_true,
                                          hinE ext, hcanonS1E, hr1s]
                                      rw [hstrict]
                                      exact ⟨rfl, e, rfl⟩
                                  | false =>
                                    have hx1 := hIH1.1 rfl
                                    cases g2 with
                                    | true =>
                                      refine ⟨fun hf => by simp at hf, fun _ => ?_⟩
                                      intro ext
                                      obtain ⟨hs1, e, hs2⟩ := hIH2.2 rfl []
                                      rw [List.append_nil] at hs1 hs2
                                      cases hr2s : RejectUnknownFields value
                                          msgDesc false res with
                                      | mk s2f s2e =>
                                        rw [hr2s] at hs1 hs2
                                        simp only at hs1 hs2
                                        subst hs1 hs2
                                        have hcanonS1E := rejectAux_eq_canon res
                                          false (b :: (bs ++ ext)).length
                                          ((((b :: bs).drop m).take n).drop o)
                                          anyDescM (hbnd2E ext)
                                        have hcanonS2E := rejectAux_eq_canon res
                                          false (b :: (bs ++ ext)).length value
                                          msgDesc (hbndvE ext)
                                        have hstrict : RejectUnknownFields
                                            ((b :: bs) ++ ext) desc false res =
                                            (true, some e) := by
                                          rw [List.cons_append]
                                          unfold RejectUnknownFields
                                          simp only [rejectAux, hTE ext, hfd,
                                            hcvE ext, hassign, Bool.false_eq_true,
                                            if_false, hmsg, hvvE ext, hany, if_true,
                                            hinE ext, hcanonS1E, hx1, ha, hres,
                                            hcanonS2E, hr2s, Bool.false_or]
                                        rw [hstrict]
                                        exact ⟨rfl, e, rfl⟩
                                    | false =>
                                      have hx2 := hIH2.1 rfl
                                      cases g3 with
                                      | true =>
                                        refine ⟨fun hf => by simp at hf,
                                          fun _ => ?_⟩
                                        intro ext
                                        obtain ⟨hs1, e, hs2⟩ := hIH3.2 rfl ext
                                        cases hr3s : RejectUnknownFields
                                            ((((b :: bs).drop m).drop n) ++ ext)
                                            desc false res with
                                        | mk s3f s3e =>
                                          rw [hr3s] at hs1 hs2
                                          simp only at hs1 hs2
                                          subst hs1 hs2
                                          have hcanonS1E := rejectAux_eq_canon res
                                            false (b :: (bs ++ ext)).length
                                            ((((b :: bs).drop m).take n).drop o)
                                            anyDescM (hbnd2E ext)
                                          have hcanonS2E := rejectAux_eq_canon res
                                            false (b :: (bs ++ ext)).length value
                                            msgDesc (hbndvE ext)
                                          have hcanonS3E := rejectAux_eq_canon res
                                            false (b :: (bs ++ ext)).length
                                            ((((b :: bs).drop m).drop n) ++ ext)
                                            desc
                                            (by simp only [List.length_append,
                                                  List.length_drop,
                                                  List.length_cons]; omega)
                                          have hstrict : RejectUnknownFields
                                              ((b :: bs) ++ ext) desc false res =
                                              (true, some e) := by
                                            rw [List.cons_append]
                                            unfold RejectUnknownFields
                                            simp only [rejectAux, hTE ext, hfd,
                                              hcvE ext, hassign, Bool.false_eq_true,
                                              if_false, hmsg, hvvE ext, hany,
                                              if_true, hinE ext, hcanonS1E, hx1, ha,
                                              hres, hcanonS2E, hx2, hdtE ext,
                                              hcanonS3E, hr3s, Bool.false_or]
                                          rw [hstrict]
                                          exact ⟨rfl, e, rfl⟩
                                      | false =>
                                        have hx3 := hIH3.1 rfl
                                        refine ⟨fun _ => ?_,
                                          fun hf => by simp at hf⟩
                                        have hcanonS1 := rejectAux_eq_canon res
                                          false (b :: bs).length
                                          ((((b :: bs).drop m).take n).drop o)
                                          anyDescM hbnd2
                                        have hcanonS2 := rejectAux_eq_canon res
                                          false (b :: bs).length value msgDesc hbndv
                                        have hcanonS3 := rejectAux_eq_canon res
                                          false (b :: bs).length
                                          (((b :: bs).drop m).drop n) desc hbnd3
                                        unfold RejectUnknownFields
                                        simp only [rejectAux, ht, hfd, hcv, hassign,
                                          Bool.false_eq_true, if_false, hmsg, hvv,
                                          hany, if_true, hcanonS1, hx1, ha, hres,
                                          hcanonS2, hx2, hcanonS3, hx3,
                                          Bool.false_or]

/-- If the permissive scan succeeds with the flag set, the strict scan of
the same buffer (or of any extension of it) records the flag and fails. -/
theorem strict_fails_of_permissive_flag (res : Resolver)
    (bz : List Nat) (desc : MessageDescriptor)
    (h : RejectUnknownFields bz desc true res = (true, none)) :
    (RejectUnknownFields bz desc false res).1 = true ∧
    ∃ e, (RejectUnknownFields bz desc false res).2 = some e := by
  have := (strict_of_permissive_aux res bz.length bz desc true le_rfl h).2 rfl []
  rwa [List.append_nil] at this

/-- If the permissive scan succeeds with the flag clear, the strict scan
returns the same clean result. -/
theorem strict_eq_of_permissive_clean (res : Resolver)
    (bz : List Nat) (desc : MessageDescriptor)
    (h : RejectUnknownFields bz desc true res = (false, none)) :
    RejectUnknownFields bz desc false res = (false, none) :=
  (strict_of_permissive_aux res bz.length bz desc false le_rfl h).1 rfl

/-! ## Per-field step helpers -/

theorem nc_skip_step (res : Resolver) (desc : MessageDescriptor)
    (bz : List Nat) (tagNum wireType m n : Nat)
    (ht : consumeTag bz = some (tagNum, wireType, m))
    (hfd : desc.fieldByNumber tagNum = none)
    (hnc : tagNum &&& bit11NonCritical ≠ 0)
    (hcv : consumeFieldValueT tagNum wireType (bz.drop m) = .ok n) :
    RejectUnknownFields bz desc true res =
      (true, (RejectUnknownFields ((bz.drop m).drop n) desc true res).2) := by
  cases bz with
  | nil => simp [consumeTag, consumeVarint, consumeVarintAux] at ht
  | cons b bs =>
    have hm := consumeTag_bound ht
    simp only [List.length_cons] at hm
    have hc0 : (tagNum &&& bit11NonCritical == 0) = false := by
      simp only [beq_eq_false_iff_ne, ne_eq]
      exact hnc
    unfold RejectUnknownFields
    simp only [rejectAux, ht, hfd, hc0, Bool.not_true, Bool.or_false,
      Bool.false_eq_true, if_false, hcv, Bool.not_false, Bool.true_or]
    rw [rejectAux_eq_canon res true _ _ desc
      (by simp only [List.length_drop, List.length_cons]; omega)]
    rfl

theorem critical_step_err (res : Resolver) (desc : MessageDescriptor)
    (bz : List Nat) (tagNum wireType m : Nat) (allow : Bool)
    (ht : consumeTag bz = some (tagNum, wireType, m))
    (hfd : desc.fieldByNumber tagNum = none)
    (hcr : tagNum &&& bit11NonCritical = 0) :
    RejectUnknownFields bz desc allow res =
      (false, some (.unknownField desc.fullName tagNum wireType)) := by
  cases bz with
  | nil => simp [consumeTag, consumeVarint, consumeVarintAux] at ht
  | cons b bs =>
    have hc0 : (tagNum &&& bit11NonCritical == 0) = true := by
      simp only [beq_iff_eq]
      exact hcr
    unfold RejectUnknownFields
    simp only [rejectAux, ht, hfd, hc0, Bool.true_or, if_true, Bool.not_true]

theorem badwire_step_err (res : Resolver) (desc : MessageDescriptor)
    (bz : List Nat) (tagNum wireType m : Nat) (fd : FieldDescriptor)
    (allow : Bool)
    (ht : consumeTag bz = some (tagNum, wireType, m))
    (hfd : desc.fieldByNumber tagNum = some fd)
    (hassign : isWireTypeAssignable wireType fd.kind = false) :
    ∃ e, RejectUnknownFields bz desc allow res = (false, some e) := by
  cases bz with
  | nil => simp [consumeTag, consumeVarint, consumeVarintAux] at ht
  | cons b bs =>
    cases hcv : consumeFieldValueT tagNum wireType ((b :: bs).drop m) with
    | fuelOut => exact absurd hcv consumeFieldValueT_ne_fuelOut
    | err =>
      refine ⟨.consumeFail tagNum wireType, ?_⟩
      unfold RejectUnknownFields
      simp only [rejectAux, ht, hfd, hcv]
    | ok n =>
      refine ⟨.invalidWireType wireType fd.fullName, ?_⟩
      unfold RejectUnknownFields
      simp only [rejectAux, ht, hfd, hcv, hassign, Bool.not_false, if_true]

/-! ## Claim theorems: whole-buffer properties -/

/-- C2: a buffer made of a cleanly scanned prefix, an unknown field with
the criticality bit unset, and a cleanly scanned suffix is rejected by the
strict variant (`RejectUnknownFieldsStrict`) but accepted by the permissive
variant, which reports `hasUnknownNonCriticals = true`. -/
theorem nc_unknown_strict_fails_permissive_flags
    (res : Resolver) (desc : MessageDescriptor)
    (pre tail : List Nat) (fpre frest : Bool) (tagNum wireType m n : Nat)
    (hpre : RejectUnknownFields pre desc true res = (fpre, none))
    (ht : consumeTag tail = some (tagNum, wireType, m))
    (hfd : desc.fieldByNumber tagNum = none)
    (hnc : tagNum &&& bit11NonCritical ≠ 0)
    (hcv : consumeFieldValueT tagNum wireType (tail.drop m) = .ok n)
    (hrest : RejectUnknownFields ((tail.drop m).drop n) desc true res =
      (frest, none)) :
    RejectUnknownFields (pre ++ tail) desc true res = (true, none) ∧
    ∃ e, RejectUnknownFieldsStrict (pre ++ tail) desc res = some e := by
  have hstep : RejectUnknownFields tail desc true res = (true, none) := by
    rw [nc_skip_step res desc tail tagNum wireType m n ht hfd hnc hcv, hrest]
  have hperm := rejectUnknownFields_concat res true desc pre tail fpre hpre
  simp only [hstep, Bool.or_true] at hperm
  refine ⟨hperm, ?_⟩
  obtain ⟨-, e, he⟩ := strict_fails_of_permissive_flag res (pre ++ tail) desc hperm
  exact ⟨e, he⟩

theorem nc_unknown_strict_fails_permissive_flags_witness :
    RejectUnknownFields ([10, 1, 65] ++ [136, 64, 0]) testDesc true testRes =
      (true, none) ∧
    ∃ e, RejectUnknownFieldsStrict ([10, 1, 65] ++ [136, 64, 0]) testDesc
      testRes = some e :=
  nc_unknown_strict_fails_permissive_flags testRes testDesc
    [10, 1, 65] [136, 64, 0] false false 1025 0 2 1
    rfl rfl rfl (by decide) rfl rfl

/-- C3: a buffer made of a cleanly scanned prefix followed by an unknown
field with the criticality bit set is rejected by both variants. -/
theorem critical_unknown_fails_both
    (res : Resolver) (desc : MessageDescriptor)
    (pre tail : List Nat) (fpre : Bool) (tagNum wireType m : Nat)
    (hpre : RejectUnknownFields pre desc true res = (fpre, none))
    (ht : consumeTag tail = some (tagNum, wireType, m))
    (hfd : desc.fieldByNumber tagNum = none)
    (hcr : tagNum &&& bit11NonCritical = 0) :
    (∃ e, (RejectUnknownFields (pre ++ tail) desc true res).2 = some e) ∧
    (∃ e, RejectUnknownFieldsStrict (pre ++ tail) desc res = some e) := by
  have hstep := fun allow =>
    critical_step_err res desc tail tagNum wireType m allow ht hfd hcr
  constructor
  · have hperm := rejectUnknownFields_concat res true desc pre tail fpre hpre
    simp only [hstep true] at hperm
    exact ⟨_, by rw [hperm]⟩
  · cases fpre with
    | false =>
      have hs := strict_eq_of_permissive_clean res pre desc hpre
      have hcat := rejectUnknownFields_concat res false desc pre tail false hs
      simp only [hstep false] at hcat
      exact ⟨_, by
        show (RejectUnknownFields (pre ++ tail) desc false res).2 = _
        rw [hcat]⟩
    | true =>
      obtain ⟨-, e, he⟩ :=
        (strict_of_permissive_aux res pre.length pre desc true le_rfl hpre).2
          rfl tail
      exact ⟨e, he⟩

theorem critical_unknown_fails_both_witness :
    (∃ e, (RejectUnknownFields ([10, 1, 65] ++ [16, 5]) testDesc true
      testRes).2 = some e) ∧
    (∃ e, RejectUnknownFieldsStrict ([10, 1, 65] ++ [16, 5]) testDesc
      testRes = some e) :=
  critical_unknown_fails_both testRes testDesc [10, 1, 65] [16, 5] false 2 0 1
    rfl rfl rfl (by decide)

/-- C4: a buffer made of a cleanly scanned prefix followed by a known field
number encoded with a wire type incompatible with the field's declared kind
is rejected by both variants, whatever the criticality bit of the number. -/
theorem wrong_wire_type_fails_both
    (res : Resolver) (desc : MessageDescriptor)
    (pre tail : List Nat) (fpre : Bool) (tagNum wireType m : Nat)
    (fd : FieldDescriptor)
    (hpre : RejectUnknownFields pre desc true res = (fpre, none))
    (ht : consumeTag tail = some (tagNum, wireType, m))
    (hfd : desc.fieldByNumber tagNum = some fd)
    (hassign : isWireTypeAssignable wireType fd.kind = false) :
    (∃ e, (RejectUnknownFields (pre ++ tail) desc true res).2 = some e) ∧
    (∃ e, RejectUnknownFieldsStrict (pre ++ tail) desc res = some e) := by
  constructor
  · obtain ⟨e, hstep⟩ :=
      badwire_step_err res desc tail tagNum wireType m fd true ht hfd hassign
    have hperm := rejectUnknownFields_concat res true desc pre tail fpre hpre
    simp only [hstep] at hperm
    exact ⟨e, by rw [hperm]⟩
  · obtain ⟨e, hstep⟩ :=
      badwire_step_err res desc tail tagNum wireType m fd false ht hfd hassign
    cases fpre with
    | false =>
      have hs := strict_eq_of_permissive_clean res pre desc hpre
      have hcat := rejectUnknownFields_concat res false desc pre tail false hs
      simp only [hstep] at hcat
      exact ⟨e, by
        show (RejectUnknownFields (pre ++ tail) desc false res).2 = _
        rw [hcat]⟩
    | true =>
      obtain ⟨-, e', he'⟩ :=
        (strict_of_permissive_aux res pre.length pre desc true le_rfl hpre).2
          rfl tail
      exact ⟨e', he'⟩

theorem wrong_wire_type_fails_both_witness :
    (∃ e, (RejectUnknownFields ([10, 1, 65] ++ [9, 1, 2, 3, 4, 5, 6, 7, 8])
      testDesc true testRes).2 = some e) ∧
    (∃ e, RejectUnknownFieldsStrict ([10, 1, 65] ++ [9, 1, 2, 3, 4, 5, 6, 7, 8])
      testDesc testRes = some e) :=
  wrong_wire_type_fails_both testRes testDesc
    [10, 1, 65] [9, 1, 2, 3, 4, 5, 6, 7, 8] false 1 1 1
    (.mk 1 "test.M.a" .stringKind none)
    rfl rfl rfl rfl

/-! ## Varint encoding (used to build nested test buffers for C5) -/

/-- Little-endian base-128 encoding with continuation bits: the inverse of
`consumeVarint` for values below `2^64`. -/
def encodeVarint (n : Nat) : List Nat :=
  if h : n < 0x80 then [n] else (n % 0x80 + 0x80) :: encodeVarint (n / 0x80)
termination_by n
decreasing_by
  exact Nat.div_lt_self (by omega) (by omega)

theorem encodeVarint_length_pos (n : Nat) : 1 ≤ (encodeVarint n).length := by
  rw [encodeVarint]
  split <;> simp

theorem consumeVarintAux_encode : ∀ (n i v : Nat) (rest : List Nat),
    i ≤ 9 → n < 2 ^ (7 * (9 - i) + 1) →
    consumeVarintAux (encodeVarint n ++ rest) i v =
      some (v + n <<< (7 * i), i + (encodeVarint n).length) := by
  intro n
  induction n using Nat.strong_induction_on with
  | _ n ih =>
    intro i v rest hi hn
    rw [encodeVarint]
    split
    · rename_i hsmall
      rw [List.cons_append, consumeVarintAux]
      by_cases h9 : i = 9
      · subst h9
        simp only [Nat.sub_self, Nat.mul_zero, Nat.pow_succ, Nat.pow_zero] at hn
        rw [if_pos rfl, if_pos (by omega)]
        simp only [List.length_singleton]
      · rw [if_neg h9, if_pos hsmall]
        simp only [List.length_singleton]
    · rename_i hbig
      rw [List.cons_append, consumeVarintAux]
      have h9 : i ≠ 9 := by
        intro h
        subst h
        simp only [Nat.sub_self, Nat.mul_zero] at hn
        omega
      rw [if_neg h9, if_neg (by omega)]
      have hdiv : n / 0x80 < 2 ^ (7 * (9 - (i + 1)) + 1) := by
        have h128 : (0x80 : Nat) = 2 ^ 7 := by norm_num
        rw [Nat.div_lt_iff_lt_mul (by omega), h128, ← Nat.pow_add]
        have : 7 * (9 - (i + 1)) + 1 + 7 = 7 * (9 - i) + 1 := by omega
        rw [this]
        exact hn
      have hrec := ih (n / 0x80) (Nat.div_lt_self (by omega) (by omega))
        (i + 1) (v + (n % 0x80 + 0x80 - 0x80) <<< (7 * i)) rest (by omega) hdiv
      rw [hrec]
      have hval : v + (n % 0x80 + 0x80 - 0x80) <<< (7 * i) +
          (n / 0x80) <<< (7 * (i + 1)) = v + n <<< (7 * i) := by
        have hm : n % 0x80 + 0x80 - 0x80 = n % 0x80 := by omega
        rw [hm]
        simp only [Nat.shiftLeft_eq]
        have hexp : (2 : Nat) ^ (7 * (i + 1)) = 2 ^ (7 * i) * 2 ^ 7 := by
          rw [← Nat.pow_add]
          congr 1
        rw [hexp]
        have hsplit : n % 0x80 + 0x80 * (n / 0x80) = n := Nat.mod_add_div _ _
        calc v + n % 0x80 * 2 ^ (7 * i) + n / 0x80 * (2 ^ (7 * i) * 2 ^ 7)
            = v + (n % 0x80 + 0x80 * (n / 0x80)) * 2 ^ (7 * i) := by
              norm_num
              ring
          _ = v + n * 2 ^ (7 * i) := by rw [hsplit]
      rw [hval]
      simp only [List.length_cons]
      congr 2
      omega

theorem consumeVarint_encode {n : Nat} (hn : n < 2 ^ 64) (rest : List Nat) :
    consumeVarint (encodeVarint n ++ rest) =
      some (n, (encodeVarint n).length) := by
  have := consumeVarintAux_encode n 0 0 rest (by omega)
    (by norm_num; exact hn)
  simpa [consumeVarint] using this

theorem consumeBytes_encode {v : List Nat} (hv : v.length < 2 ^ 64)
    (rest : List Nat) :
    consumeBytes (encodeVarint v.length ++ (v ++ rest)) =
      some (v, (encodeVarint v.length).length + v.length) := by
  unfold consumeBytes
  rw [consumeVarint_encode hv (v ++ rest)]
  simp only
  rw [List.drop_left]
  rw [if_neg (by simp only [List.length_append]; omega)]
  rw [List.take_left]

theorem anyUnmarshalAux_irrel : ∀ (fuel fuel' : Nat) (b url value : List Nat),
    b.length + 1 ≤ fuel → b.length + 1 ≤ fuel' →
    anyUnmarshalAux fuel b url value = anyUnmarshalAux fuel' b url value := by
  intro fuel
  induction fuel using Nat.strong_induction_on with
  | _ fuel ih =>
    intro fuel' b url value h1 h2
    cases b with
    | nil => cases fuel <;> cases fuel' <;> rfl
    | cons x xs =>
      obtain ⟨f, rfl⟩ : ∃ f, fuel = f + 1 :=
        ⟨fuel - 1, by simp only [List.length_cons] at h1; omega⟩
      obtain ⟨f', rfl⟩ : ∃ g, fuel' = g + 1 :=
        ⟨fuel' - 1, by simp only [List.length_cons] at h2; omega⟩
      simp only [List.length_cons] at h1 h2
      cases ht : consumeTag (x :: xs) with
      | none => simp only [anyUnmarshalAux, ht]
      | some t =>
        obtain ⟨tagNum, wireType, m⟩ := t
        have hm := consumeTag_bound ht
        simp only [List.length_cons] at hm
        cases h1b : (tagNum == 1 && wireType == 2) with
        | true =>
          cases hb : consumeBytes ((x :: xs).drop m) with
          | none => simp only [anyUnmarshalAux, ht, h1b, if_true, hb]
          | some q =>
            obtain ⟨payload, n⟩ := q
            cases hu : utf8Valid payload with
            | false =>
              simp only [anyUnmarshalAux, ht, h1b, if_true, hb, hu,
                Bool.false_eq_true, if_false]
            | true =>
              have heq := ih f (by omega) f' (((x :: xs).drop m).drop n)
                payload value
                (by simp only [List.length_drop, List.length_cons]; omega)
                (by simp only [List.length_drop, List.length_cons]; omega)
              simp only [anyUnmarshalAux, ht, h1b, if_true, hb, hu, heq]
        | false =>
          cases h2b : (tagNum == 2 && wireType == 2) with
          | true =>
            cases hb : consumeBytes ((x :: xs).drop m) with
            | none =>
              simp only [anyUnmarshalAux, ht, h1b, Bool.false_eq_true, if_false,
                h2b, if_true, hb]
            | some q =>
              obtain ⟨payload, n⟩ := q
              have heq := ih f (by omega) f' (((x :: xs).drop m).drop n)
                url payload
                (by simp only [List.length_drop, List.length_cons]; omega)
                (by simp only [List.length_drop, List.length_cons]; omega)
              simp only [anyUnmarshalAux, ht, h1b, Bool.false_eq_true, if_false,
                h2b, if_true, hb, heq]
          | false =>
            cases hc : consumeFieldValueT tagNum wireType ((x :: xs).drop m) with
            | ok n =>
              have heq := ih f (by omega) f' (((x :: xs).drop m).drop n)
                url value
                (by simp only [List.length_drop, List.length_cons]; omega)
                (by simp only [List.length_drop, List.length_cons]; omega)
              simp only [anyUnmarshalAux, ht, h1b, Bool.false_eq_true, if_false,
                h2b, hc, heq]
            | err =>
              simp only [anyUnmarshalAux, ht, h1b, Bool.false_eq_true, if_false,
                h2b, hc]
            | fuelOut =>
              simp only [anyUnmarshalAux, ht, h1b, Bool.false_eq_true, if_false,
                h2b, hc]

theorem anyUnmarshalAux_eq_canon (fuel : Nat) (b url value : List Nat)
    (h : b.length + 1 ≤ fuel) :
    anyUnmarshalAux fuel b url value = anyUnmarshalAux (b.length + 1) b url value :=
  anyUnmarshalAux_irrel fuel (b.length + 1) b url value h le_rfl

/-! ## Concrete computations for single wire bytes -/

theorem consumeTag_cons10 (bs : List Nat) :
    consumeTag (10 :: bs) = some (1, 2, 1) := by
  have hv : consumeVarint (10 :: bs) = some (10, 1) := by
    rw [consumeVarint, consumeVarintAux]
    norm_num
  rw [consumeTag, hv]
  norm_num
  refine ⟨⟨by decide, by decide⟩, by decide, by decide⟩

theorem consumeTag_cons18 (bs : List Nat) :
    consumeTag (18 :: bs) = some (2, 2, 1) := by
  have hv : consumeVarint (18 :: bs) = some (18, 1) := by
    rw [consumeVarint, consumeVarintAux]
    norm_num
  rw [consumeTag, hv]
  norm_num
  refine ⟨⟨by decide, by decide⟩, by decide, by decide⟩

theorem consumeFieldValueT_nonGroup (num wt : Nat) (b : List Nat) (h : wt ≠ 3) :
    consumeFieldValueT num wt b = consumeNonGroup wt b := by
  unfold consumeFieldValueT
  rw [show 2 * b.length + 2 = (2 * b.length + 1) + 1 from rfl, consumeFieldValue,
    if_neg h]

theorem consumeNonGroup_bytes (b : List Nat) :
    consumeNonGroup 2 b =
      (match consumeBytes b with
       | some (_, n) => CfvResult.ok n
       | none => CfvResult.err) := by
  rw [consumeNonGroup]
  norm_num

/-! ## The nested-envelope family for C5 -/

/-- The bytes of the type name `test.Wrap`. -/
def url5 : List Nat := [116, 101, 115, 116, 46, 87, 114, 97, 112]

/-- A message whose field 1 is a `google.protobuf.Any`. -/
def wrapDesc : MessageDescriptor :=
  .mk "test.Wrap" [.mk 1 "test.Wrap.a" .message (some anyDescM)]

/-- A resolver that resolves exactly `test.Wrap`. -/
def res5 : Resolver := fun name => if name = url5 then some wrapDesc else none

/-- Encoding of a `google.protobuf.Any` with type URL `test.Wrap` and
payload `v`: field 1 (tag `0x0A`, length 9) then field 2 (tag `0x12`). -/
def anyEnc (v : List Nat) : List Nat :=
  10 :: 9 :: (url5 ++ (18 :: (encodeVarint v.length ++ v)))

/-- Depth-`k` nesting: an unknown non-critical field (number 1025) wrapped
`k` times in an Any envelope stored in field 1 of `test.Wrap`. -/
def deepNest : Nat → List Nat
  | 0 => [136, 64, 0]
  | k + 1 =>
    10 :: (encodeVarint (anyEnc (deepNest k)).length ++ anyEnc (deepNest k))

theorem consumeBytes_url5 (rest : List Nat) :
    consumeBytes (9 :: (url5 ++ rest)) = some (url5, 10) := by
  have hv : consumeVarint (9 :: (url5 ++ rest)) = some (9, 1) := by
    rw [consumeVarint, consumeVarintAux]
    norm_num
  rw [consumeBytes, hv]
  simp only [List.drop_succ_cons, List.drop_zero]
  rw [if_neg (by simp only [List.length_append]; simp [url5])]
  rw [show (9 : Nat) = url5.length from rfl, List.take_left]
  simp [url5]

theorem drop10_url5 (rest : List Nat) : (9 :: (url5 ++ rest)).drop 10 = rest := by
  rw [show (9 :: (url5 ++ rest)) = (9 :: url5) ++ rest from by simp,
      show (10 : Nat) = (9 :: url5).length from rfl, List.drop_left]

theorem anyEnc_length (v : List Nat) :
    (anyEnc v).length =
      12 + ((encodeVarint v.length).length + v.length) := by
  simp only [anyEnc, url5, List.length_cons, List.length_append, List.length_nil]
  omega

/-- `proto.Unmarshal` of the concrete envelope encoding recovers the URL
and the payload. -/
theorem anyUnmarshal_anyEnc (v : List Nat) (hv : v.length < 2 ^ 64) :
    anyUnmarshal (anyEnc v) = .ok url5 v := by
  have hb2 : consumeBytes (encodeVarint v.length ++ v) =
      some (v, (encodeVarint v.length).length + v.length) := by
    have := consumeBytes_encode hv []
    rwa [List.append_nil] at this
  have hdrop2 : (encodeVarint v.length ++ v).drop
      ((encodeVarint v.length).length + v.length) = [] := by
    rw [show (encodeVarint v.length).length + v.length =
          (encodeVarint v.length ++ v).length from (List.length_append _ _).symm,
        List.drop_length]
  unfold anyUnmarshal
  simp only [anyEnc, anyUnmarshalAux, consumeTag_cons10, List.drop_succ_cons,
    List.drop_zero, consumeBytes_url5, drop10_url5,
    show utf8Valid url5 = true from by decide]
  norm_num
  simp only [consumeTag_cons18]
  norm_num
  simp only [List.drop_succ_cons, List.drop_zero, hb2]
  rw [show (1 : Nat) + ((encodeVarint v.length).length + v.length) =
        ((encodeVarint v.length).length + v.length) + 1 from by omega]
  simp only [List.drop_succ_cons, hdrop2, anyUnmarshalAux]

/-- The validator accepts the concrete envelope encoding against the
`google.protobuf.Any` descriptor, with no non-critical flag. -/
theorem reject_anyEnc (res : Resolver) (allow : Bool) (v : List Nat)
    (hv : v.length < 2 ^ 64) :
    RejectUnknownFields (anyEnc v) anyDescM allow res = (false, none) := by
  have hb2 : consumeBytes (encodeVarint v.length ++ v) =
      some (v, (encodeVarint v.length).length + v.length) := by
    have := consumeBytes_encode hv []
    rwa [List.append_nil] at this
  have hdrop2 : (encodeVarint v.length ++ v).drop
      ((encodeVarint v.length).length + v.length) = [] := by
    rw [show (encodeVarint v.length).length + v.length =
          (encodeVarint v.length ++ v).length from (List.length_append _ _).symm,
        List.drop_length]
  have hcv2 : consumeFieldValueT 2 2 (encodeVarint v.length ++ v) =
      .ok ((encodeVarint v.length).length + v.length) := by
    rw [consumeFieldValueT_nonGroup 2 2 _ (by omega), consumeNonGroup_bytes, hb2]
  have hcv1 : consumeFieldValueT 1 2 (9 :: (url5 ++
      (18 :: (encodeVarint v.length ++ v)))) = .ok 10 := by
    rw [consumeFieldValueT_nonGroup 1 2 _ (by omega), consumeNonGroup_bytes,
      consumeBytes_url5]
  have hfd1 : anyDescM.fieldByNumber 1 =
      some (.mk 1 "google.protobuf.Any.type_url" .stringKind none) := rfl
  have hfd2 : anyDescM.fieldByNumber 2 =
      some (.mk 2 "google.protobuf.Any.value" .bytesKind none) := rfl
  unfold RejectUnknownFields
  simp only [anyEnc, rejectAux, consumeTag_cons10, hfd1, hcv1,
    List.drop_succ_cons, List.drop_zero, drop10_url5, FieldDescriptor.kind,
    FieldDescriptor.message, isWireTypeAssignable]
  norm_num
  simp only [rejectAux, consumeTag_cons18, hfd2, hcv2, List.drop_succ_cons,
    List.drop_zero, FieldDescriptor.kind, FieldDescriptor.message,
    isWireTypeAssignable]
  norm_num
  rw [show (1 : Nat) + ((encodeVarint v.length).length + v.length) =
        ((encodeVarint v.length).length + v.length) + 1 from by omega]
  simp only [List.drop_succ_cons, hdrop2, rejectAux]

/-- C5: an unknown non-critical field nested `k` envelope levels deep
inside valid envelope-in-envelope (`google.protobuf.Any`) structures whose
type URLs all resolve is still detected for every depth `k` (any depth
whose encoding fits the 64-bit wire limits): permissive validation succeeds
and the root call reports `hasUnknownNonCriticals = true`, the flag of each
recursive call being or-ed into the aggregate. -/
theorem deep_nested_nc_flag_propagates :
    ∀ k : Nat, (deepNest k).length < 2 ^ 64 →
      RejectUnknownFields (deepNest k) wrapDesc true res5 = (true, none) := by
  intro k
  induction k with
  | zero => intro _; rfl
  | succ k ih =>
    intro hfit
    have hlenB : (deepNest (k + 1)).length =
        1 + ((encodeVarint (anyEnc (deepNest k)).length).length +
          (anyEnc (deepNest k)).length) := by
      simp only [deepNest, List.length_cons, List.length_append]
      omega
    have hevpos := encodeVarint_length_pos (anyEnc (deepNest k)).length
    have hfitla : (anyEnc (deepNest k)).length < 2 ^ 64 := by
      rw [hlenB] at hfit
      omega
    have hlaeq := anyEnc_length (deepNest k)
    have hfitB : (deepNest k).length < 2 ^ 64 := by omega
    have hcb : consumeBytes (encodeVarint (anyEnc (deepNest k)).length ++
        anyEnc (deepNest k)) = some (anyEnc (deepNest k),
        (encodeVarint (anyEnc (deepNest k)).length).length +
          (anyEnc (deepNest k)).length) := by
      have := consumeBytes_encode hfitla []
      rwa [List.append_nil] at this
    have hcv : consumeFieldValueT 1 2
        (encodeVarint (anyEnc (deepNest k)).length ++ anyEnc (deepNest k)) = .ok
        ((encodeVarint (anyEnc (deepNest k)).length).length +
          (anyEnc (deepNest k)).length) := by
      rw [consumeFieldValueT_nonGroup 1 2 _ (by omega), consumeNonGroup_bytes, hcb]
    have hfd : wrapDesc.fieldByNumber 1 =
        some (.mk 1 "test.Wrap.a" .message (some anyDescM)) := rfl
    have htake : (encodeVarint (anyEnc (deepNest k)).length ++
          anyEnc (deepNest k)).take
        ((encodeVarint (anyEnc (deepNest k)).length).length +
          (anyEnc (deepNest k)).length) =
        encodeVarint (anyEnc (deepNest k)).length ++ anyEnc (deepNest k) := by
      rw [show (encodeVarint (anyEnc (deepNest k)).length).length +
            (anyEnc (deepNest k)).length =
            (encodeVarint (anyEnc (deepNest k)).length ++
              anyEnc (deepNest k)).length from (List.length_append _ _).symm,
          List.take_length]
    have hvarint : consumeVarint (encodeVarint (anyEnc (deepNest k)).length ++
        anyEnc (deepNest k)) = some ((anyEnc (deepNest k)).length,
        (encodeVarint (anyEnc (deepNest k)).length).length) :=
      consumeVarint_encode hfitla _
    have hinner : (encodeVarint (anyEnc (deepNest k)).length ++
          anyEnc (deepNest k)).drop
        (encodeVarint (anyEnc (deepNest k)).length).length =
        anyEnc (deepNest k) := List.drop_left _ _
    have hdropAll : (encodeVarint (anyEnc (deepNest k)).length ++
          anyEnc (deepNest k)).drop
        ((encodeVarint (anyEnc (deepNest k)).length).length +
          (anyEnc (deepNest k)).length) = [] := by
      rw [show (encodeVarint (anyEnc (deepNest k)).length).length +
            (anyEnc (deepNest k)).length =
            (encodeVarint (anyEnc (deepNest k)).length ++
              anyEnc (deepNest k)).length from (List.length_append _ _).symm,
          List.drop_length]
    have hc1 := rejectAux_eq_canon res5 true
      (10 :: (encodeVarint (anyEnc (deepNest k)).length ++
        anyEnc (deepNest k))).length
      (anyEnc (deepNest k)) anyDescM
      (by simp only [List.length_cons, List.length_append]; omega)
    have hr1 := reject_anyEnc res5 true (deepNest k) hfitB
    have hAU := anyUnmarshal_anyEnc (deepNest k) hfitB
    have hname : messageNameFromTypeURL url5 = url5 := by decide
    have hres : res5 url5 = some wrapDesc := by simp [res5]
    have hc2 := rejectAux_eq_canon res5 true
      (10 :: (encodeVarint (anyEnc (deepNest k)).length ++
        anyEnc (deepNest k))).length
      (deepNest k) wrapDesc
      (by simp only [List.length_cons, List.length_append]; omega)
    have hih := ih hfitB
    rw [show deepNest (k + 1) = 10 :: (encodeVarint (anyEnc (deepNest k)).length ++
      anyEnc (deepNest k)) from rfl]
    unfold RejectUnknownFields
    simp only [rejectAux, consumeTag_cons10, hfd, List.drop_succ_cons,
      List.drop_zero, hcv, FieldDescriptor.kind, FieldDescriptor.message,
      isWireTypeAssignable, htake, hvarint, hinner, hc1, hr1, hAU, hname, hres,
      hc2, hih, hdropAll]
    norm_num
    rfl

theorem deep_nested_nc_flag_propagates_witness :
    (deepNest 2).length < 2 ^ 64 ∧
    RejectUnknownFields (deepNest 2) wrapDesc true res5 = (true, none) := by
  have hev : ∀ n : Nat, n < 128 → encodeVarint n = [n] := by
    intro n h
    rw [encodeVarint]
    simp [h]
  have h0 : (deepNest 0).length = 3 := rfl
  have h1 : (deepNest 1).length = 18 := by
    show (10 :: (encodeVarint (anyEnc (deepNest 0)).length ++
      anyEnc (deepNest 0))).length = 18
    rw [anyEnc_length, h0, hev 3 (by omega)]
    rw [show ([(3 : Nat)].length : Nat) = 1 from rfl]
    rw [hev 16 (by omega)]
    simp [anyEnc_length, h0, hev 3 (by omega)]
  have h2 : (deepNest 2).length = 33 := by
    show (10 :: (encodeVarint (anyEnc (deepNest 1)).length ++
      anyEnc (deepNest 1))).length = 33
    have hla : (anyEnc (deepNest 1)).length = 31 := by
      rw [anyEnc_length, h1, hev 18 (by omega)]
      rfl
    simp [hla, hev 31 (by omega)]
  have h : (deepNest 2).length < 2 ^ 64 := by
    rw [h2]
    norm_num
  exact ⟨h, deep_nested_nc_flag_propagates 2 h⟩


/-! ## Generic JSON tree and the key-sort canonicaliser (`sortJSON`,
`x/tx/signing/aminojson/aminojson.go`) -/

/-- Whitespace bytes skipped between JSON tokens (`encoding/json`). -/
def isWs (b : Nat) : Bool := b == 32 || b == 9 || b == 10 || b == 13

/-- Skip leading whitespace. -/
def skipWs : List Nat → List Nat
  | [] => []
  | b :: rest => if isWs b then skipWs rest else b :: rest

/-- Bytes that may occur in a JSON number token. -/
def isNumChar (b : Nat) : Bool :=
  (decide (48 ≤ b) && decide (b ≤ 57)) || b == 43 || b == 45 || b == 46 ||
    b == 69 || b == 101

/-- Modelled from the spec: the generic canonical text tree of §3/§4.4 —
null, boolean, number, string, ordered list, key-value mapping — i.e. the
generic value `sortJSON` obtains from `json.Unmarshal`
(`x/tx/signing/aminojson/aminojson.go`); number tokens and decoded string
bytes are kept verbatim, as §4.4 specifies. -/
inductive Json where
  | null : Json
  | boolean : Bool → Json
  | num : List Nat → Json
  | str : List Nat → Json
  | arr : List Json → Json
  | obj : List (List Nat × Json) → Json

/-- The pair list of a JSON mapping. -/
abbrev JsonObj := List (List Nat × Json)

/-- Lexicographic order on byte strings, used to sort mapping keys. -/
def bytesLt : List Nat → List Nat → Bool
  | [], [] => false
  | [], _ :: _ => true
  | _ :: _, [] => false
  | x :: xs, y :: ys => if x < y then true else if y < x then false else bytesLt xs ys

/-- Insert a key-value pair into a key-sorted pair list. -/
def objInsert (k : List Nat) (v : Json) : JsonObj → JsonObj
  | [] => [(k, v)]
  | (k2, v2) :: tl =>
    if bytesLt k k2 then (k, v) :: (k2, v2) :: tl
    else (k2, v2) :: objInsert k v tl

/-- Insertion sort of a pair list by key. -/
def objSort : JsonObj → JsonObj
  | [] => []
  | (k, v) :: tl => objInsert k v (objSort tl)

/-- Whether a key occurs in a pair list. -/
def objHasKey (k : List Nat) : JsonObj → Bool
  | [] => false
  | (k2, _) :: tl => if k2 = k then true else objHasKey k tl

/-- Last-wins key deduplication: Go decodes a JSON mapping into a map, so a
key bound several times keeps only its last binding. -/
def objDedup : JsonObj → JsonObj
  | [] => []
  | (k, v) :: tl => if objHasKey k tl then objDedup tl else (k, v) :: objDedup tl

mutual

/-- Modelled from the spec: re-sort a tree — every mapping is
key-deduplicated (map semantics of `json.Unmarshal`: a repeated key keeps
its last binding) and key-sorted (`json.Marshal` emits map keys in sorted
order), recursively at every depth; lists keep their order (spec section
4.4). -/
def sortTree : Json → Json
  | .null => .null
  | .boolean b => .boolean b
  | .num s => .num s
  | .str s => .str s
  | .arr l => .arr (sortTreeList l)
  | .obj o => .obj (objSort (objDedup (sortTreeObj o)))

/-- Map `sortTree` over a list of values. -/
def sortTreeList : List Json → List Json
  | [] => []
  | h :: t => sortTree h :: sortTreeList t

/-- Map `sortTree` over the values of a pair list. -/
def sortTreeObj : JsonObj → JsonObj
  | [] => []
  | (k, v) :: t => (k, sortTree v) :: sortTreeObj t

end

/-- Lower-case hex digit, as emitted by the `encoding/json` escaper. -/
def hexDigit (n : Nat) : Nat := if n < 10 then 48 + n else 87 + n

/-- Modelled from the spec: the string escaping of `json.Marshal`
(`encoding/json` is outside this source slice). Quote and backslash are
backslash-escaped, newline, carriage return and tab use their short escapes,
the other control bytes and the HTML-sensitive bytes `<`, `>`, `&` are
emitted as a hex escape, everything else passes through verbatim. -/
def escapeString : List Nat → List Nat
  | [] => []
  | b :: rest =>
    (if b = 34 then [92, 34]
     else if b = 92 then [92, 92]
     else if b = 10 then [92, 110]
     else if b = 13 then [92, 114]
     else if b = 9 then [92, 116]
     else if b < 32 ∨ b = 60 ∨ b = 62 ∨ b = 38 then
       [92, 117, 48, 48, hexDigit (b / 16), hexDigit (b % 16)]
     else [b]) ++ escapeString rest

mutual

/-- Modelled from the spec: the compact JSON printer (`json.Marshal` on the
generic tree, which emits no extra whitespace); mapping pairs are emitted in
the order given, so it is composed with `sortTree`; numbers and strings are
emitted verbatim (spec section 4.4). -/
def printJson : Json → List Nat
  | .null => [110, 117, 108, 108]
  | .boolean true => [116, 114, 117, 101]
  | .boolean false => [102, 97, 108, 115, 101]
  | .num s => s
  | .str s => 34 :: (escapeString s ++ [34])
  | .arr l => 91 :: (printArr l ++ [93])
  | .obj o => 123 :: (printObj o ++ [125])

/-- Comma-separated list elements (no brackets). -/
def printArr : List Json → List Nat
  | [] => []
  | [h] => printJson h
  | h :: h2 :: t => printJson h ++ 44 :: printArr (h2 :: t)

/-- Comma-separated `"key":value` pairs (no braces). -/
def printObj : JsonObj → List Nat
  | [] => []
  | [(k, v)] => 34 :: (escapeString k ++ (34 :: (58 :: printJson v)))
  | (k, v) :: kv2 :: t =>
      34 :: (escapeString k ++ (34 :: (58 :: (printJson v ++
        44 :: printObj (kv2 :: t)))))

end

/-- Value of an ASCII hex digit. -/
def hexVal (b : Nat) : Option Nat :=
  if 48 ≤ b ∧ b ≤ 57 then some (b - 48)
  else if 97 ≤ b ∧ b ≤ 102 then some (b - 87)
  else if 65 ≤ b ∧ b ≤ 70 then some (b - 55)
  else none

/-- UTF-8 encoding of a code point below 2^16 (the range reachable from a
JSON `\uXXXX` escape). -/
def utf8Encode (cp : Nat) : List Nat :=
  if cp < 128 then [cp]
  else if cp < 2048 then [192 + cp / 64, 128 + cp % 64]
  else [224 + cp / 4096, 128 + (cp / 64) % 64, 128 + cp % 64]

/-- Decoded byte of a single-character escape sequence. -/
def unescapeChar (e : Nat) : Option Nat :=
  if e = 34 then some 34
  else if e = 92 then some 92
  else if e = 47 then some 47
  else if e = 98 then some 8
  else if e = 102 then some 12
  else if e = 110 then some 10
  else if e = 114 then some 13
  else if e = 116 then some 9
  else none

/-- Code point of four ASCII hex digits. -/
def hexVal4 (h1 h2 h3 h4 : Nat) : Option Nat :=
  match hexVal h1, hexVal h2, hexVal h3, hexVal h4 with
  | some a, some b2, some c2, some d2 =>
    some (((a * 16 + b2) * 16 + c2) * 16 + d2)
  | _, _, _, _ => none

mutual

/-- JSON string-body scanner: consumes bytes up to and including the closing
quote, decoding escapes; raw control bytes are rejected, as in
`encoding/json`. Returns the decoded bytes and the rest of the input. -/
def parseStringBody : List Nat → List Nat → Option (List Nat × List Nat)
  | [], _ => none
  | b :: rest, acc =>
    if b = 34 then some (acc.reverse, rest)
    else if b = 92 then parseEscapeSeq rest acc
    else if b < 32 then none
    else parseStringBody rest (b :: acc)

/-- The bytes after a backslash. -/
def parseEscapeSeq : List Nat → List Nat → Option (List Nat × List Nat)
  | [], _ => none
  | e :: rest2, acc =>
    if e = 117 then parseHexSeq rest2 acc
    else
      match unescapeChar e with
      | some u => parseStringBody rest2 (u :: acc)
      | none => none

/-- The four hex digits after a `\u` escape. -/
def parseHexSeq : List Nat → List Nat → Option (List Nat × List Nat)
  | h1 :: h2 :: h3 :: h4 :: rest3, acc =>
    match hexVal4 h1 h2 h3 h4 with
    | some cp => parseStringBody rest3 ((utf8Encode cp).reverse ++ acc)
    | none => none
  | _, _ => none

end

mutual

/-- Modelled from the spec: the fuelled recursive-descent JSON reader
(`json.Unmarshal` into a generic value, `encoding/json` being outside this
source slice): reads one JSON value and returns it with the unconsumed
rest. -/
def parseValue : Nat → List Nat → Option (Json × List Nat)
  | 0, _ => none
  | fuel + 1, input =>
    match skipWs input with
    | [] => none
    | c :: rest =>
      if c = 110 then
        if rest.take 3 = [117, 108, 108] then some (.null, rest.drop 3) else none
      else if c = 116 then
        if rest.take 3 = [114, 117, 101] then some (.boolean true, rest.drop 3)
        else none
      else if c = 102 then
        if rest.take 4 = [97, 108, 115, 101] then some (.boolean false, rest.drop 4)
        else none
      else if c = 34 then
        match parseStringBody rest [] with
        | some (s, r) => some (.str s, r)
        | none => none
      else if c = 45 ∨ (48 ≤ c ∧ c ≤ 57) then
        some (.num ((c :: rest).takeWhile isNumChar),
          (c :: rest).drop ((c :: rest).takeWhile isNumChar).length)
      else if c = 91 then
        match skipWs rest with
        | [] => none
        | d :: rest2 =>
          if d = 93 then some (.arr [], rest2)
          else
            match parseArrayItems fuel (d :: rest2) with
            | some (l, r) => some (.arr l, r)
            | none => none
      else if c = 123 then
        match skipWs rest with
        | [] => none
        | d :: rest2 =>
          if d = 125 then some (.obj [], rest2)
          else
            match parseObjItems fuel (d :: rest2) with
            | some (o, r) => some (.obj o, r)
            | none => none
      else none

/-- One or more comma-separated values followed by `]`. -/
def parseArrayItems : Nat → List Nat → Option (List Json × List Nat)
  | 0, _ => none
  | fuel + 1, input =>
    match parseValue fuel input with
    | none => none
    | some (v, r) =>
      match skipWs r with
      | [] => none
      | d :: r2 =>
        if d = 44 then
          match parseArrayItems fuel r2 with
          | some (tl, r3) => some (v :: tl, r3)
          | none => none
        else if d = 93 then some ([v], r2)
        else none

/-- One or more comma-separated `"key":value` pairs followed by a closing
brace. -/
def parseObjItems : Nat → List Nat → Option (JsonObj × List Nat)
  | 0, _ => none
  | fuel + 1, input =>
    match skipWs input with
    | [] => none
    | c :: rest =>
      if c = 34 then
        match parseStringBody rest [] with
        | none => none
        | some (k, r) =>
          match skipWs r with
          | [] => none
          | d :: r2 =>
            if d = 58 then
              match parseValue fuel r2 with
              | none => none
              | some (v, r3) =>
                match skipWs r3 with
                | [] => none
                | e :: r4 =>
                  if e = 44 then
                    match parseObjItems fuel r4 with
                    | some (tl, r5) => some ((k, v) :: tl, r5)
                    | none => none
                  else if e = 125 then some ([(k, v)], r4)
                  else none
            else none
      else none

end

/-- `json.Unmarshal` of a whole input: one value, then only trailing
whitespace. -/
def parseJson (bz : List Nat) : Option Json :=
  match parseValue (bz.length + 1) bz with
  | none => none
  | some (t, rest) => if skipWs rest = [] then some t else none

/-- `sortJSON` (`x/tx/signing/aminojson/aminojson.go`): parse the JSON text
into the generic tree (`json.Unmarshal`) and re-emit it with every mapping's
keys sorted (`json.Marshal`); `none` models a returned error. -/
def sortJSON (toSortJSON : List Nat) : Option (List Nat) :=
  match parseJson toSortJSON with
  | none => none
  | some t => some (printJson (sortTree t))

/-! ## Key-sorting lemmas -/

/-- Keys of a pair list are pairwise distinct. -/
def objNoDup : JsonObj → Bool
  | [] => true
  | (k, _) :: tl => !objHasKey k tl && objNoDup tl

/-- Adjacent keys are strictly ascending. -/
def objSorted : JsonObj → Bool
  | [] => true
  | [_] => true
  | (k, _) :: (k2, v2) :: tl => bytesLt k k2 && objSorted ((k2, v2) :: tl)

/-- A strict lower bound on the first key of a pair list. -/
def objLb (b : List Nat) : JsonObj → Bool
  | [] => true
  | (k, _) :: _ => bytesLt b k

theorem bytesLt_total : ∀ x y : List Nat, x ≠ y →
    bytesLt x y = true ∨ bytesLt y x = true := by
  intro x
  induction x with
  | nil =>
    intro y hne
    cases y with
    | nil => exact absurd rfl hne
    | cons b bs => left; rfl
  | cons a xs ih =>
    intro y hne
    cases y with
    | nil => right; rfl
    | cons b ys =>
      by_cases hab : a < b
      · left; simp [bytesLt, hab]
      · by_cases hba : b < a
        · right; simp [bytesLt, hba]
        · have hea : a = b := Nat.le_antisymm (Nat.not_lt.mp hba) (Nat.not_lt.mp hab)
          subst hea
          have hys : xs ≠ ys := fun h => hne (by rw [h])
          cases ih ys hys with
          | inl h => left; simp [bytesLt, Nat.lt_irrefl, h]
          | inr h => right; simp [bytesLt, Nat.lt_irrefl, h]

theorem objHasKey_objInsert (a k : List Nat) (v : Json) :
    ∀ o : JsonObj, objHasKey a (objInsert k v o) =
      (decide (k = a) || objHasKey a o) := by
  intro o
  induction o with
  | nil => simp [objInsert, objHasKey]
  | cons kv tl ih =>
    obtain ⟨k2, v2⟩ := kv
    by_cases hlt : bytesLt k k2 = true
    · simp [objInsert, hlt, objHasKey]
    · simp [objInsert, hlt, objHasKey, ih]
      by_cases h2 : k2 = a
      · simp [h2]
      · simp [h2]

theorem objHasKey_objSort (a : List Nat) :
    ∀ o, objHasKey a (objSort o) = objHasKey a o := by
  intro o
  induction o with
  | nil => rfl
  | cons kv tl ih =>
    obtain ⟨k, v⟩ := kv
    rw [objSort, objHasKey_objInsert, ih]
    by_cases h : k = a
    · simp [objHasKey, h]
    · simp [objHasKey, h]

theorem objHasKey_objDedup (a : List Nat) :
    ∀ o, objHasKey a (objDedup o) = objHasKey a o := by
  intro o
  induction o with
  | nil => rfl
  | cons kv tl ih =>
    obtain ⟨k, v⟩ := kv
    by_cases h : objHasKey k tl = true
    · rw [show objDedup ((k, v) :: tl) = objDedup tl from by simp [objDedup, h]]
      rw [ih]
      by_cases hka : k = a
      · subst hka; simp [objHasKey, h]
      · simp [objHasKey, hka]
    · rw [show objDedup ((k, v) :: tl) = (k, v) :: objDedup tl from by
        simp [objDedup, h]]
      simp [objHasKey, ih]

theorem objDedup_noDup : ∀ o, objNoDup (objDedup o) = true := by
  intro o
  induction o with
  | nil => rfl
  | cons kv tl ih =>
    obtain ⟨k, v⟩ := kv
    by_cases h : objHasKey k tl = true
    · simpa [objDedup, h] using ih
    · have h2 : objHasKey k tl = false := by simpa using h
      simp [objDedup, h2, objNoDup, objHasKey_objDedup, ih]

theorem objDedup_of_noDup : ∀ o, objNoDup o = true → objDedup o = o := by
  intro o
  induction o with
  | nil => intro _; rfl
  | cons kv tl ih =>
    obtain ⟨k, v⟩ := kv
    intro h
    simp [objNoDup] at h
    simp [objDedup, h.1, ih h.2]

theorem objNoDup_objInsert (k : List Nat) (v : Json) :
    ∀ o, objNoDup o = true → objHasKey k o = false →
      objNoDup (objInsert k v o) = true := by
  intro o
  induction o with
  | nil => intro _ _; simp [objInsert, objNoDup, objHasKey]
  | cons kv tl ih =>
    obtain ⟨k2, v2⟩ := kv
    intro hnd hhk
    have hk2 : ¬ k2 = k := by
      intro he
      rw [objHasKey, if_pos he] at hhk
      exact absurd hhk (by simp)
    have hk3 : objHasKey k tl = false := by
      rw [objHasKey, if_neg hk2] at hhk
      exact hhk
    simp [objNoDup] at hnd
    by_cases hlt : bytesLt k k2 = true
    · have h1 : objHasKey k ((k2, v2) :: tl) = false := by
        rw [objHasKey, if_neg hk2]
        exact hk3
      simp [objInsert, hlt, objNoDup, h1, hnd.1, hnd.2, objHasKey]
      exact ⟨hk2, hk3⟩
    · have hk4 : objHasKey k2 (objInsert k v tl) = false := by
        rw [objHasKey_objInsert]
        simp [hnd.1]
        intro he
        exact hk2 he.symm
      simp [objInsert, hlt, objNoDup, hk4, ih hnd.2 hk3]

theorem objSort_noDup : ∀ o, objNoDup o = true → objNoDup (objSort o) = true := by
  intro o
  induction o with
  | nil => intro _; rfl
  | cons kv tl ih =>
    obtain ⟨k, v⟩ := kv
    intro h
    simp [objNoDup] at h
    rw [objSort]
    refine objNoDup_objInsert k v (objSort tl) (ih h.2) ?_
    rw [objHasKey_objSort]
    exact h.1

theorem objSorted_cons (a : List Nat) (w : Json) :
    ∀ o, objSorted ((a, w) :: o) = (objLb a o && objSorted o) := by
  intro o
  cases o with
  | nil => rfl
  | cons kv tl =>
    obtain ⟨k2, v2⟩ := kv
    rfl

theorem objSorted_tail (a : List Nat) (w : Json) (o : JsonObj)
    (h : objSorted ((a, w) :: o) = true) :
    objLb a o = true ∧ objSorted o = true := by
  rw [objSorted_cons] at h
  simpa using h

theorem objInsert_sorted (k : List Nat) (v : Json) :
    ∀ o, objSorted o = true → objHasKey k o = false →
      objSorted (objInsert k v o) = true ∧
      ∀ b, bytesLt b k = true → objLb b o = true →
        objLb b (objInsert k v o) = true := by
  intro o
  induction o with
  | nil =>
    intro _ _
    constructor
    · rfl
    · intro b hb _
      simpa [objInsert, objLb] using hb
  | cons kv tl ih =>
    obtain ⟨k2, v2⟩ := kv
    intro hs hhk
    have hk2 : ¬ k2 = k := by
      intro he
      rw [objHasKey, if_pos he] at hhk
      exact absurd hhk (by simp)
    have hk3 : objHasKey k tl = false := by
      rw [objHasKey, if_neg hk2] at hhk
      exact hhk
    obtain ⟨hlb, hstl⟩ := objSorted_tail k2 v2 tl hs
    by_cases hlt : bytesLt k k2 = true
    · constructor
      · rw [show objInsert k v ((k2, v2) :: tl) = (k, v) :: (k2, v2) :: tl from by
          simp [objInsert, hlt]]
        rw [objSorted_cons]
        simp [objLb, hlt, hs]
      · intro b hb _
        rw [show objInsert k v ((k2, v2) :: tl) = (k, v) :: (k2, v2) :: tl from by
          simp [objInsert, hlt]]
        simpa [objLb] using hb
    · have hlt2 : bytesLt k2 k = true := by
        cases bytesLt_total k2 k (fun he => hk2 he) with
        | inl h => exact h
        | inr h => exact absurd h hlt
      obtain ⟨hins, hlbp⟩ := ih hstl hk3
      constructor
      · rw [show objInsert k v ((k2, v2) :: tl) = (k2, v2) :: objInsert k v tl from by
          simp [objInsert, hlt]]
        rw [objSorted_cons]
        simp [hins, hlbp k2 hlt2 hlb]
      · intro b hb hlbb
        rw [show objInsert k v ((k2, v2) :: tl) = (k2, v2) :: objInsert k v tl from by
          simp [objInsert, hlt]]
        simpa [objLb] using hlbb

theorem objSort_sorted : ∀ o, objNoDup o = true → objSorted (objSort o) = true := by
  intro o
  induction o with
  | nil => intro _; rfl
  | cons kv tl ih =>
    obtain ⟨k, v⟩ := kv
    intro h
    simp [objNoDup] at h
    rw [objSort]
    have hk : objHasKey k (objSort tl) = false := by
      rw [objHasKey_objSort]
      exact h.1
    exact (objInsert_sorted k v (objSort tl) (ih h.2) hk).1

theorem objInsert_of_lb (k : List Nat) (v : Json) :
    ∀ o, objLb k o = true → objInsert k v o = (k, v) :: o := by
  intro o hlb
  cases o with
  | nil => rfl
  | cons kv tl =>
    obtain ⟨k2, v2⟩ := kv
    simp [objLb] at hlb
    simp [objInsert, hlb]

theorem objSort_of_sorted : ∀ o, objSorted o = true → objSort o = o := by
  intro o
  induction o with
  | nil => intro _; rfl
  | cons kv tl ih =>
    obtain ⟨k, v⟩ := kv
    intro h
    obtain ⟨hlb, hs⟩ := objSorted_tail k v tl h
    rw [objSort, ih hs, objInsert_of_lb k v tl hlb]

/-! ## Tree measures and invariants -/

mutual

/-- Structural size of a tree (an upper bound on the reader fuel it needs). -/
def sizeJ : Json → Nat
  | .null => 1
  | .boolean _ => 1
  | .num _ => 1
  | .str _ => 1
  | .arr l => 1 + sizeL l
  | .obj o => 1 + sizeO o

/-- Size of a value list. -/
def sizeL : List Json → Nat
  | [] => 0
  | h :: t => 1 + sizeJ h + sizeL t

/-- Size of a pair list. -/
def sizeO : JsonObj → Nat
  | [] => 0
  | (_, v) :: t => 1 + sizeJ v + sizeO t

end

theorem sizeJ_pos (t : Json) : 1 ≤ sizeJ t := by
  cases t <;> simp only [sizeJ] <;> omega

/-- A well-formed number token: nonempty, starts with a minus sign or a
digit, and consists of number bytes only. -/
def numTokWf : List Nat → Bool
  | [] => false
  | c :: rest => (c == 45 || (decide (48 ≤ c) && decide (c ≤ 57))) &&
      (c :: rest).all isNumChar

mutual

/-- Every number token in the tree is well-formed (true of every tree the
reader produces). -/
def numWf : Json → Bool
  | .null => true
  | .boolean _ => true
  | .num s => numTokWf s
  | .str _ => true
  | .arr l => numWfL l
  | .obj o => numWfO o

/-- `numWf` over a value list. -/
def numWfL : List Json → Bool
  | [] => true
  | h :: t => numWf h && numWfL t

/-- `numWf` over the values of a pair list. -/
def numWfO : JsonObj → Bool
  | [] => true
  | (_, v) :: t => numWf v && numWfO t

end

mutual

/-- A canonical tree: every mapping is strictly key-sorted with distinct
keys, recursively. `sortTree` always produces a canonical tree and is the
identity on canonical trees. -/
def canonJ : Json → Bool
  | .null => true
  | .boolean _ => true
  | .num _ => true
  | .str _ => true
  | .arr l => canonL l
  | .obj o => objSorted o && objNoDup o && canonO o

/-- `canonJ` over a value list. -/
def canonL : List Json → Bool
  | [] => true
  | h :: t => canonJ h && canonL t

/-- `canonJ` over the values of a pair list. -/
def canonO : JsonObj → Bool
  | [] => true
  | (_, v) :: t => canonJ v && canonO t

end

theorem numWfO_objInsert (k : List Nat) (v : Json) :
    ∀ o, numWfO (objInsert k v o) = (numWf v && numWfO o) := by
  intro o
  induction o with
  | nil => simp [objInsert, numWfO]
  | cons kv tl ih =>
    obtain ⟨k2, v2⟩ := kv
    by_cases hlt : bytesLt k k2 = true
    · simp [objInsert, hlt, numWfO]
    · simp [objInsert, hlt, numWfO, ih, Bool.and_left_comm]

theorem numWfO_objSort : ∀ o, numWfO (objSort o) = numWfO o := by
  intro o
  induction o with
  | nil => rfl
  | cons kv tl ih =>
    obtain ⟨k, v⟩ := kv
    simp [objSort, numWfO_objInsert, ih, numWfO]

theorem numWfO_objDedup : ∀ o, numWfO o = true → numWfO (objDedup o) = true := by
  intro o
  induction o with
  | nil => intro _; rfl
  | cons kv tl ih =>
    obtain ⟨k, v⟩ := kv
    intro h
    simp [numWfO] at h
    by_cases hk : objHasKey k tl = true
    · simp [objDedup, hk, ih h.2]
    · simp [objDedup, hk, numWfO, h.1, ih h.2]

theorem canonO_objInsert (k : List Nat) (v : Json) :
    ∀ o, canonO (objInsert k v o) = (canonJ v && canonO o) := by
  intro o
  induction o with
  | nil => simp [objInsert, canonO]
  | cons kv tl ih =>
    obtain ⟨k2, v2⟩ := kv
    by_cases hlt : bytesLt k k2 = true
    · simp [objInsert, hlt, canonO]
    · simp [objInsert, hlt, canonO, ih, Bool.and_left_comm]

theorem canonO_objSort : ∀ o, canonO (objSort o) = canonO o := by
  intro o
  induction o with
  | nil => rfl
  | cons kv tl ih =>
    obtain ⟨k, v⟩ := kv
    simp [objSort, canonO_objInsert, ih, canonO]

theorem canonO_objDedup : ∀ o, canonO o = true → canonO (objDedup o) = true := by
  intro o
  induction o with
  | nil => intro _; rfl
  | cons kv tl ih =>
    obtain ⟨k, v⟩ := kv
    intro h
    simp [canonO] at h
    by_cases hk : objHasKey k tl = true
    · simp [objDedup, hk, ih h.2]
    · simp [objDedup, hk, canonO, h.1, ih h.2]

theorem sortTree_numWf_aux : ∀ N : Nat,
    (∀ t : Json, sizeJ t ≤ N → numWf t = true → numWf (sortTree t) = true) ∧
    (∀ l : List Json, sizeL l ≤ N → numWfL l = true →
        numWfL (sortTreeList l) = true) ∧
    (∀ o : JsonObj, sizeO o ≤ N → numWfO o = true →
        numWfO (sortTreeObj o) = true) := by
  intro N
  induction N with
  | zero =>
    refine ⟨fun t hsz _ => absurd hsz (by have := sizeJ_pos t; omega), ?_, ?_⟩
    · intro l hsz hwf
      cases l with
      | nil => simp [sortTreeList, numWfL]
      | cons h t => exact absurd hsz (by simp only [sizeL]; omega)
    · intro o hsz hwf
      cases o with
      | nil => simp [sortTreeObj, numWfO]
      | cons kv t =>
        obtain ⟨k, v⟩ := kv
        exact absurd hsz (by simp only [sizeO]; omega)
  | succ n ih =>
    obtain ⟨ihJ, ihL, ihO⟩ := ih
    refine ⟨?_, ?_, ?_⟩
    · intro t hsz hwf
      cases t with
      | null => simp [sortTree, numWf]
      | boolean b => simp [sortTree, numWf]
      | num s => simpa [sortTree, numWf] using hwf
      | str s => simp [sortTree, numWf]
      | arr l =>
        have hsz2 : sizeL l ≤ n := by simp only [sizeJ] at hsz; omega
        have hwf2 : numWfL l = true := by simpa [numWf] using hwf
        simpa [sortTree, numWf] using ihL l hsz2 hwf2
      | obj o =>
        have hsz2 : sizeO o ≤ n := by simp only [sizeJ] at hsz; omega
        have hwf2 : numWfO o = true := by simpa [numWf] using hwf
        have h1 := ihO o hsz2 hwf2
        simp [sortTree, numWf, numWfO_objSort]
        exact numWfO_objDedup _ h1
    · intro l hsz hwf
      cases l with
      | nil => simp [sortTreeList, numWfL]
      | cons h t =>
        have h1 : sizeJ h ≤ n := by simp only [sizeL] at hsz; omega
        have h2 : sizeL t ≤ n := by simp only [sizeL] at hsz; omega
        simp [numWfL] at hwf
        simp [sortTreeList, numWfL, ihJ h h1 hwf.1, ihL t h2 hwf.2]
    · intro o hsz hwf
      cases o with
      | nil => simp [sortTreeObj, numWfO]
      | cons kv t =>
        obtain ⟨k, v⟩ := kv
        have h1 : sizeJ v ≤ n := by simp only [sizeO] at hsz; omega
        have h2 : sizeO t ≤ n := by simp only [sizeO] at hsz; omega
        simp [numWfO] at hwf
        simp [sortTreeObj, numWfO, ihJ v h1 hwf.1, ihO t h2 hwf.2]

theorem sortTree_numWf (t : Json) (h : numWf t = true) :
    numWf (sortTree t) = true :=
  (sortTree_numWf_aux (sizeJ t)).1 t le_rfl h

theorem sortTree_canon_aux : ∀ N : Nat,
    (∀ t : Json, sizeJ t ≤ N → canonJ (sortTree t) = true) ∧
    (∀ l : List Json, sizeL l ≤ N → canonL (sortTreeList l) = true) ∧
    (∀ o : JsonObj, sizeO o ≤ N → canonO (sortTreeObj o) = true) := by
  intro N
  induction N with
  | zero =>
    refine ⟨fun t hsz => absurd hsz (by have := sizeJ_pos t; omega), ?_, ?_⟩
    · intro l hsz
      cases l with
      | nil => simp [sortTreeList, canonL]
      | cons h t => exact absurd hsz (by simp only [sizeL]; omega)
    · intro o hsz
      cases o with
      | nil => simp [sortTreeObj, canonO]
      | cons kv t =>
        obtain ⟨k, v⟩ := kv
        exact absurd hsz (by simp only [sizeO]; omega)
  | succ n ih =>
    obtain ⟨ihJ, ihL, ihO⟩ := ih
    refine ⟨?_, ?_, ?_⟩
    · intro t hsz
      cases t with
      | null => simp [sortTree, canonJ]
      | boolean b => simp [sortTree, canonJ]
      | num s => simp [sortTree, canonJ]
      | str s => simp [sortTree, canonJ]
      | arr l =>
        have hsz2 : sizeL l ≤ n := by simp only [sizeJ] at hsz; omega
        simpa [sortTree, canonJ] using ihL l hsz2
      | obj o =>
        have hsz2 : sizeO o ≤ n := by simp only [sizeJ] at hsz; omega
        have hco := ihO o hsz2
        have hnd := objDedup_noDup (sortTreeObj o)
        have hs := objSort_sorted _ hnd
        have hn := objSort_noDup _ hnd
        have hc : canonO (objSort (objDedup (sortTreeObj o))) = true := by
          rw [canonO_objSort]
          exact canonO_objDedup _ hco
        simp [sortTree, canonJ, hs, hn, hc]
    · intro l hsz
      cases l with
      | nil => simp [sortTreeList, canonL]
      | cons h t =>
        have h1 : sizeJ h ≤ n := by simp only [sizeL] at hsz; omega
        have h2 : sizeL t ≤ n := by simp only [sizeL] at hsz; omega
        simp [sortTreeList, canonL, ihJ h h1, ihL t h2]
    · intro o hsz
      cases o with
      | nil => simp [sortTreeObj, canonO]
      | cons kv t =>
        obtain ⟨k, v⟩ := kv
        have h1 : sizeJ v ≤ n := by simp only [sizeO] at hsz; omega
        have h2 : sizeO t ≤ n := by simp only [sizeO] at hsz; omega
        simp [sortTreeObj, canonO, ihJ v h1, ihO t h2]

theorem sortTree_canon (t : Json) : canonJ (sortTree t) = true :=
  (sortTree_canon_aux (sizeJ t)).1 t le_rfl

theorem canon_sortTree_id_aux : ∀ N : Nat,
    (∀ t : Json, sizeJ t ≤ N → canonJ t = true → sortTree t = t) ∧
    (∀ l : List Json, sizeL l ≤ N → canonL l = true → sortTreeList l = l) ∧
    (∀ o : JsonObj, sizeO o ≤ N → canonO o = true → sortTreeObj o = o) := by
  intro N
  induction N with
  | zero =>
    refine ⟨fun t hsz _ => absurd hsz (by have := sizeJ_pos t; omega), ?_, ?_⟩
    · intro l hsz _
      cases l with
      | nil => simp [sortTreeList]
      | cons h t => exact absurd hsz (by simp only [sizeL]; omega)
    · intro o hsz _
      cases o with
      | nil => simp [sortTreeObj]
      | cons kv t =>
        obtain ⟨k, v⟩ := kv
        exact absurd hsz (by simp only [sizeO]; omega)
  | succ n ih =>
    obtain ⟨ihJ, ihL, ihO⟩ := ih
    refine ⟨?_, ?_, ?_⟩
    · intro t hsz hc
      cases t with
      | null => simp [sortTree]
      | boolean b => simp [sortTree]
      | num s => simp [sortTree]
      | str s => simp [sortTree]
      | arr l =>
        have hsz2 : sizeL l ≤ n := by simp only [sizeJ] at hsz; omega
        have hc2 : canonL l = true := by simpa [canonJ] using hc
        simp [sortTree, ihL l hsz2 hc2]
      | obj o =>
        have hsz2 : sizeO o ≤ n := by simp only [sizeJ] at hsz; omega
        simp [canonJ] at hc
        have h1 : sortTreeObj o = o := ihO o hsz2 hc.2
        rw [sortTree, h1, objDedup_of_noDup o hc.1.2, objSort_of_sorted o hc.1.1]
    · intro l hsz hc
      cases l with
      | nil => simp [sortTreeList]
      | cons h t =>
        have h1 : sizeJ h ≤ n := by simp only [sizeL] at hsz; omega
        have h2 : sizeL t ≤ n := by simp only [sizeL] at hsz; omega
        simp [canonL] at hc
        simp [sortTreeList, ihJ h h1 hc.1, ihL t h2 hc.2]
    · intro o hsz hc
      cases o with
      | nil => simp [sortTreeObj]
      | cons kv t =>
        obtain ⟨k, v⟩ := kv
        have h1 : sizeJ v ≤ n := by simp only [sizeO] at hsz; omega
        have h2 : sizeO t ≤ n := by simp only [sizeO] at hsz; omega
        simp [canonO] at hc
        simp [sortTreeObj, ihJ v h1 hc.1, ihO t h2 hc.2]

theorem sortTree_idem (t : Json) : sortTree (sortTree t) = sortTree t :=
  (canon_sortTree_id_aux (sizeJ (sortTree t))).1 (sortTree t) le_rfl
    (sortTree_canon t)

/-! ## Reader lemmas -/

theorem skipWs_cons_not_ws (b : Nat) (r : List Nat) (h : isWs b = false) :
    skipWs (b :: r) = b :: r := by
  simp [skipWs, h]

theorem hexVal_hexDigit (x : Nat) (h : x < 16) : hexVal (hexDigit x) = some x := by
  interval_cases x <;> rfl

theorem parseStringBody_escape : ∀ (s acc r : List Nat),
    parseStringBody (escapeString s ++ (34 :: r)) acc =
      some (acc.reverse ++ s, r) := by
  intro s
  induction s with
  | nil =>
    intro acc r
    simp [escapeString, parseStringBody]
  | cons b bs ih =>
    intro acc r
    by_cases h34 : b = 34
    · subst h34
      have he : escapeString (34 :: bs) = 92 :: 34 :: escapeString bs := by
        simp [escapeString]
      rw [he]
      simp only [List.cons_append]
      simp [parseStringBody, parseEscapeSeq, unescapeChar, ih]
    · by_cases h92 : b = 92
      · subst h92
        have he : escapeString (92 :: bs) = 92 :: 92 :: escapeString bs := by
          simp [escapeString]
        rw [he]
        simp only [List.cons_append]
        simp [parseStringBody, parseEscapeSeq, unescapeChar, ih]
      · by_cases h10 : b = 10
        · subst h10
          have he : escapeString (10 :: bs) = 92 :: 110 :: escapeString bs := by
            simp [escapeString]
          rw [he]
          simp only [List.cons_append]
          simp [parseStringBody, parseEscapeSeq, unescapeChar, ih]
        · by_cases h13 : b = 13
          · subst h13
            have he : escapeString (13 :: bs) = 92 :: 114 :: escapeString bs := by
              simp [escapeString]
            rw [he]
            simp only [List.cons_append]
            simp [parseStringBody, parseEscapeSeq, unescapeChar, ih]
          · by_cases h9 : b = 9
            · subst h9
              have he : escapeString (9 :: bs) = 92 :: 116 :: escapeString bs := by
                simp [escapeString]
              rw [he]
              simp only [List.cons_append]
              simp [parseStringBody, parseEscapeSeq, unescapeChar, ih]
            · by_cases hhex : b < 32 ∨ b = 60 ∨ b = 62 ∨ b = 38
              · have he : escapeString (b :: bs) =
                    92 :: 117 :: 48 :: 48 :: hexDigit (b / 16) ::
                      hexDigit (b % 16) :: escapeString bs := by
                  simp [escapeString, h34, h92, h10, h13, h9, hhex]
                have hd1 : hexVal (hexDigit (b / 16)) = some (b / 16) :=
                  hexVal_hexDigit _ (by omega)
                have hd2 : hexVal (hexDigit (b % 16)) = some (b % 16) :=
                  hexVal_hexDigit _ (by omega)
                have h48 : hexVal 48 = some 0 := by simp [hexVal]
                have hq : hexVal4 48 48 (hexDigit (b / 16)) (hexDigit (b % 16)) =
                    some b := by
                  simp only [hexVal4, h48, hd1, hd2, Option.some.injEq]
                  omega
                have hb128 : b < 128 := by omega
                have hu : utf8Encode b = [b] := by simp [utf8Encode, hb128]
                rw [he]
                simp only [List.cons_append]
                simp [parseStringBody, parseEscapeSeq, parseHexSeq, hq, hu, ih]
              · have hge : ¬ b < 32 := fun hlt => hhex (Or.inl hlt)
                have he : escapeString (b :: bs) = b :: escapeString bs := by
                  simp [escapeString, h34, h92, h10, h13, h9, hhex]
                rw [he]
                simp only [List.cons_append]
                simp [parseStringBody, h34, h92, hge, ih]

/-- No number byte follows immediately (true of whatever follows a printed
value inside a JSON document, and of the empty rest). -/
def restOk : List Nat → Prop
  | [] => True
  | b :: _ => isNumChar b = false

theorem takeWhile_append_all (r : List Nat) (hr : restOk r) :
    ∀ s : List Nat, s.all isNumChar = true →
      (s ++ r).takeWhile isNumChar = s := by
  intro s
  induction s with
  | nil =>
    intro _
    cases r with
    | nil => rfl
    | cons b bs =>
      simp only [restOk] at hr
      simp [List.takeWhile_cons, hr]
  | cons c cs ih =>
    intro hall
    simp only [List.all_cons, Bool.and_eq_true] at hall
    simp [List.takeWhile_cons, hall.1, ih hall.2]

theorem all_takeWhile_isNumChar : ∀ l : List Nat,
    (l.takeWhile isNumChar).all isNumChar = true := by
  intro l
  induction l with
  | nil => rfl
  | cons a t ih =>
    by_cases h : isNumChar a = true
    · simp [List.takeWhile_cons, h, List.all_cons, ih]
    · simp [List.takeWhile_cons, h]

theorem numTokWf_take (c : Nat) (rest : List Nat)
    (hc : c = 45 ∨ (48 ≤ c ∧ c ≤ 57)) :
    numTokWf ((c :: rest).takeWhile isNumChar) = true := by
  have hcn : isNumChar c = true := by
    simp [isNumChar]
    omega
  rw [List.takeWhile_cons, if_pos hcn, numTokWf]
  simp [List.all_cons, hcn, all_takeWhile_isNumChar]
  omega

theorem printJson_head (t : Json) (h : numWf t = true) :
    ∃ b bs, printJson t = b :: bs ∧ isWs b = false ∧ b ≠ 93 ∧ b ≠ 125 ∧
      b ≠ 44 ∧ b ≠ 58 := by
  cases t with
  | null =>
    exact ⟨110, [117, 108, 108], by simp [printJson], by decide, by decide,
      by decide, by decide, by decide⟩
  | boolean b =>
    cases b with
    | true =>
      exact ⟨116, [114, 117, 101], by simp [printJson], by decide, by decide,
        by decide, by decide, by decide⟩
    | false =>
      exact ⟨102, [97, 108, 115, 101], by simp [printJson], by decide,
        by decide, by decide, by decide, by decide⟩
  | num s =>
    cases s with
    | nil => exact absurd h (by simp [numWf, numTokWf])
    | cons c cs =>
      have hc : c = 45 ∨ (48 ≤ c ∧ c ≤ 57) := by
        simp [numWf, numTokWf] at h
        omega
      refine ⟨c, cs, by simp [printJson], ?_, ?_, ?_, ?_, ?_⟩
      · simp [isWs]
        omega
      · omega
      · omega
      · omega
      · omega
  | str s =>
    exact ⟨34, escapeString s ++ [34], by simp [printJson], by decide,
      by decide, by decide, by decide, by decide⟩
  | arr l =>
    exact ⟨91, printArr l ++ [93], by simp [printJson], by decide, by decide,
      by decide, by decide, by decide⟩
  | obj o =>
    exact ⟨123, printObj o ++ [125], by simp [printJson], by decide, by decide,
      by decide, by decide, by decide⟩

theorem parse_numWf : ∀ fuel : Nat,
    (∀ input t r, parseValue fuel input = some (t, r) → numWf t = true) ∧
    (∀ input l r, parseArrayItems fuel input = some (l, r) → numWfL l = true) ∧
    (∀ input o r, parseObjItems fuel input = some (o, r) → numWfO o = true) := by
  intro fuel
  induction fuel with
  | zero =>
    refine ⟨?_, ?_, ?_⟩ <;> intro input x r h
    · exact absurd h (by simp [parseValue])
    · exact absurd h (by simp [parseArrayItems])
    · exact absurd h (by simp [parseObjItems])
  | succ n ih =>
    obtain ⟨ihV, ihA, ihB⟩ := ih
    refine ⟨?_, ?_, ?_⟩
    · intro input t r h
      rw [parseValue] at h
      split at h
      · exact absurd h (by simp)
      · split at h
        · split at h
          · injection h with hp
            injection hp with h1 h2
            rw [← h1]
            simp [numWf]
          · exact absurd h (by simp)
        · split at h
          · split at h
            · injection h with hp
              injection hp with h1 h2
              rw [← h1]
              simp [numWf]
            · exact absurd h (by simp)
          · split at h
            · split at h
              · injection h with hp
                injection hp with h1 h2
                rw [← h1]
                simp [numWf]
              · exact absurd h (by simp)
            · split at h
              · split at h
                · injection h with hp
                  injection hp with h1 h2
                  rw [← h1]
                  simp [numWf]
                · exact absurd h (by simp)
              · split at h
                · rename_i c rest hsw hn1 hn2 hn3 hn4 hguard
                  injection h with hp
                  injection hp with h1 h2
                  rw [← h1]
                  simpa [numWf] using numTokWf_take c rest hguard
                · split at h
                  · split at h
                    · exact absurd h (by simp)
                    · split at h
                      · injection h with hp
                        injection hp with h1 h2
                        rw [← h1]
                        simp [numWf, numWfL]
                      · split at h
                        · rename_i l r2 heq
                          injection h with hp
                          injection hp with h1 h2
                          rw [← h1]
                          simpa [numWf] using ihA _ _ _ heq
                        · exact absurd h (by simp)
                  · split at h
                    · split at h
                      · exact absurd h (by simp)
                      · split at h
                        · injection h with hp
                          injection hp with h1 h2
                          rw [← h1]
                          simp [numWf, numWfO]
                        · split at h
                          · rename_i o r2 heq
                            injection h with hp
                            injection hp with h1 h2
                            rw [← h1]
                            simpa [numWf] using ihB _ _ _ heq
                          · exact absurd h (by simp)
                    · exact absurd h (by simp)
    · intro input l r h
      rw [parseArrayItems] at h
      split at h
      · exact absurd h (by simp)
      · rename_i v r1 heqv
        split at h
        · exact absurd h (by simp)
        · split at h
          · split at h
            · rename_i tl r3 heqtl
              injection h with hp
              injection hp with h1 h2
              rw [← h1]
              simp [numWfL, ihV _ _ _ heqv, ihA _ _ _ heqtl]
            · exact absurd h (by simp)
          · split at h
            · injection h with hp
              injection hp with h1 h2
              rw [← h1]
              simp [numWfL, ihV _ _ _ heqv]
            · exact absurd h (by simp)
    · intro input o r h
      rw [parseObjItems] at h
      split at h
      · exact absurd h (by simp)
      · split at h
        · split at h
          · exact absurd h (by simp)
          · rename_i k r1 heqk
            split at h
            · exact absurd h (by simp)
            · split at h
              · split at h
                · exact absurd h (by simp)
                · rename_i v r3 heqv
                  split at h
                  · exact absurd h (by simp)
                  · split at h
                    · split at h
                      · rename_i tl r5 heqtl
                        injection h with hp
                        injection hp with h1 h2
                        rw [← h1]
                        simp [numWfO, ihV _ _ _ heqv, ihB _ _ _ heqtl]
                      · exact absurd h (by simp)
                    · split at h
                      · injection h with hp
                        injection hp with h1 h2
                        rw [← h1]
                        simp [numWfO, ihV _ _ _ heqv]
                      · exact absurd h (by simp)
              · exact absurd h (by simp)
        · exact absurd h (by simp)

theorem sizeJ_le_print_aux : ∀ N : Nat,
    (∀ t : Json, sizeJ t ≤ N → numWf t = true →
        sizeJ t ≤ (printJson t).length) ∧
    (∀ l : List Json, sizeL l ≤ N → numWfL l = true →
        sizeL l ≤ (printArr l).length + 1) ∧
    (∀ o : JsonObj, sizeO o ≤ N → numWfO o = true →
        sizeO o ≤ (printObj o).length + 1) := by
  intro N
  induction N with
  | zero =>
    refine ⟨fun t hsz _ => absurd hsz (by have := sizeJ_pos t; omega), ?_, ?_⟩
    · intro l hsz _
      cases l with
      | nil => simp [sizeL]
      | cons h t => exact absurd hsz (by simp only [sizeL]; omega)
    · intro o hsz _
      cases o with
      | nil => simp [sizeO]
      | cons kv t =>
        obtain ⟨k, v⟩ := kv
        exact absurd hsz (by simp only [sizeO]; omega)
  | succ n ih =>
    obtain ⟨ihJ, ihL, ihO⟩ := ih
    refine ⟨?_, ?_, ?_⟩
    · intro t hsz hwf
      cases t with
      | null => simp [sizeJ, printJson]
      | boolean b => cases b <;> simp [sizeJ, printJson]
      | num s =>
        cases s with
        | nil => exact absurd hwf (by simp [numWf, numTokWf])
        | cons c cs => simp [sizeJ, printJson]
      | str s => simp [sizeJ, printJson]
      | arr l =>
        cases l with
        | nil => simp [sizeJ, sizeL, printJson, printArr]
        | cons h t =>
          have hszl : sizeL (h :: t) ≤ n := by simp only [sizeJ] at hsz; omega
          have hwl : numWfL (h :: t) = true := by simpa [numWf] using hwf
          have hle := ihL (h :: t) hszl hwl
          simp only [sizeJ, printJson, List.length_cons, List.length_append] at hle ⊢
          omega
      | obj o =>
        cases o with
        | nil => simp [sizeJ, sizeO, printJson, printObj]
        | cons kv t =>
          have hszo : sizeO (kv :: t) ≤ n := by simp only [sizeJ] at hsz; omega
          have hwo : numWfO (kv :: t) = true := by simpa [numWf] using hwf
          have hle := ihO (kv :: t) hszo hwo
          simp only [sizeJ, printJson, List.length_cons, List.length_append] at hle ⊢
          omega
    · intro l hsz hwf
      cases l with
      | nil => simp [sizeL]
      | cons h t =>
        have h1 : sizeJ h ≤ n := by simp only [sizeL] at hsz; omega
        have h2 : sizeL t ≤ n := by simp only [sizeL] at hsz; omega
        simp only [numWfL, Bool.and_eq_true] at hwf
        have ihh := ihJ h h1 hwf.1
        cases t with
        | nil =>
          simp only [sizeL, printArr]
          omega
        | cons h2t t2 =>
          have iht := ihL (h2t :: t2) h2 hwf.2
          simp only [sizeL, printArr, List.length_append, List.length_cons] at iht ⊢
          omega
    · intro o hsz hwf
      cases o with
      | nil => simp [sizeO]
      | cons kv t =>
        obtain ⟨k, v⟩ := kv
        have h1 : sizeJ v ≤ n := by simp only [sizeO] at hsz; omega
        have h2 : sizeO t ≤ n := by simp only [sizeO] at hsz; omega
        simp only [numWfO, Bool.and_eq_true] at hwf
        have ihv := ihJ v h1 hwf.1
        cases t with
        | nil =>
          simp only [sizeO, printObj, List.length_cons, List.length_append]
          omega
        | cons kv2 t2 =>
          obtain ⟨k2, v2⟩ := kv2
          have iht := ihO ((k2, v2) :: t2) h2 hwf.2
          simp only [sizeO, printObj, List.length_cons, List.length_append] at iht ⊢
          omega

theorem sizeJ_le_print (t : Json) (h : numWf t = true) :
    sizeJ t ≤ (printJson t).length :=
  (sizeJ_le_print_aux (sizeJ t)).1 t le_rfl h

theorem parse_print_aux : ∀ N : Nat,
    (∀ t : Json, sizeJ t ≤ N → numWf t = true → ∀ fuel r, sizeJ t ≤ fuel →
        restOk r → parseValue fuel (printJson t ++ r) = some (t, r)) ∧
    (∀ (hd : Json) (tl : List Json), sizeL (hd :: tl) ≤ N →
        numWfL (hd :: tl) = true → ∀ fuel r, sizeL (hd :: tl) ≤ fuel →
        parseArrayItems fuel (printArr (hd :: tl) ++ (93 :: r)) =
          some (hd :: tl, r)) ∧
    (∀ (k : List Nat) (v : Json) (tl : JsonObj), sizeO ((k, v) :: tl) ≤ N →
        numWfO ((k, v) :: tl) = true → ∀ fuel r, sizeO ((k, v) :: tl) ≤ fuel →
        parseObjItems fuel (printObj ((k, v) :: tl) ++ (125 :: r)) =
          some ((k, v) :: tl, r)) := by
  intro N
  induction N with
  | zero =>
    refine ⟨fun t hsz _ => absurd hsz (by have := sizeJ_pos t; omega), ?_, ?_⟩
    · intro hd tl hsz _
      exact absurd hsz (by simp only [sizeL]; omega)
    · intro k v tl hsz _
      exact absurd hsz (by simp only [sizeO]; omega)
  | succ n ih =>
    obtain ⟨ihJ, ihL, ihO⟩ := ih
    refine ⟨?_, ?_, ?_⟩
    · intro t hsz hwf fuel r hfuel hr
      cases fuel with
      | zero => exact absurd (le_trans (sizeJ_pos t) hfuel) (by omega)
      | succ f =>
        cases t with
        | null =>
          simp [printJson, parseValue, skipWs, isWs]
        | boolean b =>
          cases b <;> simp [printJson, parseValue, skipWs, isWs]
        | num s =>
          cases s with
          | nil => exact absurd hwf (by simp [numWf, numTokWf])
          | cons c cs =>
            have hwf2 : numTokWf (c :: cs) = true := by simpa [numWf] using hwf
            have hc : c = 45 ∨ (48 ≤ c ∧ c ≤ 57) := by
              simp [numTokWf] at hwf2
              omega
            have hall : (c :: cs).all isNumChar = true := by
              simp only [numTokWf, Bool.and_eq_true] at hwf2
              exact hwf2.2
            have hws : isWs c = false := by
              simp [isWs]
              omega
            have htw2 : (c :: (cs ++ r)).takeWhile isNumChar = c :: cs := by
              simpa using takeWhile_append_all r hr (c :: cs) hall
            have hdp2 : (c :: (cs ++ r)).drop (c :: cs).length = r := by
              simp
            have hn110 : ¬ c = 110 := by omega
            have hn116 : ¬ c = 116 := by omega
            have hn102 : ¬ c = 102 := by omega
            have hn34 : ¬ c = 34 := by omega
            rw [show printJson (.num (c :: cs)) ++ r = c :: (cs ++ r) from by
              simp [printJson]]
            rw [parseValue, skipWs_cons_not_ws c (cs ++ r) hws]
            simp only [hn110, hn116, hn102, hn34, hc, ite_true, ite_false,
              if_true, if_false, iff_true]
            rw [htw2, hdp2]
        | str s =>
          have hps := parseStringBody_escape s [] r
          simp only [List.reverse_nil, List.nil_append] at hps
          rw [show printJson (.str s) ++ r =
              34 :: (escapeString s ++ (34 :: r)) from by
            simp [printJson]]
          rw [parseValue, skipWs_cons_not_ws 34 _ (by decide)]
          simp [hps]
        | arr l =>
          cases l with
          | nil =>
            simp [printJson, printArr, parseValue, skipWs, isWs]
          | cons hd tl =>
            have hwl : numWfL (hd :: tl) = true := by simpa [numWf] using hwf
            have hnw1 : numWf hd = true := by
              simp only [numWfL, Bool.and_eq_true] at hwl
              exact hwl.1
            obtain ⟨b, bs, hpr, hbws, hb93, hb125, hb44, hb58⟩ :=
              printJson_head hd hnw1
            obtain ⟨tail, heq⟩ : ∃ tail,
                printArr (hd :: tl) ++ (93 :: r) = b :: tail := by
              cases tl with
              | nil => exact ⟨bs ++ (93 :: r), by simp [printArr, hpr]⟩
              | cons h2 t2 =>
                exact ⟨bs ++ (44 :: (printArr (h2 :: t2) ++ (93 :: r))), by
                  simp [printArr, hpr]⟩
            have hszl : sizeL (hd :: tl) ≤ n := by
              simp only [sizeJ] at hsz
              omega
            have hfl : sizeL (hd :: tl) ≤ f := by
              simp only [sizeJ] at hfuel
              omega
            have hih := ihL hd tl hszl hwl f r hfl
            have hih2 : parseArrayItems f (b :: tail) = some (hd :: tl, r) := by
              rw [← heq]
              exact hih
            have hsw1 : skipWs (91 :: b :: tail) = 91 :: b :: tail :=
              skipWs_cons_not_ws _ _ (by decide)
            have hsw2 : skipWs (b :: tail) = b :: tail :=
              skipWs_cons_not_ws _ _ hbws
            rw [show printJson (.arr (hd :: tl)) ++ r =
                91 :: (printArr (hd :: tl) ++ (93 :: r)) from by
              simp [printJson]]
            rw [heq, parseValue]
            simp [hsw1, hsw2, hb93, hih2]
        | obj o =>
          cases o with
          | nil =>
            simp [printJson, printObj, parseValue, skipWs, isWs]
          | cons kv tl =>
            obtain ⟨k, v⟩ := kv
            have hszo : sizeO ((k, v) :: tl) ≤ n := by
              simp only [sizeJ] at hsz
              omega
            have hfo : sizeO ((k, v) :: tl) ≤ f := by
              simp only [sizeJ] at hfuel
              omega
            have hwo : numWfO ((k, v) :: tl) = true := by simpa [numWf] using hwf
            have hih := ihO k v tl hszo hwo f r hfo
            obtain ⟨tail, heq⟩ : ∃ tail,
                printObj ((k, v) :: tl) ++ (125 :: r) = 34 :: tail := by
              cases tl with
              | nil =>
                exact ⟨escapeString k ++ (34 :: (58 :: (printJson v ++
                  (125 :: r)))), by simp [printObj]⟩
              | cons kv2 t2 =>
                obtain ⟨k2, v2⟩ := kv2
                exact ⟨escapeString k ++ (34 :: (58 :: (printJson v ++
                  44 :: (printObj ((k2, v2) :: t2) ++ (125 :: r))))), by
                  simp [printObj]⟩
            have hih2 : parseObjItems f (34 :: tail) = some ((k, v) :: tl, r) := by
              rw [← heq]
              exact hih
            have hsw1 : skipWs (123 :: 34 :: tail) = 123 :: 34 :: tail :=
              skipWs_cons_not_ws _ _ (by decide)
            have hsw2 : skipWs (34 :: tail) = 34 :: tail :=
              skipWs_cons_not_ws _ _ (by decide)
            rw [show printJson (.obj ((k, v) :: tl)) ++ r =
                123 :: (printObj ((k, v) :: tl) ++ (125 :: r)) from by
              simp [printJson]]
            rw [heq, parseValue]
            simp [hsw1, hsw2, hih2]
    · intro hd tl hsz hwf fuel r hfuel
      cases fuel with
      | zero => exact absurd hfuel (by simp only [sizeL]; omega)
      | succ f =>
        simp only [numWfL, Bool.and_eq_true] at hwf
        have h1 : sizeJ hd ≤ n := by simp only [sizeL] at hsz; omega
        have h1f : sizeJ hd ≤ f := by simp only [sizeL] at hfuel; omega
        cases tl with
        | nil =>
          have hv := ihJ hd h1 hwf.1 f (93 :: r) h1f (by simp [restOk, isNumChar])
          have hsw : skipWs (93 :: r) = 93 :: r :=
            skipWs_cons_not_ws _ _ (by decide)
          rw [show printArr [hd] ++ (93 :: r) = printJson hd ++ (93 :: r) from by
            simp [printArr]]
          rw [parseArrayItems, hv]
          simp [hsw]
        | cons h2 t2 =>
          have h2sz : sizeL (h2 :: t2) ≤ n := by
            simp only [sizeL] at hsz ⊢
            omega
          have h2f : sizeL (h2 :: t2) ≤ f := by
            simp only [sizeL] at hfuel ⊢
            omega
          have hv := ihJ hd h1 hwf.1 f
            (44 :: (printArr (h2 :: t2) ++ (93 :: r))) h1f
            (by simp [restOk, isNumChar])
          have hrec := ihL h2 t2 h2sz hwf.2 f r h2f
          have hsw : skipWs (44 :: (printArr (h2 :: t2) ++ (93 :: r))) =
              44 :: (printArr (h2 :: t2) ++ (93 :: r)) :=
            skipWs_cons_not_ws _ _ (by decide)
          rw [show printArr (hd :: h2 :: t2) ++ (93 :: r) =
              printJson hd ++ (44 :: (printArr (h2 :: t2) ++ (93 :: r))) from by
            simp [printArr]]
          rw [parseArrayItems, hv]
          simp [hsw, hrec]
    · intro k v tl hsz hwf fuel r hfuel
      cases fuel with
      | zero => exact absurd hfuel (by simp only [sizeO]; omega)
      | succ f =>
        simp only [numWfO, Bool.and_eq_true] at hwf
        have h1 : sizeJ v ≤ n := by simp only [sizeO] at hsz; omega
        have h1f : sizeJ v ≤ f := by simp only [sizeO] at hfuel; omega
        have hkey := parseStringBody_escape k []
        cases tl with
        | nil =>
          have hk := hkey (58 :: (printJson v ++ (125 :: r)))
          simp only [List.reverse_nil, List.nil_append] at hk
          have hv := ihJ v h1 hwf.1 f (125 :: r) h1f (by simp [restOk, isNumChar])
          have hsw1 : skipWs (34 :: (escapeString k ++ (34 :: (58 ::
              (printJson v ++ (125 :: r)))))) = 34 :: (escapeString k ++
              (34 :: (58 :: (printJson v ++ (125 :: r))))) :=
            skipWs_cons_not_ws _ _ (by decide)
          have hsw2 : skipWs (58 :: (printJson v ++ (125 :: r))) =
              58 :: (printJson v ++ (125 :: r)) :=
            skipWs_cons_not_ws _ _ (by decide)
          have hsw3 : skipWs (125 :: r) = 125 :: r :=
            skipWs_cons_not_ws _ _ (by decide)
          rw [show printObj [(k, v)] ++ (125 :: r) =
              34 :: (escapeString k ++ (34 :: (58 :: (printJson v ++
                (125 :: r))))) from by
            simp [printObj]]
          rw [parseObjItems]
          simp [hsw1, hsw2, hsw3, hk, hv]
        | cons kv2 t2 =>
          obtain ⟨k2, v2⟩ := kv2
          have h2sz : sizeO ((k2, v2) :: t2) ≤ n := by
            simp only [sizeO] at hsz ⊢
            omega
          have h2f : sizeO ((k2, v2) :: t2) ≤ f := by
            simp only [sizeO] at hfuel ⊢
            omega
          have hk := hkey (58 :: (printJson v ++
            (44 :: (printObj ((k2, v2) :: t2) ++ (125 :: r)))))
          simp only [List.reverse_nil, List.nil_append] at hk
          have hv := ihJ v h1 hwf.1 f
            (44 :: (printObj ((k2, v2) :: t2) ++ (125 :: r))) h1f
            (by simp [restOk, isNumChar])
          have hrec := ihO k2 v2 t2 h2sz hwf.2 f r h2f
          have hsw1 : skipWs (34 :: (escapeString k ++ (34 :: (58 ::
              (printJson v ++ (44 :: (printObj ((k2, v2) :: t2) ++
                (125 :: r)))))))) = 34 :: (escapeString k ++ (34 :: (58 ::
              (printJson v ++ (44 :: (printObj ((k2, v2) :: t2) ++
                (125 :: r))))))) :=
            skipWs_cons_not_ws _ _ (by decide)
          have hsw2 : skipWs (58 :: (printJson v ++ (44 ::
              (printObj ((k2, v2) :: t2) ++ (125 :: r))))) =
              58 :: (printJson v ++ (44 :: (printObj ((k2, v2) :: t2) ++
                (125 :: r)))) :=
            skipWs_cons_not_ws _ _ (by decide)
          have hsw3 : skipWs (44 :: (printObj ((k2, v2) :: t2) ++ (125 :: r))) =
              44 :: (printObj ((k2, v2) :: t2) ++ (125 :: r)) :=
            skipWs_cons_not_ws _ _ (by decide)
          rw [show printObj ((k, v) :: (k2, v2) :: t2) ++ (125 :: r) =
              34 :: (escapeString k ++ (34 :: (58 :: (printJson v ++
                (44 :: (printObj ((k2, v2) :: t2) ++ (125 :: r))))))) from by
            simp [printObj]]
          rw [parseObjItems]
          simp [hsw1, hsw2, hsw3, hk, hv, hrec]

theorem parseJson_numWf (bz : List Nat) (t : Json) (h : parseJson bz = some t) :
    numWf t = true := by
  rw [parseJson] at h
  cases hp : parseValue (bz.length + 1) bz with
  | none => simp [hp] at h
  | some x =>
    obtain ⟨t2, rest⟩ := x
    simp only [hp] at h
    by_cases hsw : skipWs rest = []
    · rw [if_pos hsw] at h
      injection h with h1
      rw [← h1]
      exact (parse_numWf (bz.length + 1)).1 bz t2 rest hp
    · rw [if_neg hsw] at h
      exact absurd h (by simp)

theorem parseJson_print (s : Json) (hwf : numWf s = true) :
    parseJson (printJson s) = some s := by
  have hsz : sizeJ s ≤ (printJson s).length := sizeJ_le_print s hwf
  have hp := (parse_print_aux (sizeJ s)).1 s le_rfl hwf
    ((printJson s).length + 1) [] (by omega) (by simp [restOk])
  rw [List.append_nil] at hp
  rw [parseJson, hp]
  simp [skipWs]

/-- C8: canonicalisation is idempotent — when `sortJSON` accepts an input
and produces canonical output, applying `sortJSON` to that output returns
it byte-identically: `sortJSON x = some out → sortJSON out = some out`. -/
theorem sortJSON_idempotent (x out : List Nat)
    (h : sortJSON x = some out) : sortJSON out = some out := by
  rw [sortJSON] at h
  cases hp : parseJson x with
  | none => simp [hp] at h
  | some t =>
    simp only [hp] at h
    injection h with h1
    have hnw : numWf t = true := parseJson_numWf x t hp
    have hnw2 : numWf (sortTree t) = true := sortTree_numWf t hnw
    rw [sortJSON, ← h1, parseJson_print (sortTree t) hnw2]
    simp [sortTree_idem]

theorem sortJSON_idempotent_witness :
    sortJSON [123, 34, 98, 34, 58, 49, 44, 34, 97, 34, 58, 50, 125] =
      some [123, 34, 97, 34, 58, 50, 44, 34, 98, 34, 58, 49, 125] ∧
    sortJSON [123, 34, 97, 34, 58, 50, 44, 34, 98, 34, 58, 49, 125] =
      some [123, 34, 97, 34, 58, 50, 44, 34, 98, 34, 58, 49, 125] := by
  have h : sortJSON [123, 34, 98, 34, 58, 49, 44, 34, 97, 34, 58, 50, 125] =
      some [123, 34, 97, 34, 58, 50, 44, 34, 98, 34, 58, 49, 125] := by
    simp [sortJSON, parseJson, parseValue, parseObjItems, parseStringBody,
      skipWs, isWs, isNumChar, List.takeWhile_cons, sortTree, sortTreeObj,
      objDedup, objHasKey, objSort, objInsert, bytesLt, printJson, printObj,
      escapeString]
  exact ⟨h, sortJSON_idempotent _ _ h⟩

/-! ## Amino-JSON sign bytes (`x/tx/signing/aminojson/aminojson.go`) -/

/-- A coin, as it appears in fee and tip amounts. -/
structure Coin where
  denom : String
  amount : String
deriving DecidableEq

/-- `cosmos.tx.v1beta1.Fee` as used by `GetSignBytes`. -/
structure Fee where
  amount : List Coin
  gasLimit : Nat
  payer : String
  granter : String
deriving DecidableEq

/-- `cosmos.tx.v1beta1.Tip` as used by `GetSignBytes`. -/
structure Tip where
  amount : List Coin
  tipper : String
deriving DecidableEq

/-- `AuthInfo`: the fee and tip of the transaction; `none` models a nil
pointer. -/
structure AuthInfo where
  fee : Option Fee
  tip : Option Tip
deriving DecidableEq

/-- A packed message (`google.protobuf.Any`) of the body's message list. -/
structure AnyMsg where
  typeUrl : String
  value : List Nat
deriving DecidableEq

/-- `TxBody` as read by `GetSignBytes`: message list, memo, timeout height
and the two extension-option lists. -/
structure TxBody where
  messages : List AnyMsg
  memo : String
  timeoutHeight : Nat
  extensionOptions : List AnyMsg
  nonCriticalExtensionOptions : List AnyMsg
deriving DecidableEq

/-- `signing.SignerData`. -/
structure SignerData where
  address : String
  chainId : String
  accountNumber : Nat
  sequence : Nat
deriving DecidableEq

/-- `signing.TxData`: the decoded body, the raw body bytes it came from, and
the auth info. -/
structure TxData where
  body : TxBody
  bodyBytes : List Nat
  authInfo : AuthInfo
deriving DecidableEq

/-- `txv1beta1.AminoSignFee`. -/
structure AminoSignFee where
  amount : List Coin
  gas : Nat
  payer : String
  granter : String
deriving DecidableEq

/-- `txv1beta1.AminoSignDoc`. -/
structure AminoSignDoc where
  accountNumber : Nat
  timeoutHeight : Nat
  chainId : String
  sequence : Nat
  memo : String
  msgs : List AnyMsg
  fee : AminoSignFee
deriving DecidableEq

/-- The error cases of `GetSignBytes`. -/
inductive SignErr where
  | rejectUnknown : RErr → SignErr
  | extOptionsNotSupported : SignErr
  | emptyAddress : SignErr
  | emptyTipper : SignErr
  | feeNil : SignErr
  | encodeFail : SignErr
  | sortFail : SignErr
deriving DecidableEq

/-- Whether a present tip has an empty tipper address
(`tip != nil && tip.Tipper == ""`). -/
def tipperIsEmpty : Option Tip → Bool
  | some t => t.tipper == ""
  | none => false

/-- The `isTipper` test of `GetSignBytes`
(`tip != nil && tip.Tipper == signerData.Address`). -/
def isTipperOf (tip : Option Tip) (address : String) : Bool :=
  match tip with
  | some t => t.tipper == address
  | none => false

/-- `GetSignBytes` (`x/tx/signing/aminojson/aminojson.go`, lines 58-107), up
to and including the construction of the `AminoSignDoc`: the unknown-field
check of the raw body bytes, the three precondition checks, and the fee/tip
selection. The transaction-body descriptor
(`body.ProtoReflect().Descriptor()` in the source) and the file resolver
are parameters. -/
def getSignDoc (fileResolver : Resolver) (bodyDesc : MessageDescriptor)
    (signerData : SignerData) (txData : TxData) :
    Except SignErr AminoSignDoc :=
  match (RejectUnknownFields txData.bodyBytes bodyDesc false fileResolver).2 with
  | some e => .error (.rejectUnknown e)
  | none =>
    if txData.body.extensionOptions.length > 0 ∨
        txData.body.nonCriticalExtensionOptions.length > 0 then
      .error .extOptionsNotSupported
    else if signerData.address = "" then
      .error .emptyAddress
    else if tipperIsEmpty txData.authInfo.tip then
      .error .emptyTipper
    else if isTipperOf txData.authInfo.tip signerData.address then
      .ok { accountNumber := signerData.accountNumber,
            timeoutHeight := txData.body.timeoutHeight,
            chainId := signerData.chainId,
            sequence := signerData.sequence,
            memo := txData.body.memo,
            msgs := txData.body.messages,
            fee := { amount := [], gas := 0, payer := "", granter := "" } }
    else
      match txData.authInfo.fee with
      | none => .error .feeNil
      | some f =>
        .ok { accountNumber := signerData.accountNumber,
              timeoutHeight := txData.body.timeoutHeight,
              chainId := signerData.chainId,
              sequence := signerData.sequence,
              memo := txData.body.memo,
              msgs := txData.body.messages,
              fee := { amount := f.amount, gas := f.gasLimit, payer := f.payer,
                       granter := f.granter } }

/-- `GetSignBytes` in full: build the sign document, amino-encode it (the
legacy encoder is abstracted as the `marshal` parameter; `none` models an
encoding error), then canonicalise the resulting text with `sortJSON`. -/
def getSignBytes (fileResolver : Resolver) (bodyDesc : MessageDescriptor)
    (marshal : AminoSignDoc → Option (List Nat))
    (signerData : SignerData) (txData : TxData) : Except SignErr (List Nat) :=
  match getSignDoc fileResolver bodyDesc signerData txData with
  | .error e => .error e
  | .ok doc =>
    match marshal doc with
    | none => .error .encodeFail
    | some bz =>
      match sortJSON bz with
      | none => .error .sortFail
      | some js => .ok js

/-- C6: when a tip is present and the signer address equals the tipper
address, the sign document's fee is the empty/zero placeholder (no amount,
gas zero) for every value of the transaction's declared fee; otherwise the
document's fee is copied field by field from the declared fee (amount, gas
limit, payer, granter), which must then be present. -/
theorem sign_doc_fee_selection (res : Resolver) (bodyDesc : MessageDescriptor)
    (sd : SignerData) (td : TxData) (doc : AminoSignDoc)
    (h : getSignDoc res bodyDesc sd td = .ok doc) :
    (isTipperOf td.authInfo.tip sd.address = true →
        doc.fee = { amount := [], gas := 0, payer := "", granter := "" }) ∧
    (isTipperOf td.authInfo.tip sd.address = false →
        ∃ f, td.authInfo.fee = some f ∧
          doc.fee = { amount := f.amount, gas := f.gasLimit, payer := f.payer,
                      granter := f.granter }) := by
  rw [getSignDoc] at h
  split at h
  · exact absurd h (by simp)
  · split at h
    · exact absurd h (by simp)
    · split at h
      · exact absurd h (by simp)
      · split at h
        · exact absurd h (by simp)
        · split at h
          · rename_i htip
            injection h with h1
            constructor
            · intro _
              rw [← h1]
            · intro hfalse
              exact absurd htip (by simp [hfalse])
          · rename_i htip
            split at h
            · exact absurd h (by simp)
            · rename_i f hfee
              constructor
              · intro htrue
                exact absurd htrue htip
              · intro _
                injection h with h1
                exact ⟨f, hfee, by rw [← h1]⟩

theorem sign_doc_fee_selection_witness :
    ∃ doc, getSignDoc testRes testDesc
        { address := "addr", chainId := "c", accountNumber := 1, sequence := 2 }
        { body := { messages := [], memo := "m", timeoutHeight := 3,
                    extensionOptions := [], nonCriticalExtensionOptions := [] },
          bodyBytes := [],
          authInfo := { fee := some { amount := [], gasLimit := 7,
                                      payer := "p", granter := "g" },
                        tip := some { amount := [], tipper := "addr" } } } =
      .ok doc ∧
      doc.fee = { amount := [], gas := 0, payer := "", granter := "" } := by
  have hdoc : getSignDoc testRes testDesc
      { address := "addr", chainId := "c", accountNumber := 1, sequence := 2 }
      { body := { messages := [], memo := "m", timeoutHeight := 3,
                  extensionOptions := [], nonCriticalExtensionOptions := [] },
        bodyBytes := [],
        authInfo := { fee := some { amount := [], gasLimit := 7,
                                    payer := "p", granter := "g" },
                      tip := some { amount := [], tipper := "addr" } } } =
      .ok { accountNumber := 1, timeoutHeight := 3, chainId := "c",
            sequence := 2, memo := "m", msgs := [],
            fee := { amount := [], gas := 0, payer := "", granter := "" } } := by
    rfl
  exact ⟨_, hdoc, (sign_doc_fee_selection _ _ _ _ _ hdoc).1 rfl⟩

/-- C7: `GetSignBytes` fails with an error and returns no sign bytes
whenever a precondition is violated — the body carries extension options of
either kind, the signer address is empty, a tip is present with an empty
tipper address, or the fee is absent while the signer is not the tipper —
for every encoder. -/
theorem sign_bytes_precondition_failures (res : Resolver)
    (bodyDesc : MessageDescriptor) (marshal : AminoSignDoc → Option (List Nat))
    (sd : SignerData) (td : TxData)
    (h : td.body.extensionOptions ≠ [] ∨
         td.body.nonCriticalExtensionOptions ≠ [] ∨
         sd.address = "" ∨
         (∃ t, td.authInfo.tip = some t ∧ t.tipper = "") ∨
         (isTipperOf td.authInfo.tip sd.address = false ∧
           td.authInfo.fee = none)) :
    ∃ e, getSignBytes res bodyDesc marshal sd td = .error e := by
  have hdoc : ∃ e, getSignDoc res bodyDesc sd td = .error e := by
    rw [getSignDoc]
    split
    · exact ⟨_, rfl⟩
    · split
      · exact ⟨_, rfl⟩
      · rename_i hext
        split
        · exact ⟨_, rfl⟩
        · rename_i haddr
          split
          · exact ⟨_, rfl⟩
          · rename_i hte
            split
            · rename_i htip
              exfalso
              rcases h with h | h | h | ⟨t, ht, htt⟩ | ⟨hnt, hfn⟩
              · exact hext (Or.inl (List.length_pos.mpr h))
              · exact hext (Or.inr (List.length_pos.mpr h))
              · exact haddr h
              · exact hte (by rw [ht]; simp [tipperIsEmpty, htt])
              · rw [hnt] at htip
                exact absurd htip (by simp)
            · rename_i hnt
              split
              · exact ⟨_, rfl⟩
              · rename_i f hfee
                exfalso
                rcases h with h | h | h | ⟨t, ht, htt⟩ | ⟨hnt2, hfn⟩
                · exact hext (Or.inl (List.length_pos.mpr h))
                · exact hext (Or.inr (List.length_pos.mpr h))
                · exact haddr h
                · exact hte (by rw [ht]; simp [tipperIsEmpty, htt])
                · rw [hfee] at hfn
                  exact absurd hfn (by simp)
  obtain ⟨e, he⟩ := hdoc
  refine ⟨e, ?_⟩
  rw [getSignBytes, he]

theorem sign_bytes_precondition_failures_witness :
    ∃ e, getSignBytes testRes testDesc (fun _ => some [])
        { address := "", chainId := "c", accountNumber := 1, sequence := 2 }
        { body := { messages := [], memo := "", timeoutHeight := 0,
                    extensionOptions := [], nonCriticalExtensionOptions := [] },
          bodyBytes := [],
          authInfo := { fee := some { amount := [], gasLimit := 0,
                                      payer := "", granter := "" },
                        tip := none } } = .error e :=
  sign_bytes_precondition_failures _ _ _ _ _ (Or.inr (Or.inr (Or.inl rfl)))

end CosmosTx
